import Mathlib

/-!
# TalentEditor: grid layout and prerequisite arrow routing

A shallow embedding of `grid_layout.go` (the `grid4x15` layout) and of the arrow
drawing functions of `talent_editor.go`.

Modelling conventions

* `float32` values are rationals (`ℚ`). The definitions named after the source compute
  in exact arithmetic; those ending in `Rounded` or `In` take the rounding of every
  float32 operation as a parameter `rnd`, and `f32` is the rounding to the nearest
  float32.
* Go slices are lists; `make([]float32, n)` is `List.replicate n 0`; a guarded
  slice read `a[i]` is `a.getD i 0` and a slice write is `List.set`.
* A `fyne.CanvasObject` is the record of what the layout reads and writes:
  its minimum size, its position and its size.
* A run that panics in Go (negative `make` length, integer division by zero,
  nil receiver) returns `none`.
-/

set_option autoImplicit false

namespace TalentEditor

/-! ## Data model -/

/-- A `fyne.CanvasObject` seen from the layout: `MinSize()` is `(minW, minH)`,
`Position()` is `(x, y)` and `Size()` is `(w, h)`. -/
structure CanvasObject where
  minW : ℚ
  minH : ℚ
  x : ℚ
  y : ℚ
  w : ℚ
  h : ℚ
deriving DecidableEq

/-- The method `obj.Move(fyne.NewPos(px, py))`. -/
def CanvasObject.Move (o : CanvasObject) (px py : ℚ) : CanvasObject :=
  { o with x := px, y := py }

/-- The method `obj.Resize(fyne.NewSize(sw, sh))`. -/
def CanvasObject.Resize (o : CanvasObject) (sw sh : ℚ) : CanvasObject :=
  { o with w := sw, h := sh }

/-- The struct `grid4x15` of `grid_layout.go`; `Rows` and `Cols` are Go `int`s. -/
structure grid4x15 where
  Rows : Int
  Cols : Int
  HorizontalPad : ℚ
  VerticalPad : ℚ
deriving DecidableEq

/-! ## `grid4x15.Layout` -/

/-- Body of the first loop of `Layout` (lines 55-65) at flat index `i`:
the pair is `(colWidths, rowHeights)`. -/
def layoutMeasureStep (rows cols : Nat) (acc : List ℚ × List ℚ) (i : Nat)
    (obj : CanvasObject) : List ℚ × List ℚ :=
  let row := i / cols
  let col := i % cols
  let colWidths :=
    if col < cols ∧ obj.minW > acc.1.getD col 0 then acc.1.set col obj.minW else acc.1
  let rowHeights :=
    if row < rows ∧ obj.minH > acc.2.getD row 0 then acc.2.set row obj.minH else acc.2
  (colWidths, rowHeights)

/-- The first loop of `Layout`, `for i, obj := range objects`, started at index `i`. -/
def layoutMeasureLoop (rows cols : Nat) :
    List CanvasObject → Nat → List ℚ × List ℚ → List ℚ × List ℚ
  | [], _, acc => acc
  | obj :: rest, i, acc =>
      layoutMeasureLoop rows cols rest (i + 1) (layoutMeasureStep rows cols acc i obj)

/-- The measurement pass of `Layout` (lines 51-65): both slices start zeroed. -/
def layoutMeasure (rows cols : Nat) (objects : List CanvasObject) : List ℚ × List ℚ :=
  layoutMeasureLoop rows cols objects 0 (List.replicate cols 0, List.replicate rows 0)

/-- The offset loops of `Layout` (lines 68-75):
`for c := 1; c < n; c++ { offs[c] = offs[c-1] + sizes[c-1] + pad }` on a zeroed slice,
in exact arithmetic; `cumulativeOffsetsRounded` is the loop with both additions rounded
as float32 rounds them. -/
def cumulativeOffsets (sizes : List ℚ) (pad : ℚ) (n : Nat) : List ℚ :=
  (List.range' 1 (n - 1)).foldl
    (fun offs c => offs.set c (offs.getD (c - 1) 0 + sizes.getD (c - 1) 0 + pad))
    (List.replicate n 0)

/-- Body of the placement loop of `Layout` (lines 79-84) at flat index `i`. -/
def placeObject (rows cols : Nat) (colOffsets rowOffsets colWidths rowHeights : List ℚ)
    (i : Nat) (obj : CanvasObject) : CanvasObject :=
  let row := i / cols
  let col := i % cols
  if row < rows ∧ col < cols then
    (obj.Move (colOffsets.getD col 0) (rowOffsets.getD row 0)).Resize
      (colWidths.getD col 0) (rowHeights.getD row 0)
  else obj

/-- The placement loop of `Layout` (lines 78-85), started at index `i`. -/
def placeLoop (rows cols : Nat) (colOffsets rowOffsets colWidths rowHeights : List ℚ) :
    List CanvasObject → Nat → List CanvasObject
  | [], _ => []
  | obj :: rest, i =>
      placeObject rows cols colOffsets rowOffsets colWidths rowHeights i obj ::
        placeLoop rows cols colOffsets rowOffsets colWidths rowHeights rest (i + 1)

/-- The three passes of `Layout` for row and column counts that are natural numbers. -/
def layoutPasses (rows cols : Nat) (hpad vpad : ℚ) (objects : List CanvasObject) :
    List CanvasObject :=
  let m := layoutMeasure rows cols objects
  let colOffsets := cumulativeOffsets m.1 hpad cols
  let rowOffsets := cumulativeOffsets m.2 vpad rows
  placeLoop rows cols colOffsets rowOffsets m.1 m.2 objects 0

/-- The method `grid4x15.Layout` (lines 50-86). The result is the object list after the
call. `make` panics on a negative length and `i / g.Cols` panics when `g.Cols = 0` and
there is an object to visit. The argument `containerSize` is never read. The offsets are
summed in exact arithmetic; `LayoutRounded` is the method with the float32 rounding. -/
def Layout (g : grid4x15) (objects : List CanvasObject) (_containerSize : ℚ × ℚ) :
    Option (List CanvasObject) :=
  if g.Cols < 0 ∨ g.Rows < 0 then none
  else if g.Cols = 0 ∧ objects ≠ [] then none
  else some (layoutPasses g.Rows.toNat g.Cols.toNat g.HorizontalPad g.VerticalPad objects)

/-- The slice `colWidths` after the measurement pass of `Layout`. -/
def Layout.colWidths (g : grid4x15) (objects : List CanvasObject) : List ℚ :=
  (layoutMeasure g.Rows.toNat g.Cols.toNat objects).1

/-- The slice `rowHeights` after the measurement pass of `Layout`. -/
def Layout.rowHeights (g : grid4x15) (objects : List CanvasObject) : List ℚ :=
  (layoutMeasure g.Rows.toNat g.Cols.toNat objects).2

/-! ## `grid4x15.MinSize` -/

/-- Body of the first loop of `MinSize` (lines 16-26) at flat index `i`. -/
def minSizeMeasureStep (rows cols : Nat) (acc : List ℚ × List ℚ) (i : Nat)
    (obj : CanvasObject) : List ℚ × List ℚ :=
  let row := i / cols
  let col := i % cols
  let colWidths :=
    if col < cols ∧ obj.minW > acc.1.getD col 0 then acc.1.set col obj.minW else acc.1
  let rowHeights :=
    if row < rows ∧ obj.minH > acc.2.getD row 0 then acc.2.set row obj.minH else acc.2
  (colWidths, rowHeights)

/-- The first loop of `MinSize`, started at index `i`. -/
def minSizeMeasureLoop (rows cols : Nat) :
    List CanvasObject → Nat → List ℚ × List ℚ → List ℚ × List ℚ
  | [], _, acc => acc
  | obj :: rest, i, acc =>
      minSizeMeasureLoop rows cols rest (i + 1) (minSizeMeasureStep rows cols acc i obj)

/-- The measurement pass of `MinSize` (lines 13-26). -/
def minSizeMeasure (rows cols : Nat) (objects : List CanvasObject) : List ℚ × List ℚ :=
  minSizeMeasureLoop rows cols objects 0 (List.replicate cols 0, List.replicate rows 0)

/-- The loops `for _, w := range xs { total += w }` of `MinSize` (lines 28-34), in exact
arithmetic; `sumLoopRounded` is the loop with the addition rounded. -/
def sumLoop (xs : List ℚ) : ℚ :=
  xs.foldl (fun total w => total + w) 0

/-- The method `grid4x15.MinSize` (lines 12-48): `(width, height)` of the returned size.
It panics where `Layout` does. The totals are in exact arithmetic; `MinSizeRounded` is
the method with the float32 rounding. -/
def MinSize (g : grid4x15) (objects : List CanvasObject) : Option (ℚ × ℚ) :=
  if g.Cols < 0 ∨ g.Rows < 0 then none
  else if g.Cols = 0 ∧ objects ≠ [] then none
  else
    let m := minSizeMeasure g.Rows.toNat g.Cols.toNat objects
    let totalWidth := sumLoop m.1 + ((g.Cols - 1 : Int) : ℚ) * g.HorizontalPad
    let totalHeight := sumLoop m.2 + ((g.Rows - 1 : Int) : ℚ) * g.VerticalPad
    let totalWidth :=
      if totalWidth = 0 then (g.Cols : ℚ) * 50 + ((g.Cols - 1 : Int) : ℚ) * g.HorizontalPad
      else totalWidth
    let totalHeight :=
      if totalHeight = 0 then (g.Rows : ℚ) * 50 + ((g.Rows - 1 : Int) : ℚ) * g.VerticalPad
      else totalHeight
    some (totalWidth, totalHeight)

/-- The slice `colWidths` after the measurement pass of `MinSize`. -/
def MinSize.colWidths (g : grid4x15) (objects : List CanvasObject) : List ℚ :=
  (minSizeMeasure g.Rows.toNat g.Cols.toNat objects).1

/-- The slice `rowHeights` after the measurement pass of `MinSize`. -/
def MinSize.rowHeights (g : grid4x15) (objects : List CanvasObject) : List ℚ :=
  (minSizeMeasure g.Rows.toNat g.Cols.toNat objects).2

/-! ## Arrow heads and routes (`talent_editor.go`) -/

/-- A `canvas.Line` as the arrow functions build it: `Position1 = (x1, y1)` and
`Position2 = (x2, y2)`. Colour and stroke width are the same constants on every line. -/
structure Line where
  x1 : ℚ
  y1 : ℚ
  x2 : ℚ
  y2 : ℚ
deriving DecidableEq

/-- The library call `math.Hypot`, the Euclidean length of `(dx, dy)`. Rationals have no
exact square root in general: the model is the rational square root, which is the exact
length whenever that length is rational, as on every axis-aligned segment. -/
def hypot (dx dy : ℚ) : ℚ :=
  Rat.sqrt (dx * dx + dy * dy)

/-- The function `createArrowHead` (lines 547-579): the lines it returns, `nil` being
the empty list. In exact arithmetic with the rational square root; `createArrowHeadIn`
is the function with the rounding and the square root as parameters. -/
def createArrowHead (x1 y1 x2 y2 size : ℚ) : List Line :=
  let dx := x2 - x1
  let dy := y2 - y1
  let length := hypot dx dy
  if length = 0 then []
  else
    let ux := dx / length
    let uy := dy / length
    let px := -uy
    let py := ux
    let leftX := x2 - ux * size + px * size / 2
    let leftY := y2 - uy * size + py * size / 2
    let rightX := x2 - ux * size - px * size / 2
    let rightY := y2 - uy * size - py * size / 2
    [⟨x2, y2, leftX, leftY⟩, ⟨x2, y2, rightX, rightY⟩]

/-- The function `drawHorizontalArrow` (lines 623-646): the objects it adds to the
container, in order. In exact arithmetic; `drawHorizontalArrowRounded` is the function
with the float32 rounding. -/
def drawHorizontalArrow (parentX parentY parentW childX childW : ℚ) : List Line :=
  let startX := parentX + parentW / 2
  let endX := childX + childW / 2
  let startY := parentY + parentW / 2
  let endY := startY
  let ends : ℚ × ℚ :=
    if endX > startX then (parentX + parentW, childX) else (parentX, childX + childW)
  let startX := ends.1
  let endX := ends.2
  ⟨startX, startY, endX, endY⟩ :: createArrowHead startX startY endX endY 8

/-- The function `drawVerticalArrow` (lines 649-664): the objects it adds to the
container, in order. -/
def drawVerticalArrow (parentX parentY parentH childY : ℚ) : List Line :=
  let startX := parentX + parentH / 2
  let startY := parentY + parentH
  let endX := startX
  let endY := childY
  ⟨startX, startY, endX, endY⟩ :: createArrowHead startX startY endX endY 8

/-- The function `drawStepArrow` (lines 667-695): the objects it adds to the container,
in order. -/
def drawStepArrow (parentX parentY parentW parentH childX childY childW : ℚ) : List Line :=
  let startX := if childX > parentX then parentX + parentW else parentX
  let startY := parentY + parentH / 2
  let endX := childX + childW / 2
  let endY := childY
  ⟨startX, startY, endX, startY⟩ :: ⟨endX, startY, endX, endY⟩ ::
    createArrowHead endX startY endX endY 8

/-- Which of the three drawing functions `drawTalentArrows` calls. -/
inductive ArrowKind where
  | horizontal
  | vertical
  | step
deriving DecidableEq

/-- The test `// Determine arrow type` of `drawTalentArrows` (lines 610-616). -/
def selectArrow (parentX parentY childX childY : ℚ) : ArrowKind :=
  if parentY = childY then ArrowKind.horizontal
  else if parentX = childX then ArrowKind.vertical
  else ArrowKind.step

/-- One call of a drawing function made by `drawTalentArrows`: the entity it is drawn
for (`id`), the prerequisite (`preID`), the function called and the objects that call
adds to the container. -/
structure Route where
  childID : Int
  parentID : Int
  kind : ArrowKind
  objects : List Line
deriving DecidableEq

/-- Lines 600-616 of `drawTalentArrows`: read the two rectangles and call the selected
drawing function with the arguments the source passes. -/
def drawArrow (id preID : Int) (preBtn btn : CanvasObject) : Route :=
  let parentX := preBtn.x
  let parentY := preBtn.y
  let parentW := preBtn.w
  let parentH := preBtn.h
  let childX := btn.x
  let childY := btn.y
  let childW := btn.w
  match selectArrow parentX parentY childX childY with
  | ArrowKind.horizontal =>
      ⟨id, preID, ArrowKind.horizontal,
        drawHorizontalArrow parentX parentY parentW childX childW⟩
  | ArrowKind.vertical =>
      ⟨id, preID, ArrowKind.vertical, drawVerticalArrow parentX parentY parentH childY⟩
  | ArrowKind.step =>
      ⟨id, preID, ArrowKind.step,
        drawStepArrow parentX parentY parentW parentH childX childY childW⟩

/-- The type `sql.NullInt64`. -/
structure NullInt64 where
  Int64 : Int
  Valid : Bool
deriving DecidableEq

/-- The fields of the struct `Talent` that the grid and the arrows read. -/
structure Talent where
  ID : Int
  TierID : NullInt64
  ColumnIndex : NullInt64
  PreReqTalent : Fin 3 → NullInt64

/-- A Go map from `int` to a pointer, listed in the order a `range` visits it; `none` is
the nil pointer and a missing key has no entry. -/
abbrev PtrMap (α : Type) : Type := List (Int × Option α)

/-- The lookup `v, ok := m[k]`: `none` when `ok` is false. -/
def PtrMap.find {α : Type} (m : PtrMap α) (k : Int) : Option (Option α) :=
  match m with
  | [] => none
  | (k1, v) :: rest => if k1 = k then some v else PtrMap.find rest k

/-- One round of the loop `for i := 0; i < 3; i++` of `drawTalentArrows` (lines 590-616):
the routes it draws. Reading the position of a nil `btn` panics. -/
def prereqRoutes (buttonMap : PtrMap CanvasObject) (id : Int) (btn : Option CanvasObject)
    (t : Talent) (i : Fin 3) : Option (List Route) :=
  if !(t.PreReqTalent i).Valid || (t.PreReqTalent i).Int64 == 0 then some []
  else
    let preID := (t.PreReqTalent i).Int64
    match buttonMap.find preID with
    | none => some []
    | some none => some []
    | some (some preBtn) =>
        match btn with
        | none => none
        | some b => some [drawArrow id preID preBtn b]

/-- The loop over the three prerequisite slots of one talent (lines 589-617). -/
def talentRoutes (buttonMap : PtrMap CanvasObject) (id : Int) (btn : Option CanvasObject)
    (t : Talent) : Option (List Route) :=
  (prereqRoutes buttonMap id btn t 0).bind fun r0 =>
    (prereqRoutes buttonMap id btn t 1).bind fun r1 =>
      (prereqRoutes buttonMap id btn t 2).bind fun r2 => some (r0 ++ r1 ++ r2)

/-- One round of the loop `for id, btn := range buttonMap` (lines 583-618). -/
def entryRoutes (buttonMap : PtrMap CanvasObject) (talentMap : PtrMap Talent)
    (e : Int × Option CanvasObject) : Option (List Route) :=
  match talentMap.find e.1 with
  | none => some []
  | some none => some []
  | some (some t) => talentRoutes buttonMap e.1 e.2 t

/-- The loop `for id, btn := range buttonMap` over the entries still to visit. -/
def drawTalentArrowsLoop (buttonMap : PtrMap CanvasObject) (talentMap : PtrMap Talent) :
    List (Int × Option CanvasObject) → Option (List Route)
  | [] => some []
  | e :: rest =>
      (entryRoutes buttonMap talentMap e).bind fun r =>
        (drawTalentArrowsLoop buttonMap talentMap rest).bind fun rs => some (r ++ rs)

/-- The function `drawTalentArrows` (lines 582-620): the routes drawn, in order; the
objects added to `gridWrapper` are those of the routes, in order. -/
def drawTalentArrows (buttonMap : PtrMap CanvasObject) (talentMap : PtrMap Talent) :
    Option (List Route) :=
  drawTalentArrowsLoop buttonMap talentMap buttonMap

/-! ## `mapTalentsToGrid` (`talent_editor.go`) -/

/-- The grid `[][]*Talent`: a cell is nil (`none`) or the pointer `&talents[i]`, which
is modelled by the index `i`. -/
abbrev TalentGrid : Type := List (List (Option Nat))

/-- Body of the loop `for i := range talents` of `mapTalentsToGrid` (lines 352-364). -/
def mapTalentsStep (rows cols : Int) (grid : TalentGrid) (i : Nat) (t : Talent) :
    TalentGrid :=
  let r : Int := if t.TierID.Valid then t.TierID.Int64 else 0
  let c : Int := if t.ColumnIndex.Valid then t.ColumnIndex.Int64 else 0
  if r ≥ 0 ∧ r < rows ∧ c ≥ 0 ∧ c < cols then
    grid.set r.toNat ((grid.getD r.toNat []).set c.toNat (some i))
  else grid

/-- The loop `for i := range talents` of `mapTalentsToGrid`, started at index `i`. -/
def mapTalentsLoop (rows cols : Int) : List Talent → Nat → TalentGrid → TalentGrid
  | [], _, grid => grid
  | t :: rest, i, grid =>
      mapTalentsLoop rows cols rest (i + 1) (mapTalentsStep rows cols grid i t)

/-- The function `mapTalentsToGrid` (lines 346-367). `make` panics on a negative
length: for `rows` at once, for `cols` when there is a row to make. -/
def mapTalentsToGrid (talents : List Talent) (rows cols : Int) : Option TalentGrid :=
  if rows < 0 then none
  else if 0 < rows ∧ cols < 0 then none
  else
    some (mapTalentsLoop rows cols talents 0
      (List.replicate rows.toNat (List.replicate cols.toNat none)))

/-! ## Proof infrastructure for the measurement pass -/

/-- One slice of a measurement loop on its own: slot `key i` of the slice keeps the
largest `val` seen so far among the objects whose index maps to it. -/
def bucketMax (n : Nat) (key : Nat → Nat) (val : CanvasObject → ℚ) :
    List CanvasObject → Nat → List ℚ → List ℚ
  | [], _, acc => acc
  | o :: rest, i, acc =>
      bucketMax n key val rest (i + 1)
        (if key i < n ∧ val o > acc.getD (key i) 0 then acc.set (key i) (val o) else acc)

theorem getD_set_zero (l : List ℚ) (i j : Nat) (a : ℚ) :
    (l.set i a).getD j 0 = if i = j ∧ i < l.length then a else l.getD j 0 := by
  simp only [List.getD_eq_getElem?_getD, List.getElem?_set]
  by_cases hij : i = j
  · subst hij
    by_cases hi : i < l.length
    · simp [hi]
    · simp [hi, List.getElem?_eq_none (Nat.le_of_not_lt hi)]
  · simp [hij]

theorem layoutMeasureLoop_fst (rows cols : Nat) (objs : List CanvasObject) (i : Nat)
    (acc : List ℚ × List ℚ) :
    (layoutMeasureLoop rows cols objs i acc).1
      = bucketMax cols (fun k => k % cols) CanvasObject.minW objs i acc.1 := by
  induction objs generalizing i acc with
  | nil => rfl
  | cons o rest ih =>
    simp only [layoutMeasureLoop, bucketMax]
    rw [ih]
    rfl

theorem layoutMeasureLoop_snd (rows cols : Nat) (objs : List CanvasObject) (i : Nat)
    (acc : List ℚ × List ℚ) :
    (layoutMeasureLoop rows cols objs i acc).2
      = bucketMax rows (fun k => k / cols) CanvasObject.minH objs i acc.2 := by
  induction objs generalizing i acc with
  | nil => rfl
  | cons o rest ih =>
    simp only [layoutMeasureLoop, bucketMax]
    rw [ih]
    rfl

theorem bucketMax_length (n : Nat) (key : Nat → Nat) (val : CanvasObject → ℚ)
    (objs : List CanvasObject) (i : Nat) (acc : List ℚ) :
    (bucketMax n key val objs i acc).length = acc.length := by
  induction objs generalizing i acc with
  | nil => rfl
  | cons o rest ih =>
    simp only [bucketMax]
    rw [ih]
    split_ifs <;> simp

theorem bucketMax_mono (n : Nat) (key : Nat → Nat) (val : CanvasObject → ℚ)
    (objs : List CanvasObject) (i : Nat) (acc : List ℚ) (c : Nat) :
    acc.getD c 0 ≤ (bucketMax n key val objs i acc).getD c 0 := by
  induction objs generalizing i acc with
  | nil => exact le_refl _
  | cons o rest ih =>
    simp only [bucketMax]
    refine le_trans ?_ (ih _ _)
    split_ifs with h
    · rw [getD_set_zero]
      split_ifs with h2
      · rw [← h2.1]; exact le_of_lt h.2
      · exact le_refl _
    · exact le_refl _

theorem bucketMax_ge_member (n : Nat) (key : Nat → Nat) (val : CanvasObject → ℚ)
    (objs : List CanvasObject) (i : Nat) (acc : List ℚ) (j : Nat) (o : CanvasObject)
    (hj : objs[j]? = some o) (hn : key (i + j) < n) (hlen : key (i + j) < acc.length) :
    val o ≤ (bucketMax n key val objs i acc).getD (key (i + j)) 0 := by
  induction objs generalizing i acc j with
  | nil => simp at hj
  | cons o1 rest ih =>
    simp only [bucketMax]
    cases j with
    | zero =>
      simp only [List.getElem?_cons_zero, Option.some.injEq] at hj
      subst hj
      simp only [Nat.add_zero] at hn hlen ⊢
      refine le_trans ?_ (bucketMax_mono _ _ _ _ _ _ _)
      split_ifs with h
      · rw [getD_set_zero]; simp [hlen]
      · have h3 : ¬ (val o1 > acc.getD (key i) 0) := fun h4 => h ⟨hn, h4⟩
        exact not_lt.mp h3
    | succ j =>
      simp only [List.getElem?_cons_succ] at hj
      have e : i + (j + 1) = (i + 1) + j := by omega
      rw [e] at hn hlen ⊢
      apply ih _ _ _ hj hn
      split_ifs <;> simpa using hlen

theorem bucketMax_eq_or (n : Nat) (key : Nat → Nat) (val : CanvasObject → ℚ)
    (objs : List CanvasObject) (i : Nat) (acc : List ℚ) (c : Nat) :
    (bucketMax n key val objs i acc).getD c 0 = acc.getD c 0 ∨
      ∃ j o, objs[j]? = some o ∧ key (i + j) = c ∧
        (bucketMax n key val objs i acc).getD c 0 = val o := by
  induction objs generalizing i acc with
  | nil => exact Or.inl rfl
  | cons o1 rest ih =>
    simp only [bucketMax]
    rcases ih (i + 1)
      (if key i < n ∧ val o1 > acc.getD (key i) 0 then acc.set (key i) (val o1) else acc)
      with h | ⟨j, o, hj, hk, hv⟩
    · rw [h]
      split_ifs with h2
      · rw [getD_set_zero]
        split_ifs with h3
        · exact Or.inr ⟨0, o1, by simp, by simpa using h3.1, rfl⟩
        · exact Or.inl rfl
      · exact Or.inl rfl
    · refine Or.inr ⟨j + 1, o, by simpa using hj, ?_, hv⟩
      rw [← hk]; congr 1; omega

/-! ## Proof infrastructure for the offset and placement passes -/

/-- The closed form of an offset: the sizes and gutters of the slots before `j`. -/
def offsetSum (sizes : List ℚ) (pad : ℚ) (j : Nat) : ℚ :=
  Finset.sum (Finset.range j) (fun k => sizes.getD k 0 + pad)

theorem offsetSum_succ (sizes : List ℚ) (pad : ℚ) (j : Nat) :
    offsetSum sizes pad (j + 1) = offsetSum sizes pad j + (sizes.getD j 0 + pad) := by
  unfold offsetSum
  exact Finset.sum_range_succ _ j

theorem getD_replicate_zero (n j : Nat) : (List.replicate n (0 : ℚ)).getD j 0 = 0 := by
  simp only [List.getD_eq_getElem?_getD, List.getElem?_replicate]
  split_ifs <;> rfl

/-- The state of an offset slice after the first `m` rounds of its loop. -/
theorem offsets_after_rounds (sizes : List ℚ) (pad : ℚ) (n m : Nat) :
    ((List.range' 1 m).foldl
        (fun offs c => offs.set c (offs.getD (c - 1) 0 + sizes.getD (c - 1) 0 + pad))
        (List.replicate n 0)).length = n ∧
    ∀ j, j < n → j ≤ m →
      ((List.range' 1 m).foldl
        (fun offs c => offs.set c (offs.getD (c - 1) 0 + sizes.getD (c - 1) 0 + pad))
        (List.replicate n 0)).getD j 0 = offsetSum sizes pad j := by
  induction m with
  | zero =>
    refine ⟨by simp, ?_⟩
    intro j _ hj
    have hj0 : j = 0 := by omega
    subst hj0
    simp only [List.range'_zero, List.foldl_nil]
    rw [getD_replicate_zero]
    simp [offsetSum]
  | succ m ih =>
    obtain ⟨hlen, hval⟩ := ih
    rw [List.range'_1_concat, List.foldl_append]
    simp only [List.foldl_cons, List.foldl_nil]
    refine ⟨by rw [List.length_set]; exact hlen, ?_⟩
    intro j hjn hjm
    rw [getD_set_zero]
    have e1 : 1 + m - 1 = m := by omega
    rw [e1]
    split_ifs with h
    · have hj : j = m + 1 := by omega
      subst hj
      rw [hval m (by omega) (le_refl _), offsetSum_succ]
      ring
    · have hj : j ≤ m := by
        by_contra hc
        apply h
        rw [hlen]
        exact ⟨by omega, by omega⟩
      exact hval j hjn hj

theorem cumulativeOffsets_length (sizes : List ℚ) (pad : ℚ) (n : Nat) :
    (cumulativeOffsets sizes pad n).length = n :=
  (offsets_after_rounds sizes pad n (n - 1)).1

theorem cumulativeOffsets_getD (sizes : List ℚ) (pad : ℚ) (n j : Nat) (hj : j < n) :
    (cumulativeOffsets sizes pad n).getD j 0 = offsetSum sizes pad j :=
  (offsets_after_rounds sizes pad n (n - 1)).2 j hj (by omega)

theorem placeLoop_length (rows cols : Nat) (co ro cw rh : List ℚ)
    (objs : List CanvasObject) (i : Nat) :
    (placeLoop rows cols co ro cw rh objs i).length = objs.length := by
  induction objs generalizing i with
  | nil => rfl
  | cons o rest ih => simp [placeLoop, ih]

theorem placeLoop_getElem? (rows cols : Nat) (co ro cw rh : List ℚ)
    (objs : List CanvasObject) (i j : Nat) :
    (placeLoop rows cols co ro cw rh objs i)[j]?
      = (objs[j]?).map (placeObject rows cols co ro cw rh (i + j)) := by
  induction objs generalizing i j with
  | nil => simp [placeLoop]
  | cons o rest ih =>
    cases j with
    | zero => simp [placeLoop]
    | succ j =>
      simp only [placeLoop, List.getElem?_cons_succ]
      rw [ih]
      have e : i + 1 + j = i + (j + 1) := by omega
      rw [e]

/-- With at least one row and one column `Layout` does not panic and runs its passes. -/
theorem Layout_eq_some (g : grid4x15) (objects : List CanvasObject) (cs : ℚ × ℚ)
    (hR : 1 ≤ g.Rows) (hC : 1 ≤ g.Cols) :
    Layout g objects cs
      = some (layoutPasses g.Rows.toNat g.Cols.toNat g.HorizontalPad g.VerticalPad objects) := by
  unfold Layout
  rw [if_neg (by omega), if_neg (by omega)]

/-- Row and column of a flat index inside an `R * C` grid. -/
theorem flat_index_bounds (R C i : Nat) (hi : i < R * C) : i / C < R ∧ i % C < C := by
  have hC : 0 < C := by
    rcases Nat.eq_zero_or_pos C with h | h
    · subst h; simp at hi
    · exact h
  refine ⟨?_, Nat.mod_lt _ hC⟩
  rw [Nat.div_lt_iff_lt_mul hC]
  exact hi

theorem minSizeMeasureLoop_eq (rows cols : Nat) (objs : List CanvasObject) (i : Nat)
    (acc : List ℚ × List ℚ) :
    minSizeMeasureLoop rows cols objs i acc = layoutMeasureLoop rows cols objs i acc := by
  induction objs generalizing i acc with
  | nil => rfl
  | cons o rest ih =>
    simp only [minSizeMeasureLoop, layoutMeasureLoop]
    rw [ih]
    rfl

theorem minSizeMeasure_eq (rows cols : Nat) (objs : List CanvasObject) :
    minSizeMeasure rows cols objs = layoutMeasure rows cols objs :=
  minSizeMeasureLoop_eq rows cols objs 0 _

theorem layoutMeasure_fst (rows cols : Nat) (objs : List CanvasObject) :
    (layoutMeasure rows cols objs).1
      = bucketMax cols (fun k => k % cols) CanvasObject.minW objs 0
          (List.replicate cols 0) :=
  layoutMeasureLoop_fst rows cols objs 0 _

theorem layoutMeasure_snd (rows cols : Nat) (objs : List CanvasObject) :
    (layoutMeasure rows cols objs).2
      = bucketMax rows (fun k => k / cols) CanvasObject.minH objs 0
          (List.replicate rows 0) :=
  layoutMeasureLoop_snd rows cols objs 0 _

/-- A zeroed slice filled by `bucketMax` from non-negative values holds, in each slot
that has a member, the maximum over the members of that slot. -/
theorem bucketMax_is_max (n : Nat) (key : Nat → Nat) (val : CanvasObject → ℚ)
    (objs : List CanvasObject) (c : Nat) (hc : c < n)
    (hnonneg : ∀ o ∈ objs, 0 ≤ val o)
    (m : Nat) (hm : m < objs.length) (hkm : key m = c) :
    (∀ i (hi : i < objs.length), key i = c →
        val objs[i] ≤ (bucketMax n key val objs 0 (List.replicate n 0)).getD c 0) ∧
    ∃ i, ∃ hi : i < objs.length, key i = c ∧
        (bucketMax n key val objs 0 (List.replicate n 0)).getD c 0 = val objs[i] := by
  have hge : ∀ i (hi : i < objs.length), key i = c →
      val objs[i] ≤ (bucketMax n key val objs 0 (List.replicate n 0)).getD c 0 := by
    intro i hi hk
    have h := bucketMax_ge_member n key val objs 0 (List.replicate n 0) i objs[i]
      (List.getElem?_eq_getElem hi) (by rw [Nat.zero_add, hk]; exact hc)
      (by rw [Nat.zero_add, hk, List.length_replicate]; exact hc)
    rw [Nat.zero_add, hk] at h
    exact h
  refine ⟨hge, ?_⟩
  rcases bucketMax_eq_or n key val objs 0 (List.replicate n 0) c with h | ⟨j, o, hj, hk, hv⟩
  · refine ⟨m, hm, hkm, ?_⟩
    rw [getD_replicate_zero] at h
    have h1 := hge m hm hkm
    rw [h] at h1
    rw [h]
    exact le_antisymm (hnonneg _ (List.getElem_mem hm)) h1
  · obtain ⟨hjlt, hjo⟩ := List.getElem?_eq_some_iff.mp hj
    refine ⟨j, hjlt, by simpa using hk, ?_⟩
    rw [hv, hjo]

theorem toNat_of_eq_natCast (z : Int) (n : Nat) (h : z = n) : z.toNat = n := by
  subst h; simp

/-- What the three passes leave at flat index `i` of a full `R * C` list. -/
theorem layoutPasses_getElem? (R C : Nat) (hpad vpad : ℚ) (objects : List CanvasObject)
    (hlen : objects.length = R * C) (i : Nat) (hi : i < objects.length) :
    (layoutPasses R C hpad vpad objects)[i]? = some
      ((objects[i].Move
          (offsetSum (layoutMeasure R C objects).1 hpad (i % C))
          (offsetSum (layoutMeasure R C objects).2 vpad (i / C))).Resize
        ((layoutMeasure R C objects).1.getD (i % C) 0)
        ((layoutMeasure R C objects).2.getD (i / C) 0)) := by
  obtain ⟨hrow, hcol⟩ := flat_index_bounds R C i (hlen ▸ hi)
  unfold layoutPasses
  simp only []
  rw [placeLoop_getElem?, List.getElem?_eq_getElem hi, Option.map_some', Nat.zero_add]
  unfold placeObject
  simp only [if_pos (And.intro hrow hcol)]
  rw [cumulativeOffsets_getD _ _ _ _ hcol, cumulativeOffsets_getD _ _ _ _ hrow]

theorem layoutPasses_length (R C : Nat) (hpad vpad : ℚ) (objects : List CanvasObject) :
    (layoutPasses R C hpad vpad objects).length = objects.length := by
  unfold layoutPasses
  simp only [placeLoop_length]

/-- Every slot of a slice filled by `bucketMax` from a zeroed slice is non-negative. -/
theorem bucketMax_nonneg (n : Nat) (key : Nat → Nat) (val : CanvasObject → ℚ)
    (objs : List CanvasObject) (c : Nat) :
    0 ≤ (bucketMax n key val objs 0 (List.replicate n 0)).getD c 0 := by
  have h := bucketMax_mono n key val objs 0 (List.replicate n 0) c
  rw [getD_replicate_zero] at h
  exact h

theorem offsetSum_mono (sizes : List ℚ) (pad : ℚ) (hs : ∀ k, 0 ≤ sizes.getD k 0)
    (hp : 0 ≤ pad) (a b : Nat) (hab : a ≤ b) :
    offsetSum sizes pad a ≤ offsetSum sizes pad b := by
  induction b with
  | zero =>
    have ha : a = 0 := by omega
    subst ha
    exact le_refl _
  | succ b ih =>
    rcases Nat.lt_or_ge a (b + 1) with h | h
    · rw [offsetSum_succ]
      have h1 := ih (by omega)
      have h2 := hs b
      linarith
    · have ha : a = b + 1 := by omega
      subst ha
      exact le_refl _

/-- A slot ends, gutter included, no later than any later slot starts. -/
theorem offsetSum_separated (sizes : List ℚ) (pad : ℚ) (hs : ∀ k, 0 ≤ sizes.getD k 0)
    (hp : 0 ≤ pad) (a b : Nat) (hab : a < b) :
    offsetSum sizes pad a + sizes.getD a 0 ≤ offsetSum sizes pad b := by
  have h1 := offsetSum_mono sizes pad hs hp (a + 1) b hab
  rw [offsetSum_succ] at h1
  linarith

/-! ## Sample inputs -/

/-- A 2 x 2 grid with gutters 5 and 3. -/
def sampleGrid : grid4x15 := ⟨2, 2, 5, 3⟩

/-- Four objects for `sampleGrid`; the last one has been placed before. -/
def sampleObjects : List CanvasObject :=
  [⟨10, 20, 0, 0, 0, 0⟩, ⟨30, 5, 0, 0, 0, 0⟩, ⟨1, 2, 0, 0, 0, 0⟩, ⟨7, 8, 9, 9, 9, 9⟩]

/-! ## Claims about the grid layout -/

/-- C2: on a list of R*C objects with non-negative minimum sizes the measurement passes
of `MinSize` and of `Layout` compute the same slices, of lengths C and R; `colWidths[c]`
is at least the minimum width of every object in column c (i % C = c) and equals the
minimum width of one of them, and `rowHeights[r]` is at least the minimum height of
every object in row r (i / C = r) and equals the minimum height of one of them. -/
theorem C2_measurement_is_maximum (g : grid4x15) (objects : List CanvasObject)
    (R C : Nat) (hR : 1 ≤ R) (hC : 1 ≤ C)
    (hRows : g.Rows = R) (hCols : g.Cols = C) (hlen : objects.length = R * C)
    (hnonneg : ∀ o ∈ objects, 0 ≤ o.minW ∧ 0 ≤ o.minH) :
    MinSize.colWidths g objects = Layout.colWidths g objects ∧
    MinSize.rowHeights g objects = Layout.rowHeights g objects ∧
    (Layout.colWidths g objects).length = C ∧
    (Layout.rowHeights g objects).length = R ∧
    (∀ c, c < C →
      (∀ i (hi : i < objects.length), i % C = c →
          objects[i].minW ≤ (Layout.colWidths g objects).getD c 0) ∧
      ∃ i, ∃ hi : i < objects.length, i % C = c ∧
          (Layout.colWidths g objects).getD c 0 = objects[i].minW) ∧
    (∀ r, r < R →
      (∀ i (hi : i < objects.length), i / C = r →
          objects[i].minH ≤ (Layout.rowHeights g objects).getD r 0) ∧
      ∃ i, ∃ hi : i < objects.length, i / C = r ∧
          (Layout.rowHeights g objects).getD r 0 = objects[i].minH) := by
  have hRn : g.Rows.toNat = R := toNat_of_eq_natCast _ _ hRows
  have hCn : g.Cols.toNat = C := toNat_of_eq_natCast _ _ hCols
  unfold MinSize.colWidths MinSize.rowHeights Layout.colWidths Layout.rowHeights
  rw [minSizeMeasure_eq, hRn, hCn, layoutMeasure_fst, layoutMeasure_snd]
  refine ⟨rfl, rfl, ?_, ?_, ?_, ?_⟩
  · rw [bucketMax_length, List.length_replicate]
  · rw [bucketMax_length, List.length_replicate]
  · intro c hc
    have hm : c < objects.length := by
      rw [hlen]
      calc c < C := hc
        _ = 1 * C := (Nat.one_mul C).symm
        _ ≤ R * C := Nat.mul_le_mul_right C hR
    exact bucketMax_is_max C (fun k => k % C) CanvasObject.minW objects c hc
      (fun o ho => (hnonneg o ho).1) c hm (Nat.mod_eq_of_lt hc)
  · intro r hr
    have hm : r * C < objects.length := by
      rw [hlen]
      exact Nat.mul_lt_mul_of_pos_right hr (by omega)
    exact bucketMax_is_max R (fun k => k / C) CanvasObject.minH objects r hr
      (fun o ho => (hnonneg o ho).2) (r * C) hm (Nat.mul_div_cancel r (by omega))

/-- C2 at `sampleGrid` and `sampleObjects`. -/
theorem C2_measurement_is_maximum_witness :
    (∀ o ∈ sampleObjects, 0 ≤ o.minW ∧ 0 ≤ o.minH) ∧
    MinSize.colWidths sampleGrid sampleObjects = Layout.colWidths sampleGrid sampleObjects ∧
    MinSize.rowHeights sampleGrid sampleObjects
      = Layout.rowHeights sampleGrid sampleObjects ∧
    (Layout.colWidths sampleGrid sampleObjects).length = 2 ∧
    (Layout.rowHeights sampleGrid sampleObjects).length = 2 ∧
    (∀ c, c < 2 →
      (∀ i (hi : i < sampleObjects.length), i % 2 = c →
          sampleObjects[i].minW ≤ (Layout.colWidths sampleGrid sampleObjects).getD c 0) ∧
      ∃ i, ∃ hi : i < sampleObjects.length, i % 2 = c ∧
          (Layout.colWidths sampleGrid sampleObjects).getD c 0 = sampleObjects[i].minW) ∧
    (∀ r, r < 2 →
      (∀ i (hi : i < sampleObjects.length), i / 2 = r →
          sampleObjects[i].minH ≤ (Layout.rowHeights sampleGrid sampleObjects).getD r 0) ∧
      ∃ i, ∃ hi : i < sampleObjects.length, i / 2 = r ∧
          (Layout.rowHeights sampleGrid sampleObjects).getD r 0 = sampleObjects[i].minH) :=
  have hnn : ∀ o ∈ sampleObjects, 0 ≤ o.minW ∧ 0 ≤ o.minH := by
    intro o ho
    simp only [sampleObjects, List.mem_cons, List.mem_singleton, List.not_mem_nil,
      or_false] at ho
    rcases ho with h | h | h | h <;> subst h <;> constructor <;> norm_num
  ⟨hnn, C2_measurement_is_maximum sampleGrid sampleObjects 2 2 (by decide) (by decide)
    rfl rfl rfl hnn⟩

/-! ## Claims about the routes -/

theorem selectArrow_horizontal (px py cx cy : ℚ) (h : py = cy) :
    selectArrow px py cx cy = ArrowKind.horizontal := by
  unfold selectArrow
  rw [if_pos h]

theorem selectArrow_vertical (px py cx cy : ℚ) (hy : py ≠ cy) (hx : px = cx) :
    selectArrow px py cx cy = ArrowKind.vertical := by
  unfold selectArrow
  rw [if_neg hy, if_pos hx]

theorem selectArrow_step (px py cx cy : ℚ) (hy : py ≠ cy) (hx : px ≠ cx) :
    selectArrow px py cx cy = ArrowKind.step := by
  unfold selectArrow
  rw [if_neg hy, if_neg hx]

theorem drawArrow_horizontal (id preID : Int) (preBtn btn : CanvasObject)
    (h : preBtn.y = btn.y) :
    drawArrow id preID preBtn btn
      = ⟨id, preID, ArrowKind.horizontal,
          drawHorizontalArrow preBtn.x preBtn.y preBtn.w btn.x btn.w⟩ := by
  unfold drawArrow
  simp only [selectArrow_horizontal _ _ _ _ h]

theorem drawArrow_vertical (id preID : Int) (preBtn btn : CanvasObject)
    (hy : preBtn.y ≠ btn.y) (hx : preBtn.x = btn.x) :
    drawArrow id preID preBtn btn
      = ⟨id, preID, ArrowKind.vertical,
          drawVerticalArrow preBtn.x preBtn.y preBtn.h btn.y⟩ := by
  unfold drawArrow
  simp only [selectArrow_vertical _ _ _ _ hy hx]

theorem drawArrow_step (id preID : Int) (preBtn btn : CanvasObject)
    (hy : preBtn.y ≠ btn.y) (hx : preBtn.x ≠ btn.x) :
    drawArrow id preID preBtn btn
      = ⟨id, preID, ArrowKind.step,
          drawStepArrow preBtn.x preBtn.y preBtn.w preBtn.h btn.x btn.y btn.w⟩ := by
  unfold drawArrow
  simp only [selectArrow_step _ _ _ _ hy hx]

/-- A prerequisite slot that is valid, non-zero and resolves to a button draws exactly
one route. -/
theorem prereqRoutes_resolved (buttonMap : PtrMap CanvasObject) (id : Int)
    (btn preBtn : CanvasObject) (t : Talent) (i : Fin 3)
    (hv : (t.PreReqTalent i).Valid = true) (hz : (t.PreReqTalent i).Int64 ≠ 0)
    (hf : buttonMap.find (t.PreReqTalent i).Int64 = some (some preBtn)) :
    prereqRoutes buttonMap id (some btn) t i
      = some [drawArrow id (t.PreReqTalent i).Int64 preBtn btn] := by
  unfold prereqRoutes
  simp [hv, hz, hf]

/-- C3: `drawTalentArrows` selects the drawing function by exact equality, in this
order: equal y gives the horizontal route (also when the x are equal too); otherwise
equal x gives the vertical route; otherwise the step route. A prerequisite that
resolves to a button draws exactly one route, by the selected function. -/
theorem C3_routing_priority (id : Int) (preBtn btn : CanvasObject) :
    (preBtn.y = btn.y → ∀ preID,
        drawArrow id preID preBtn btn
          = ⟨id, preID, ArrowKind.horizontal,
              drawHorizontalArrow preBtn.x preBtn.y preBtn.w btn.x btn.w⟩) ∧
    (preBtn.y ≠ btn.y → preBtn.x = btn.x → ∀ preID,
        drawArrow id preID preBtn btn
          = ⟨id, preID, ArrowKind.vertical,
              drawVerticalArrow preBtn.x preBtn.y preBtn.h btn.y⟩) ∧
    (preBtn.y ≠ btn.y → preBtn.x ≠ btn.x → ∀ preID,
        drawArrow id preID preBtn btn
          = ⟨id, preID, ArrowKind.step,
              drawStepArrow preBtn.x preBtn.y preBtn.w preBtn.h btn.x btn.y btn.w⟩) ∧
    (∀ (buttonMap : PtrMap CanvasObject) (t : Talent) (i : Fin 3),
        (t.PreReqTalent i).Valid = true → (t.PreReqTalent i).Int64 ≠ 0 →
        buttonMap.find (t.PreReqTalent i).Int64 = some (some preBtn) →
        prereqRoutes buttonMap id (some btn) t i
          = some [drawArrow id (t.PreReqTalent i).Int64 preBtn btn]) :=
  ⟨fun h preID => drawArrow_horizontal id preID preBtn btn h,
   fun hy hx preID => drawArrow_vertical id preID preBtn btn hy hx,
   fun hy hx preID => drawArrow_step id preID preBtn btn hy hx,
   fun buttonMap t i hv hz hf => prereqRoutes_resolved buttonMap id btn preBtn t i hv hz hf⟩

/-- C3 at three pairs of 40 x 40 rectangles: same position (both coordinates equal),
same column, and neither. -/
theorem C3_routing_priority_witness :
    (drawArrow 2 1 ⟨46, 46, 7, 7, 40, 40⟩ ⟨46, 46, 7, 7, 40, 40⟩).kind
      = ArrowKind.horizontal ∧
    (drawArrow 2 1 ⟨46, 46, 0, 0, 40, 40⟩ ⟨46, 46, 0, 60, 40, 40⟩).kind
      = ArrowKind.vertical ∧
    (drawArrow 2 1 ⟨46, 46, 0, 0, 40, 40⟩ ⟨46, 46, 100, 60, 40, 40⟩).kind
      = ArrowKind.step :=
  ⟨by rw [(C3_routing_priority 2 ⟨46, 46, 7, 7, 40, 40⟩ ⟨46, 46, 7, 7, 40, 40⟩).1 rfl 1],
   by rw [(C3_routing_priority 2 ⟨46, 46, 0, 0, 40, 40⟩ ⟨46, 46, 0, 60, 40, 40⟩).2.1
        (by norm_num) rfl 1],
   by rw [(C3_routing_priority 2 ⟨46, 46, 0, 0, 40, 40⟩ ⟨46, 46, 100, 60, 40, 40⟩).2.2.1
        (by norm_num) (by norm_num) 1]⟩

/-! ### Arrow heads -/

theorem hypot_of_length (dx dy l : ℚ) (hl : 0 ≤ l) (h : l * l = dx * dx + dy * dy) :
    hypot dx dy = l := by
  unfold hypot
  rw [← h, Rat.sqrt_eq, abs_of_nonneg hl]

/-- The arrow head of a segment whose length `l` is a positive rational. -/
theorem createArrowHead_of_length (x1 y1 x2 y2 size l : ℚ) (hl : 0 < l)
    (h : l * l = (x2 - x1) * (x2 - x1) + (y2 - y1) * (y2 - y1)) :
    createArrowHead x1 y1 x2 y2 size
      = [⟨x2, y2, x2 - (x2 - x1) / l * size + -((y2 - y1) / l) * size / 2,
            y2 - (y2 - y1) / l * size + (x2 - x1) / l * size / 2⟩,
         ⟨x2, y2, x2 - (x2 - x1) / l * size - -((y2 - y1) / l) * size / 2,
            y2 - (y2 - y1) / l * size - (x2 - x1) / l * size / 2⟩] := by
  unfold createArrowHead
  simp only [hypot_of_length _ _ l (le_of_lt hl) h, if_neg (ne_of_gt hl)]

theorem createArrowHead_east (x1 y x2 size : ℚ) (h : x1 < x2) :
    createArrowHead x1 y x2 y size
      = [⟨x2, y, x2 - size, y + size / 2⟩, ⟨x2, y, x2 - size, y - size / 2⟩] := by
  have hl : 0 < x2 - x1 := by linarith
  rw [createArrowHead_of_length x1 y x2 y size (x2 - x1) hl (by ring)]
  have hne : x2 - x1 ≠ 0 := ne_of_gt hl
  simp only [sub_self, zero_div, neg_zero, zero_mul, div_self hne, one_mul, add_zero,
    sub_zero]

theorem createArrowHead_west (x1 y x2 size : ℚ) (h : x2 < x1) :
    createArrowHead x1 y x2 y size
      = [⟨x2, y, x2 + size, y - size / 2⟩, ⟨x2, y, x2 + size, y + size / 2⟩] := by
  have hl : 0 < x1 - x2 := by linarith
  rw [createArrowHead_of_length x1 y x2 y size (x1 - x2) hl (by ring)]
  have hne : x1 - x2 ≠ 0 := ne_of_gt hl
  have hu : (x2 - x1) / (x1 - x2) = -1 := by
    rw [div_eq_iff hne]; ring
  simp only [sub_self, zero_div, neg_zero, zero_mul, hu, add_zero, sub_zero]
  congr 2 <;> congr 1 <;> ring

theorem createArrowHead_south (x y1 y2 size : ℚ) (h : y1 < y2) :
    createArrowHead x y1 x y2 size
      = [⟨x, y2, x - size / 2, y2 - size⟩, ⟨x, y2, x + size / 2, y2 - size⟩] := by
  have hl : 0 < y2 - y1 := by linarith
  rw [createArrowHead_of_length x y1 x y2 size (y2 - y1) hl (by ring)]
  have hne : y2 - y1 ≠ 0 := ne_of_gt hl
  simp only [sub_self, zero_div, zero_mul, div_self hne, one_mul, add_zero, sub_zero]
  congr 2 <;> congr 1 <;> ring

theorem createArrowHead_north (x y1 y2 size : ℚ) (h : y2 < y1) :
    createArrowHead x y1 x y2 size
      = [⟨x, y2, x + size / 2, y2 + size⟩, ⟨x, y2, x - size / 2, y2 + size⟩] := by
  have hl : 0 < y1 - y2 := by linarith
  rw [createArrowHead_of_length x y1 x y2 size (y1 - y2) hl (by ring)]
  have hne : y1 - y2 ≠ 0 := ne_of_gt hl
  have hu : (y2 - y1) / (y1 - y2) = -1 := by
    rw [div_eq_iff hne]; ring
  simp only [sub_self, zero_div, zero_mul, hu, add_zero, sub_zero]
  congr 2 <;> congr 1 <;> ring

/-! ### The horizontal route -/

theorem drawHorizontalArrow_right (px py pw cx cw : ℚ) (h : cx + cw / 2 > px + pw / 2) :
    drawHorizontalArrow px py pw cx cw
      = ⟨px + pw, py + pw / 2, cx, py + pw / 2⟩ ::
          createArrowHead (px + pw) (py + pw / 2) cx (py + pw / 2) 8 := by
  unfold drawHorizontalArrow
  simp only [if_pos h]

theorem drawHorizontalArrow_left (px py pw cx cw : ℚ) (h : ¬ cx + cw / 2 > px + pw / 2) :
    drawHorizontalArrow px py pw cx cw
      = ⟨px, py + pw / 2, cx + cw, py + pw / 2⟩ ::
          createArrowHead px (py + pw / 2) (cx + cw) (py + pw / 2) 8 := by
  unfold drawHorizontalArrow
  simp only [if_neg h]

theorem drawHorizontalArrow_facing_right (px py pw cx cw : ℚ) (hpw : 0 ≤ pw)
    (hcw : 0 ≤ cw) (h : px + pw ≤ cx) :
    drawHorizontalArrow px py pw cx cw
      = ⟨px + pw, py + pw / 2, cx, py + pw / 2⟩ ::
          createArrowHead (px + pw) (py + pw / 2) cx (py + pw / 2) 8 := by
  by_cases hb : cx + cw / 2 > px + pw / 2
  · exact drawHorizontalArrow_right _ _ _ _ _ hb
  · have h1 : pw = 0 := by linarith
    have h2 : cw = 0 := by linarith
    subst h1
    subst h2
    rw [drawHorizontalArrow_left _ _ _ _ _ hb]
    simp only [add_zero]

theorem drawHorizontalArrow_facing_left (px py pw cx cw : ℚ) (hpw : 0 ≤ pw)
    (hcw : 0 ≤ cw) (h : cx + cw ≤ px) :
    drawHorizontalArrow px py pw cx cw
      = ⟨px, py + pw / 2, cx + cw, py + pw / 2⟩ ::
          createArrowHead px (py + pw / 2) (cx + cw) (py + pw / 2) 8 :=
  drawHorizontalArrow_left _ _ _ _ _ (by
    intro hb
    have : cx + cw / 2 > px + pw / 2 := hb
    linarith)

/-- For a parent and a child with equal y and non-negative widths, in exact arithmetic,
the horizontal route connects the facing edges, whichever side the child lies on. -/
theorem drawArrow_facing_edges (id preID : Int) (preBtn btn : CanvasObject)
    (hy : preBtn.y = btn.y) (hpw : 0 ≤ preBtn.w) (hcw : 0 ≤ btn.w) :
    (preBtn.x + preBtn.w ≤ btn.x →
      drawArrow id preID preBtn btn
        = ⟨id, preID, ArrowKind.horizontal,
            ⟨preBtn.x + preBtn.w, preBtn.y + preBtn.w / 2, btn.x,
              preBtn.y + preBtn.w / 2⟩ ::
            createArrowHead (preBtn.x + preBtn.w) (preBtn.y + preBtn.w / 2) btn.x
              (preBtn.y + preBtn.w / 2) 8⟩) ∧
    (btn.x + btn.w ≤ preBtn.x →
      drawArrow id preID preBtn btn
        = ⟨id, preID, ArrowKind.horizontal,
            ⟨preBtn.x, preBtn.y + preBtn.w / 2, btn.x + btn.w,
              preBtn.y + preBtn.w / 2⟩ ::
            createArrowHead preBtn.x (preBtn.y + preBtn.w / 2) (btn.x + btn.w)
              (preBtn.y + preBtn.w / 2) 8⟩) := by
  rw [drawArrow_horizontal id preID preBtn btn hy]
  constructor
  · intro h
    rw [drawHorizontalArrow_facing_right _ _ _ _ _ hpw hcw h]
  · intro h
    rw [drawHorizontalArrow_facing_left _ _ _ _ _ hpw hcw h]

/-! ### The vertical route -/

/-- The segment the specification describes for the vertical route, in its words: from
the bottom edge of the upper of the two rectangles, at that rectangle's x plus half its
height, to the top edge of the other rectangle at the same x. -/
def specVerticalSegment (parent child : CanvasObject) : Line :=
  let upper := if parent.y < child.y then parent else child
  let target := if parent.y < child.y then child else parent
  ⟨upper.x + upper.h / 2, upper.y + upper.h, upper.x + upper.h / 2, target.y⟩

/-- C6, as stated, fails when the child is the upper rectangle: for the parent
(0,100,40,40) and the child (0,0,40,40), which have equal x and different y, the
vertical route is drawn and its segment runs from (20,140), the bottom edge of the
parent, to (20,0), and not from the bottom edge of the child at (20,40) to (20,100). -/
theorem C6_vertical_upper_counterexample :
    (⟨46, 46, 0, 100, 40, 40⟩ : CanvasObject).x = (⟨46, 46, 0, 0, 40, 40⟩ : CanvasObject).x ∧
    (⟨46, 46, 0, 100, 40, 40⟩ : CanvasObject).y ≠ (⟨46, 46, 0, 0, 40, 40⟩ : CanvasObject).y ∧
    (drawArrow 2 1 ⟨46, 46, 0, 100, 40, 40⟩ ⟨46, 46, 0, 0, 40, 40⟩).kind
      = ArrowKind.vertical ∧
    (drawArrow 2 1 ⟨46, 46, 0, 100, 40, 40⟩ ⟨46, 46, 0, 0, 40, 40⟩).objects.head?
      = some ⟨20, 140, 20, 0⟩ ∧
    specVerticalSegment ⟨46, 46, 0, 100, 40, 40⟩ ⟨46, 46, 0, 0, 40, 40⟩
      = ⟨20, 40, 20, 100⟩ ∧
    (drawArrow 2 1 ⟨46, 46, 0, 100, 40, 40⟩ ⟨46, 46, 0, 0, 40, 40⟩).objects.head?
      ≠ some (specVerticalSegment ⟨46, 46, 0, 100, 40, 40⟩ ⟨46, 46, 0, 0, 40, 40⟩) := by
  have hd : drawArrow 2 1 ⟨46, 46, 0, 100, 40, 40⟩ ⟨46, 46, 0, 0, 40, 40⟩
      = ⟨2, 1, ArrowKind.vertical, drawVerticalArrow 0 100 40 0⟩ :=
    drawArrow_vertical 2 1 ⟨46, 46, 0, 100, 40, 40⟩ ⟨46, 46, 0, 0, 40, 40⟩
      (by norm_num) rfl
  have hs : specVerticalSegment ⟨46, 46, 0, 100, 40, 40⟩ ⟨46, 46, 0, 0, 40, 40⟩
      = ⟨20, 40, 20, 100⟩ := by
    unfold specVerticalSegment
    norm_num
  have hh : (drawVerticalArrow 0 100 40 0).head? = some ⟨20, 140, 20, 0⟩ := by
    unfold drawVerticalArrow
    norm_num
  refine ⟨rfl, by norm_num, by rw [hd], by rw [hd]; exact hh, hs, ?_⟩
  rw [hd, hs]
  show (drawVerticalArrow 0 100 40 0).head? ≠ _
  rw [hh]
  intro h
  have h2 := congrArg (fun o => o.map Line.y1) h
  simp only [Option.map_some'] at h2
  norm_num at h2

/-- C6 (amended): for a parent and a child with equal x and different y the vertical
route is drawn: one segment from the bottom edge of the parent, (parent.x +
parent.height / 2, parent.y + parent.height), to (same x, child.y), followed by the
arrow head of that segment. When the parent is the upper rectangle (parent.y < child.y)
this is the segment from the bottom edge of the upper rectangle to the top edge of the
other one. -/
theorem C6_vertical_from_parent_bottom (id preID : Int) (preBtn btn : CanvasObject)
    (hx : preBtn.x = btn.x) (hy : preBtn.y ≠ btn.y) :
    drawArrow id preID preBtn btn
      = ⟨id, preID, ArrowKind.vertical,
          ⟨preBtn.x + preBtn.h / 2, preBtn.y + preBtn.h, preBtn.x + preBtn.h / 2, btn.y⟩ ::
            createArrowHead (preBtn.x + preBtn.h / 2) (preBtn.y + preBtn.h)
              (preBtn.x + preBtn.h / 2) btn.y 8⟩ ∧
    (preBtn.y < btn.y →
      (drawArrow id preID preBtn btn).objects.head?
        = some (specVerticalSegment preBtn btn)) := by
  rw [drawArrow_vertical id preID preBtn btn hy hx]
  refine ⟨rfl, ?_⟩
  intro hlt
  unfold specVerticalSegment drawVerticalArrow
  simp only [if_pos hlt, List.head?_cons]

/-- C6 (amended) at the parent (0,0,40,40) above its child (0,60,40,40). -/
theorem C6_vertical_from_parent_bottom_witness :
    (drawArrow 2 1 ⟨46, 46, 0, 0, 40, 40⟩ ⟨46, 46, 0, 60, 40, 40⟩).objects.head?
      = some (specVerticalSegment ⟨46, 46, 0, 0, 40, 40⟩ ⟨46, 46, 0, 60, 40, 40⟩) :=
  (C6_vertical_from_parent_bottom 2 1 ⟨46, 46, 0, 0, 40, 40⟩ ⟨46, 46, 0, 60, 40, 40⟩
    rfl (by norm_num)).2 (by norm_num)

/-! ### The step route -/

/-- C7: for a parent and a child with different x and different y the step route is
drawn: a horizontal segment from (sx, parent.y + parent.height / 2) to (child.x +
child.width / 2, parent.y + parent.height / 2), with sx = parent.x + parent.width if
child.x > parent.x and sx = parent.x otherwise, then a vertical segment from that end
point to (child.x + child.width / 2, child.y), then the arrow head computed from the
vertical segment, and nothing else. -/
theorem C7_step_route_two_segments (id preID : Int) (preBtn btn : CanvasObject)
    (hx : preBtn.x ≠ btn.x) (hy : preBtn.y ≠ btn.y) :
    drawArrow id preID preBtn btn
      = ⟨id, preID, ArrowKind.step,
          [⟨if btn.x > preBtn.x then preBtn.x + preBtn.w else preBtn.x,
              preBtn.y + preBtn.h / 2, btn.x + btn.w / 2, preBtn.y + preBtn.h / 2⟩,
           ⟨btn.x + btn.w / 2, preBtn.y + preBtn.h / 2, btn.x + btn.w / 2, btn.y⟩] ++
            createArrowHead (btn.x + btn.w / 2) (preBtn.y + preBtn.h / 2)
              (btn.x + btn.w / 2) btn.y 8⟩ := by
  rw [drawArrow_step id preID preBtn btn hy hx]
  rfl

/-- C7 at the parent (0,0,40,40) and the child (100,60,40,40): the route is the
segment (40,20)-(120,20), the segment (120,20)-(120,60) and the two wings of the arrow
head at (120,60). -/
theorem C7_step_route_two_segments_witness :
    drawArrow 2 1 ⟨46, 46, 0, 0, 40, 40⟩ ⟨46, 46, 100, 60, 40, 40⟩
      = ⟨2, 1, ArrowKind.step,
          [⟨40, 20, 120, 20⟩, ⟨120, 20, 120, 60⟩, ⟨120, 60, 116, 52⟩,
            ⟨120, 60, 124, 52⟩]⟩ := by
  rw [C7_step_route_two_segments 2 1 ⟨46, 46, 0, 0, 40, 40⟩ ⟨46, 46, 100, 60, 40, 40⟩
    (by norm_num) (by norm_num)]
  have e1 : (100 : ℚ) + 40 / 2 = 120 := by norm_num
  have e2 : (0 : ℚ) + 40 / 2 = 20 := by norm_num
  have e3 : (if (100 : ℚ) > 0 then (0 : ℚ) + 40 else 0) = 40 := by norm_num
  simp only [e1, e2, e3]
  rw [createArrowHead_south 120 20 60 8 (by norm_num)]
  norm_num

/-! ### Routes per entity -/

/-- A prerequisite slot holds an entry: it is valid and its id is not 0. -/
def slotDeclared (t : Talent) (i : Fin 3) : Bool :=
  (t.PreReqTalent i).Valid && (t.PreReqTalent i).Int64 != 0

/-- The id `k` is present in the map, with a button behind it. -/
def PtrMap.present {α : Type} (m : PtrMap α) (k : Int) : Bool :=
  match m.find k with
  | some (some _) => true
  | _ => false

/-- A prerequisite slot holds an entry whose target id is present in `buttonMap`. -/
def slotResolved (buttonMap : PtrMap CanvasObject) (t : Talent) (i : Fin 3) : Bool :=
  slotDeclared t i && buttonMap.present (t.PreReqTalent i).Int64

/-- How many of the three slots satisfy `f`. -/
def countSlots (f : Fin 3 → Bool) : Nat :=
  (if f 0 then 1 else 0) + (if f 1 then 1 else 0) + (if f 2 then 1 else 0)

/-- The routes of a list that were drawn for the entity `id`. -/
def routesOf (id : Int) (routes : List Route) : List Route :=
  routes.filter (fun r => decide (r.childID = id))

theorem countSlots_le_three (f : Fin 3 → Bool) : countSlots f ≤ 3 := by
  unfold countSlots
  split_ifs <;> omega

theorem countSlots_mono (f g : Fin 3 → Bool) (h : ∀ i, f i = true → g i = true) :
    countSlots f ≤ countSlots g := by
  unfold countSlots
  have h0 := h 0
  have h1 := h 1
  have h2 := h 2
  split_ifs <;> simp_all

theorem countSlots_lt (f g : Fin 3 → Bool) (h : ∀ i, f i = true → g i = true)
    (i : Fin 3) (hg : g i = true) (hf : f i = false) :
    countSlots f < countSlots g := by
  unfold countSlots
  have h0 := h 0
  have h1 := h 1
  have h2 := h 2
  fin_cases i <;> simp only [Fin.zero_eta, Fin.mk_one, Fin.reduceFinMk] at hg hf <;>
    rw [hg, hf] at * <;> split_ifs <;> simp_all

/-- One slot of an entity whose button is not nil: no panic, one route when the slot
resolves and none otherwise, each drawn for that entity. -/
theorem prereqRoutes_spec (buttonMap : PtrMap CanvasObject) (id : Int)
    (btn : CanvasObject) (t : Talent) (i : Fin 3) :
    ∃ rs, prereqRoutes buttonMap id (some btn) t i = some rs ∧
      rs.length = (if slotResolved buttonMap t i then 1 else 0) ∧
      ∀ r ∈ rs, r.childID = id := by
  unfold prereqRoutes slotResolved slotDeclared PtrMap.present
  by_cases hv : (t.PreReqTalent i).Valid = true
  · by_cases hz : (t.PreReqTalent i).Int64 = 0
    · exact ⟨[], by simp [hv, hz], by simp [hv, hz], by simp⟩
    · rcases hf : PtrMap.find buttonMap (t.PreReqTalent i).Int64 with _ | _ | preBtn
      · exact ⟨[], by simp [hv, hz, hf], by simp [hv, hz, hf], by simp⟩
      · exact ⟨[], by simp [hv, hz, hf], by simp [hv, hz, hf], by simp⟩
      · refine ⟨[drawArrow id (t.PreReqTalent i).Int64 preBtn btn], by simp [hv, hz, hf],
          by simp [hv, hz, hf], ?_⟩
        intro r hr
        rw [List.mem_singleton] at hr
        subst hr
        unfold drawArrow
        simp only []
        split <;> rfl
  · exact ⟨[], by simp [hv], by simp [hv], by simp⟩

theorem talentRoutes_spec (buttonMap : PtrMap CanvasObject) (id : Int)
    (btn : CanvasObject) (t : Talent) :
    ∃ rs, talentRoutes buttonMap id (some btn) t = some rs ∧
      rs.length = countSlots (slotResolved buttonMap t) ∧
      ∀ r ∈ rs, r.childID = id := by
  obtain ⟨r0, h0, l0, c0⟩ := prereqRoutes_spec buttonMap id btn t 0
  obtain ⟨r1, h1, l1, c1⟩ := prereqRoutes_spec buttonMap id btn t 1
  obtain ⟨r2, h2, l2, c2⟩ := prereqRoutes_spec buttonMap id btn t 2
  refine ⟨r0 ++ r1 ++ r2, ?_, ?_, ?_⟩
  · unfold talentRoutes
    rw [h0, h1, h2]
    rfl
  · unfold countSlots
    rw [List.length_append, List.length_append, l0, l1, l2]
  · intro r hr
    rw [List.mem_append, List.mem_append] at hr
    rcases hr with (hr | hr) | hr
    · exact c0 r hr
    · exact c1 r hr
    · exact c2 r hr

/-- The number of routes one round of the outer loop draws. -/
def entryRouteCount (buttonMap : PtrMap CanvasObject) (talentMap : PtrMap Talent)
    (id : Int) : Nat :=
  match talentMap.find id with
  | some (some t) => countSlots (slotResolved buttonMap t)
  | _ => 0

theorem entryRoutes_spec (buttonMap : PtrMap CanvasObject) (talentMap : PtrMap Talent)
    (id : Int) (btn : CanvasObject) :
    ∃ rs, entryRoutes buttonMap talentMap (id, some btn) = some rs ∧
      rs.length = entryRouteCount buttonMap talentMap id ∧
      ∀ r ∈ rs, r.childID = id := by
  unfold entryRoutes entryRouteCount
  rcases hf : PtrMap.find talentMap id with _ | _ | t
  · exact ⟨[], by simp [hf], by simp, by simp⟩
  · exact ⟨[], by simp [hf], by simp, by simp⟩
  · obtain ⟨rs, h, l, c⟩ := talentRoutes_spec buttonMap id btn t
    exact ⟨rs, by simp [hf, h], by simp [l], c⟩

theorem routesOf_append (id : Int) (a b : List Route) :
    routesOf id (a ++ b) = routesOf id a ++ routesOf id b := by
  unfold routesOf
  exact List.filter_append _ _

theorem routesOf_all (id : Int) (rs : List Route) (h : ∀ r ∈ rs, r.childID = id) :
    routesOf id rs = rs := by
  unfold routesOf
  rw [List.filter_eq_self]
  intro r hr
  simp [h r hr]

theorem routesOf_none (id : Int) (rs : List Route) (h : ∀ r ∈ rs, r.childID ≠ id) :
    routesOf id rs = [] := by
  unfold routesOf
  rw [List.filter_eq_nil_iff]
  intro r hr
  simp [h r hr]

/-- The outer loop over entries with distinct keys and no nil button: no panic, every
route belongs to a visited entry, and each visited entry gets its own count. -/
theorem drawTalentArrowsLoop_spec (buttonMap : PtrMap CanvasObject)
    (talentMap : PtrMap Talent) (entries : List (Int × Option CanvasObject))
    (hkeys : (entries.map Prod.fst).Nodup) (hnonnil : ∀ e ∈ entries, e.2 ≠ none) :
    ∃ routes, drawTalentArrowsLoop buttonMap talentMap entries = some routes ∧
      (∀ r ∈ routes, r.childID ∈ entries.map Prod.fst) ∧
      ∀ e ∈ entries,
        (routesOf e.1 routes).length = entryRouteCount buttonMap talentMap e.1 := by
  induction entries with
  | nil => exact ⟨[], rfl, by simp, by simp⟩
  | cons e rest ih =>
    rw [List.map_cons, List.nodup_cons] at hkeys
    obtain ⟨hnotin, hnd⟩ := hkeys
    obtain ⟨rs, hrs, hmem, hcount⟩ :=
      ih hnd (fun e1 he1 => hnonnil e1 (List.mem_cons_of_mem _ he1))
    obtain ⟨id, ob⟩ := e
    have hob : ob ≠ none := hnonnil (id, ob) (List.mem_cons_self _ _)
    obtain ⟨btn, hbtn⟩ := Option.ne_none_iff_exists'.mp hob
    subst hbtn
    obtain ⟨r, hr, hl, hc⟩ := entryRoutes_spec buttonMap talentMap id btn
    refine ⟨r ++ rs, ?_, ?_, ?_⟩
    · simp only [drawTalentArrowsLoop, hr, hrs, Option.some_bind]
    · intro x hx
      rw [List.mem_append] at hx
      rcases hx with hx | hx
      · rw [hc x hx]; exact List.mem_cons_self _ _
      · exact List.mem_cons_of_mem _ (hmem x hx)
    · intro e1 he1
      rw [routesOf_append, List.length_append]
      rcases List.mem_cons.mp he1 with h | h
      · subst h
        have hz : routesOf id rs = [] :=
          routesOf_none id rs (fun x hx hxe => hnotin (hxe ▸ hmem x hx))
        rw [routesOf_all id r hc, hz, hl]
        rfl
      · have hne : e1.1 ≠ id := by
          intro heq
          apply hnotin
          have hmap := List.mem_map_of_mem Prod.fst h
          rwa [heq] at hmap
        have hz : routesOf e1.1 r = [] :=
          routesOf_none e1.1 r (fun x hx hxe => hne ((hc x hx) ▸ hxe).symm)
        rw [hz, hcount e1 h]
        simp

theorem prereqRoutes_dangling (buttonMap : PtrMap CanvasObject) (id : Int)
    (btn : Option CanvasObject) (t : Talent) (i : Fin 3)
    (hp : buttonMap.present (t.PreReqTalent i).Int64 = false) :
    prereqRoutes buttonMap id btn t i = some [] := by
  unfold prereqRoutes
  unfold PtrMap.present at hp
  split_ifs
  · rfl
  · rcases hf : PtrMap.find buttonMap (t.PreReqTalent i).Int64 with _ | _ | preBtn
    · simp [hf]
    · simp [hf]
    · simp [hf] at hp

/-- Three buttons of 46 x 46 in a column and a neighbour. -/
def sampleButtons : PtrMap CanvasObject :=
  [(1, some ⟨46, 46, 0, 0, 46, 46⟩), (2, some ⟨46, 46, 0, 69, 46, 46⟩),
    (3, some ⟨46, 46, 69, 69, 46, 46⟩)]

/-- The three slots `PreReqTalent[0..2]` of a talent. -/
def prereqSlots (a b c : NullInt64) : Fin 3 → NullInt64 :=
  fun i => if i = 0 then a else if i = 1 then b else c

/-- Talent 1 has no prerequisite, talent 2 names talent 1 and the missing talent 99,
talent 3 names talents 1 and 2 and has a zero slot. -/
def sampleTalents : PtrMap Talent :=
  [(1, some ⟨1, ⟨0, true⟩, ⟨0, true⟩, prereqSlots ⟨0, false⟩ ⟨0, true⟩ ⟨0, true⟩⟩),
    (2, some ⟨2, ⟨1, true⟩, ⟨0, true⟩, prereqSlots ⟨1, true⟩ ⟨99, true⟩ ⟨0, false⟩⟩),
    (3, some ⟨3, ⟨1, true⟩, ⟨1, true⟩, prereqSlots ⟨1, true⟩ ⟨2, true⟩ ⟨0, true⟩⟩)]

/-- C9: on a button map with distinct keys and no nil button `drawTalentArrows` does
not fail, and for every entity (an entry of `buttonMap` with a talent in `talentMap`)
the number of routes it draws for that entity is the number of the three prerequisite
slots that are valid, non-zero and whose id is present in `buttonMap`; this is at most
the number of prerequisite entries and at most 3; a slot whose id is absent draws
nothing, and an entity with such a slot gets strictly fewer routes than it has
prerequisite entries. -/
theorem C9_routes_per_entity (buttonMap : PtrMap CanvasObject) (talentMap : PtrMap Talent)
    (hkeys : (buttonMap.map Prod.fst).Nodup) (hnonnil : ∀ e ∈ buttonMap, e.2 ≠ none) :
    ∃ routes, drawTalentArrows buttonMap talentMap = some routes ∧
      ∀ id btn t, (id, some btn) ∈ buttonMap → talentMap.find id = some (some t) →
        (routesOf id routes).length = countSlots (slotResolved buttonMap t) ∧
        (routesOf id routes).length ≤ countSlots (slotDeclared t) ∧
        (routesOf id routes).length ≤ 3 ∧
        ∀ i, slotDeclared t i = true →
          buttonMap.present (t.PreReqTalent i).Int64 = false →
            prereqRoutes buttonMap id (some btn) t i = some [] ∧
            (routesOf id routes).length < countSlots (slotDeclared t) := by
  obtain ⟨routes, hr, _, hcount⟩ :=
    drawTalentArrowsLoop_spec buttonMap talentMap buttonMap hkeys hnonnil
  refine ⟨routes, hr, ?_⟩
  intro id btn t hmem ht
  have hc : (routesOf id routes).length = countSlots (slotResolved buttonMap t) := by
    have h := hcount (id, some btn) hmem
    unfold entryRouteCount at h
    simp only [ht] at h
    exact h
  have hsub : ∀ i, slotResolved buttonMap t i = true → slotDeclared t i = true := by
    intro i hi
    unfold slotResolved at hi
    rw [Bool.and_eq_true] at hi
    exact hi.1
  rw [hc]
  refine ⟨rfl, countSlots_mono _ _ hsub, countSlots_le_three _, ?_⟩
  intro i hd hp
  refine ⟨prereqRoutes_dangling buttonMap id (some btn) t i hp, ?_⟩
  apply countSlots_lt _ _ hsub i hd
  unfold slotResolved
  rw [hp, Bool.and_false]

/-- C9 at `sampleButtons` and `sampleTalents`, where talent 2 names the missing
talent 99. -/
theorem C9_routes_per_entity_witness :
    (sampleButtons.map Prod.fst).Nodup ∧ (∀ e ∈ sampleButtons, e.2 ≠ none) ∧
    ∃ routes, drawTalentArrows sampleButtons sampleTalents = some routes ∧
      ∀ id btn t, (id, some btn) ∈ sampleButtons →
        sampleTalents.find id = some (some t) →
        (routesOf id routes).length = countSlots (slotResolved sampleButtons t) ∧
        (routesOf id routes).length ≤ countSlots (slotDeclared t) ∧
        (routesOf id routes).length ≤ 3 ∧
        ∀ i, slotDeclared t i = true →
          sampleButtons.present (t.PreReqTalent i).Int64 = false →
            prereqRoutes sampleButtons id (some btn) t i = some [] ∧
            (routesOf id routes).length < countSlots (slotDeclared t) :=
  have hk : (sampleButtons.map Prod.fst).Nodup := by decide
  have hn : ∀ e ∈ sampleButtons, e.2 ≠ none := by
    intro e he
    simp only [sampleButtons, List.mem_cons, List.mem_singleton, List.not_mem_nil,
      or_false] at he
    rcases he with h | h | h <;> subst h <;> simp
  ⟨hk, hn, C9_routes_per_entity sampleButtons sampleTalents hk hn⟩

/-! ## The extent reported by `MinSize` -/

theorem foldl_add_eq (xs : List ℚ) (a : ℚ) :
    xs.foldl (fun total w => total + w) a = a + xs.sum := by
  induction xs generalizing a with
  | nil => simp
  | cons x rest ih =>
    simp only [List.foldl_cons, List.sum_cons]
    rw [ih]
    ring

theorem sum_range_getD (xs : List ℚ) :
    Finset.sum (Finset.range xs.length) (fun k => xs.getD k 0) = xs.sum := by
  induction xs with
  | nil => simp
  | cons x rest ih =>
    rw [List.length_cons, Finset.sum_range_succ', List.sum_cons]
    have h : ∀ k, (x :: rest).getD (k + 1) 0 = rest.getD k 0 := by
      intro k
      simp
    simp only [h, ih]
    have h0 : (x :: rest).getD 0 0 = x := by simp
    rw [h0]
    ring

/-- The loop `total += w` computes the sum of the slots of the slice. -/
theorem sumLoop_eq (xs : List ℚ) :
    sumLoop xs = Finset.sum (Finset.range xs.length) (fun k => xs.getD k 0) := by
  unfold sumLoop
  rw [foldl_add_eq, sum_range_getD]
  ring

theorem offsetSum_split (sizes : List ℚ) (pad : ℚ) (j : Nat) :
    offsetSum sizes pad j
      = Finset.sum (Finset.range j) (fun k => sizes.getD k 0) + (j : ℚ) * pad := by
  induction j with
  | zero => simp [offsetSum]
  | succ j ih =>
    rw [offsetSum_succ, ih, Finset.sum_range_succ]
    push_cast
    ring

/-- The far edge of the last slot: its offset plus its size is the sum of all sizes
plus one gutter between neighbours. -/
theorem offsetSum_last_edge (sizes : List ℚ) (pad : ℚ) (n : Nat) (hn : 1 ≤ n) :
    offsetSum sizes pad (n - 1) + sizes.getD (n - 1) 0
      = Finset.sum (Finset.range n) (fun k => sizes.getD k 0) + ((n : ℚ) - 1) * pad := by
  obtain ⟨m, rfl⟩ : ∃ m, n = m + 1 := ⟨n - 1, by omega⟩
  rw [Nat.add_sub_cancel, offsetSum_split, Finset.sum_range_succ]
  push_cast
  ring

theorem layoutMeasure_fst_length (rows cols : Nat) (objs : List CanvasObject) :
    (layoutMeasure rows cols objs).1.length = cols := by
  rw [layoutMeasure_fst, bucketMax_length, List.length_replicate]

theorem layoutMeasure_snd_length (rows cols : Nat) (objs : List CanvasObject) :
    (layoutMeasure rows cols objs).2.length = rows := by
  rw [layoutMeasure_snd, bucketMax_length, List.length_replicate]

/-- The totals of `MinSize` before the fallback (lines 28-38). -/
def minSizeTotals (g : grid4x15) (objects : List CanvasObject) : ℚ × ℚ :=
  (Finset.sum (Finset.range g.Cols.toNat) (fun k => (MinSize.colWidths g objects).getD k 0)
      + ((g.Cols : ℚ) - 1) * g.HorizontalPad,
   Finset.sum (Finset.range g.Rows.toNat) (fun k => (MinSize.rowHeights g objects).getD k 0)
      + ((g.Rows : ℚ) - 1) * g.VerticalPad)

/-- Whenever `MinSize` does not panic it returns its totals, each replaced by the
fallback when it is 0. -/
theorem MinSize_eq_some (g : grid4x15) (objects : List CanvasObject)
    (hR : 0 ≤ g.Rows) (hC : 0 ≤ g.Cols) (hne : g.Cols = 0 → objects = []) :
    MinSize g objects = some
      (if (minSizeTotals g objects).1 = 0
        then (g.Cols : ℚ) * 50 + ((g.Cols : ℚ) - 1) * g.HorizontalPad
        else (minSizeTotals g objects).1,
       if (minSizeTotals g objects).2 = 0
        then (g.Rows : ℚ) * 50 + ((g.Rows : ℚ) - 1) * g.VerticalPad
        else (minSizeTotals g objects).2) := by
  unfold MinSize minSizeTotals MinSize.colWidths MinSize.rowHeights
  rw [if_neg (by omega), if_neg (by intro h; exact h.2 (hne h.1))]
  simp only [sumLoop_eq, minSizeMeasure_eq, layoutMeasure_fst_length,
    layoutMeasure_snd_length, Int.cast_sub, Int.cast_one]

/-- What the three passes leave at a flat index inside the grid, whatever the length
of the list. -/
theorem layoutPasses_getElem?_inside (R C : Nat) (hpad vpad : ℚ)
    (objects : List CanvasObject) (i : Nat) (hi : i < objects.length)
    (hin : i < R * C) :
    (layoutPasses R C hpad vpad objects)[i]? = some
      ((objects[i].Move
          (offsetSum (layoutMeasure R C objects).1 hpad (i % C))
          (offsetSum (layoutMeasure R C objects).2 vpad (i / C))).Resize
        ((layoutMeasure R C objects).1.getD (i % C) 0)
        ((layoutMeasure R C objects).2.getD (i / C) 0)) := by
  obtain ⟨hrow, hcol⟩ := flat_index_bounds R C i hin
  unfold layoutPasses
  simp only []
  rw [placeLoop_getElem?, List.getElem?_eq_getElem hi, Option.map_some', Nat.zero_add]
  unfold placeObject
  simp only [if_pos (And.intro hrow hcol)]
  rw [cumulativeOffsets_getD _ _ _ _ hcol, cumulativeOffsets_getD _ _ _ _ hrow]

/-- The three passes leave an object at a flat index beyond the grid as it was. -/
theorem layoutPasses_getElem?_beyond (R C : Nat) (hpad vpad : ℚ)
    (objects : List CanvasObject) (hC : 0 < C) (i : Nat) (hi : i < objects.length)
    (hout : R * C ≤ i) :
    (layoutPasses R C hpad vpad objects)[i]? = some objects[i] := by
  have hrow : ¬ i / C < R := by
    rw [Nat.div_lt_iff_lt_mul hC]
    omega
  unfold layoutPasses
  simp only []
  rw [placeLoop_getElem?, List.getElem?_eq_getElem hi, Option.map_some', Nat.zero_add]
  unfold placeObject
  simp only [if_neg (fun h : i / C < R ∧ i % C < C => hrow h.1)]

/-- The value a measurement loop leaves in slot `c`: the running maximum, from `m`, of
`val` over the objects whose index maps to `c`. -/
def maxOver (key : Nat → Nat) (val : CanvasObject → ℚ) (c : Nat) :
    List CanvasObject → Nat → ℚ → ℚ
  | [], _, m => m
  | o :: rest, i, m =>
      maxOver key val c rest (i + 1) (if key i = c ∧ val o > m then val o else m)

theorem maxStep_eq (p : Prop) [Decidable p] (v m : ℚ) :
    (if p ∧ v > m then v else m) = if p then max m v else m := by
  by_cases hp : p
  · simp only [hp, true_and, if_true]
    by_cases hv : v > m
    · rw [if_pos hv, max_eq_right (le_of_lt hv)]
    · rw [if_neg hv, max_eq_left (not_lt.mp hv)]
  · simp only [hp, false_and, if_false]

theorem bucketMax_getD (n : Nat) (key : Nat → Nat) (val : CanvasObject → ℚ)
    (objs : List CanvasObject) (i : Nat) (acc : List ℚ) (c : Nat) (hc : c < n)
    (hlen : c < acc.length) :
    (bucketMax n key val objs i acc).getD c 0 = maxOver key val c objs i (acc.getD c 0) := by
  induction objs generalizing i acc with
  | nil => rfl
  | cons o rest ih =>
    simp only [bucketMax, maxOver]
    rw [ih]
    · congr 1
      by_cases hk : key i = c
      · subst hk
        by_cases hv : val o > acc.getD (key i) 0
        · rw [if_pos ⟨hc, hv⟩, if_pos ⟨rfl, hv⟩, getD_set_zero, if_pos ⟨rfl, hlen⟩]
        · rw [if_neg (fun h => hv h.2), if_neg (fun h => hv h.2)]
      · rw [if_neg (fun h : key i = c ∧ val o > acc.getD c 0 => hk h.1)]
        split_ifs
        · rw [getD_set_zero, if_neg (fun h => hk h.1)]
        · rfl
    · split_ifs <;> simpa using hlen

theorem max_swap_right (a b v : ℚ) : max (max a b) v = max (max a v) b := by
  rw [max_assoc, max_comm b v, ← max_assoc]

theorem maxOver_max_init (key : Nat → Nat) (val : CanvasObject → ℚ) (c : Nat)
    (objs : List CanvasObject) (i : Nat) (a b : ℚ) :
    maxOver key val c objs i (max a b) = max (maxOver key val c objs i a) b := by
  induction objs generalizing i a with
  | nil => rfl
  | cons o rest ih =>
    simp only [maxOver, maxStep_eq]
    by_cases hk : key i = c
    · simp only [hk, if_true]
      rw [max_swap_right, ih]
    · simp only [hk, if_false]
      rw [ih]

/-- Replacing an object that does not count for slot `c`, or by one of the same value,
leaves the slot as it was. -/
theorem maxOver_set_same (key : Nat → Nat) (val : CanvasObject → ℚ) (c : Nat)
    (objs : List CanvasObject) (i : Nat) (m : ℚ) (j : Nat) (o o' : CanvasObject)
    (hj : objs[j]? = some o) (h : key (i + j) ≠ c ∨ val o' = val o) :
    maxOver key val c (objs.set j o') i m = maxOver key val c objs i m := by
  induction objs generalizing i m j with
  | nil => rfl
  | cons o1 rest ih =>
    cases j with
    | zero =>
      simp only [List.getElem?_cons_zero, Option.some.injEq] at hj
      subst hj
      simp only [List.set_cons_zero, maxOver, maxStep_eq]
      rw [Nat.add_zero] at h
      rcases h with h | h
      · simp only [h, if_false]
      · rw [h]
    | succ j =>
      simp only [List.getElem?_cons_succ] at hj
      simp only [List.set_cons_succ, maxOver]
      apply ih _ _ _ hj
      have e : i + (j + 1) = i + 1 + j := by omega
      rw [e] at h
      exact h

/-- Raising the value of an object that counts for slot `c` to `val o'` makes the slot
the larger of its old value and `val o'`. -/
theorem maxOver_set_raise (key : Nat → Nat) (val : CanvasObject → ℚ) (c : Nat)
    (objs : List CanvasObject) (i : Nat) (m : ℚ) (j : Nat) (o o' : CanvasObject)
    (hj : objs[j]? = some o) (hk : key (i + j) = c) (hle : val o ≤ val o') :
    maxOver key val c (objs.set j o') i m = max (maxOver key val c objs i m) (val o') := by
  induction objs generalizing i m j with
  | nil => simp at hj
  | cons o1 rest ih =>
    cases j with
    | zero =>
      simp only [List.getElem?_cons_zero, Option.some.injEq] at hj
      subst hj
      rw [Nat.add_zero] at hk
      simp only [List.set_cons_zero, maxOver, maxStep_eq, hk, if_true]
      rw [maxOver_max_init, maxOver_max_init, max_assoc, max_eq_right hle]
    | succ j =>
      simp only [List.getElem?_cons_succ] at hj
      simp only [List.set_cons_succ, maxOver]
      apply ih _ _ _ hj
      have e : i + (j + 1) = i + 1 + j := by omega
      rw [e] at hk
      exact hk

theorem offsetSum_congr (sizes sizes' : List ℚ) (pad : ℚ) (j : Nat)
    (h : ∀ k, k < j → sizes'.getD k 0 = sizes.getD k 0) :
    offsetSum sizes' pad j = offsetSum sizes pad j := by
  unfold offsetSum
  apply Finset.sum_congr rfl
  intro k hk
  rw [h k (Finset.mem_range.mp hk)]

/-- Growing slot `c` by `e` moves the offsets of the slots after `c` by `e` and no
other offset. -/
theorem offsetSum_grow (sizes sizes' : List ℚ) (pad : ℚ) (c : Nat) (e : ℚ)
    (hc : sizes'.getD c 0 = sizes.getD c 0 + e)
    (hother : ∀ k, k ≠ c → sizes'.getD k 0 = sizes.getD k 0) (j : Nat) :
    offsetSum sizes' pad j = offsetSum sizes pad j + (if c < j then e else 0) := by
  induction j with
  | zero => simp [offsetSum]
  | succ j ih =>
    rw [offsetSum_succ, offsetSum_succ, ih]
    by_cases h1 : c < j
    · rw [if_pos h1, if_pos (by omega), hother j (by omega)]
      ring
    · by_cases h2 : c = j
      · subst h2
        rw [if_neg h1, if_pos (by omega), hc]
        ring
      · rw [if_neg h1, if_neg (by omega), hother j (fun h => h2 h.symm)]
        ring

theorem layoutMeasure_fst_getD (R C : Nat) (objs : List CanvasObject) (c : Nat)
    (hc : c < C) :
    (layoutMeasure R C objs).1.getD c 0
      = maxOver (fun k => k % C) CanvasObject.minW c objs 0 0 := by
  rw [layoutMeasure_fst, bucketMax_getD _ _ _ _ _ _ c hc (by simpa using hc),
    getD_replicate_zero]

theorem layoutMeasure_snd_getD (R C : Nat) (objs : List CanvasObject) (r : Nat)
    (hr : r < R) :
    (layoutMeasure R C objs).2.getD r 0
      = maxOver (fun k => k / C) CanvasObject.minH r objs 0 0 := by
  rw [layoutMeasure_snd, bucketMax_getD _ _ _ _ _ _ r hr (by simpa using hr),
    getD_replicate_zero]

theorem getD_beyond (xs : List ℚ) (k : Nat) (h : xs.length ≤ k) : xs.getD k 0 = 0 := by
  rw [List.getD_eq_getElem?_getD, List.getElem?_eq_none h]
  rfl

/-- Replacing object `j` by one of the same minimum height and a minimum width that is
not smaller: the width of its column becomes the larger of the old width and the new
minimum width, every other column width and every row height stays. -/
theorem layoutMeasure_set_width (R C : Nat) (hC : 0 < C) (objs : List CanvasObject)
    (j : Nat) (hj : j < objs.length) (o' : CanvasObject)
    (hH : o'.minH = objs[j].minH) (hW : objs[j].minW ≤ o'.minW) :
    (∀ k, (layoutMeasure R C (objs.set j o')).1.getD k 0
        = if k = j % C then max ((layoutMeasure R C objs).1.getD k 0) o'.minW
          else (layoutMeasure R C objs).1.getD k 0) ∧
    (∀ r, (layoutMeasure R C (objs.set j o')).2.getD r 0
        = (layoutMeasure R C objs).2.getD r 0) := by
  have hjo : objs[j]? = some objs[j] := List.getElem?_eq_getElem hj
  constructor
  · intro k
    rcases Nat.lt_or_ge k C with hk | hk
    · rw [layoutMeasure_fst_getD R C _ k hk, layoutMeasure_fst_getD R C _ k hk]
      by_cases hkj : k = j % C
      · rw [if_pos hkj]
        exact maxOver_set_raise _ _ _ _ _ _ _ _ _ hjo (by simp [hkj]) hW
      · rw [if_neg hkj]
        exact maxOver_set_same _ _ _ _ _ _ _ _ _ hjo
          (Or.inl (by simpa using fun h => hkj h.symm))
    · have hne : k ≠ j % C := by
        have := Nat.mod_lt j hC
        omega
      rw [if_neg hne, getD_beyond _ _ (by rw [layoutMeasure_fst_length]; exact hk),
        getD_beyond _ _ (by rw [layoutMeasure_fst_length]; exact hk)]
  · intro r
    rcases Nat.lt_or_ge r R with hr | hr
    · rw [layoutMeasure_snd_getD R C _ r hr, layoutMeasure_snd_getD R C _ r hr]
      exact maxOver_set_same _ _ _ _ _ _ _ _ _ hjo (Or.inr hH)
    · rw [getD_beyond _ _ (by rw [layoutMeasure_snd_length]; exact hr),
        getD_beyond _ _ (by rw [layoutMeasure_snd_length]; exact hr)]

/-- A column is at least as wide as each of its members. -/
theorem layoutMeasure_fst_ge (R C : Nat) (hC : 0 < C) (objs : List CanvasObject)
    (j : Nat) (hj : j < objs.length) :
    objs[j].minW ≤ (layoutMeasure R C objs).1.getD (j % C) 0 := by
  rw [layoutMeasure_fst]
  have h := bucketMax_ge_member C (fun k => k % C) CanvasObject.minW objs 0
    (List.replicate C 0) j objs[j] (List.getElem?_eq_getElem hj)
    (by simpa using Nat.mod_lt j hC) (by simpa using Nat.mod_lt j hC)
  simpa using h

/-- An object with its minimum width raised by `d`. -/
def CanvasObject.widen (o : CanvasObject) (d : ℚ) : CanvasObject :=
  { o with minW := o.minW + d }

/-- C14, as stated, fails for an object narrower than its column: in `sampleObjects`
the object at index 2 has minimum width 1 in column 0, which is 10 wide; raising its
minimum width by 2 leaves the column 10 wide, not 12. -/
theorem C14_narrow_item_counterexample :
    (Layout.colWidths sampleGrid sampleObjects).getD (2 % 2) 0 = 10 ∧
    (Layout.colWidths sampleGrid
        (sampleObjects.set 2 (CanvasObject.widen ⟨1, 2, 0, 0, 0, 0⟩ 2))).getD (2 % 2) 0 = 10 ∧
    (10 : ℚ) ≠ 10 + 2 := by
  refine ⟨?_, ?_, by norm_num⟩
  · simp [Layout.colWidths, sampleGrid, sampleObjects, layoutMeasure, layoutMeasureLoop,
      layoutMeasureStep]
    norm_num
  · simp [Layout.colWidths, sampleGrid, sampleObjects, layoutMeasure, layoutMeasureLoop,
      layoutMeasureStep, CanvasObject.widen]
    norm_num

/-! ## Length of the wings and degenerate segments -/

/-- The squared length of a line. -/
def Line.sqLength (l : Line) : ℚ :=
  (l.x2 - l.x1) * (l.x2 - l.x1) + (l.y2 - l.y1) * (l.y2 - l.y1)

/-- C15, as stated, fails: for the segment (0,0)->(10,0) and size 8 the wings end at
(2,4) and (2,-4); each is at squared distance 80 from (10,0), not 8*8 = 64. -/
theorem C15_wing_length_counterexample :
    createArrowHead 0 0 10 0 8 = [⟨10, 0, 2, 4⟩, ⟨10, 0, 2, -4⟩] ∧
    Line.sqLength ⟨10, 0, 2, 4⟩ = 80 ∧ Line.sqLength ⟨10, 0, 2, -4⟩ = 80 ∧
    (80 : ℚ) ≠ 8 * 8 := by
  refine ⟨?_, by norm_num [Line.sqLength], by norm_num [Line.sqLength], by norm_num⟩
  rw [createArrowHead_east 0 0 10 8 (by norm_num)]
  norm_num

/-- The rational square root of a positive rational is not 0. -/
theorem rat_sqrt_ne_zero (q : ℚ) (hq : 0 < q) : Rat.sqrt q ≠ 0 := by
  unfold Rat.sqrt
  have hden : Nat.sqrt q.den ≠ 0 := by
    rw [Ne, Nat.sqrt_eq_zero]
    exact q.den_nz
  rw [Ne, Rat.mkRat_eq_zero hden]
  unfold Int.sqrt
  have hnum : 0 < q.num := Rat.num_pos.mpr hq
  intro h
  have h2 : Nat.sqrt q.num.toNat = 0 := by exact_mod_cast h
  rw [Nat.sqrt_eq_zero] at h2
  omega

/-- The modelled length of a segment is 0 exactly when its two end points coincide. -/
theorem hypot_eq_zero_iff (dx dy : ℚ) : hypot dx dy = 0 ↔ dx = 0 ∧ dy = 0 := by
  constructor
  · intro h
    by_contra hne
    have hpos : 0 < dx * dx + dy * dy := by
      rcases not_and_or.mp hne with h1 | h1
      · have := mul_self_pos.mpr h1
        have := mul_self_nonneg dy
        linarith
      · have := mul_self_pos.mpr h1
        have := mul_self_nonneg dx
        linarith
    exact rat_sqrt_ne_zero _ hpos h
  · rintro ⟨rfl, rfl⟩
    exact hypot_of_length 0 0 0 (le_refl _) (by ring)

theorem createArrowHead_eq_nil_iff (x1 y1 x2 y2 size : ℚ) :
    createArrowHead x1 y1 x2 y2 size = [] ↔ x1 = x2 ∧ y1 = y2 := by
  unfold createArrowHead
  simp only []
  constructor
  · intro h
    by_contra hne
    have hz : ¬ hypot (x2 - x1) (y2 - y1) = 0 := by
      rw [hypot_eq_zero_iff]
      intro hh
      exact hne ⟨by linarith [hh.1], by linarith [hh.2]⟩
    rw [if_neg hz] at h
    exact List.cons_ne_nil _ _ h
  · rintro ⟨rfl, rfl⟩
    have hz : hypot (x1 - x1) (y1 - y1) = 0 := by
      rw [hypot_eq_zero_iff]
      exact ⟨sub_self _, sub_self _⟩
    rw [if_pos hz]

theorem createArrowHead_length (x1 y1 x2 y2 size : ℚ) (h : ¬ (x1 = x2 ∧ y1 = y2)) :
    (createArrowHead x1 y1 x2 y2 size).length = 2 := by
  have hz : ¬ hypot (x2 - x1) (y2 - y1) = 0 := by
    rw [hypot_eq_zero_iff]
    intro hh
    exact h ⟨by linarith [hh.1], by linarith [hh.2]⟩
  unfold createArrowHead
  simp only [if_neg hz, List.length_cons, List.length_nil]

/-- C16: `createArrowHead` is total; it returns no line exactly when (x1,y1) = (x2,y2)
and exactly two lines otherwise. A vertical route whose segment has length 0, that is
with parent.y + parent.height = child.y, is its line alone, without arrow head. -/
theorem C16_degenerate_segment_no_arrow_head (x1 y1 x2 y2 size : ℚ) :
    (createArrowHead x1 y1 x2 y2 size = [] ↔ (x1 = x2 ∧ y1 = y2)) ∧
    (¬ (x1 = x2 ∧ y1 = y2) → (createArrowHead x1 y1 x2 y2 size).length = 2) ∧
    (∀ (id preID : Int) (preBtn btn : CanvasObject),
      preBtn.x = btn.x → preBtn.y ≠ btn.y → preBtn.y + preBtn.h = btn.y →
      drawArrow id preID preBtn btn
        = ⟨id, preID, ArrowKind.vertical,
            [⟨preBtn.x + preBtn.h / 2, preBtn.y + preBtn.h,
              preBtn.x + preBtn.h / 2, btn.y⟩]⟩) := by
  refine ⟨createArrowHead_eq_nil_iff x1 y1 x2 y2 size,
    createArrowHead_length x1 y1 x2 y2 size, ?_⟩
  intro id preID preBtn btn hx hy hedge
  rw [drawArrow_vertical id preID preBtn btn hy hx]
  unfold drawVerticalArrow
  simp only []
  rw [(createArrowHead_eq_nil_iff _ _ _ _ 8).mpr ⟨rfl, hedge⟩]

/-- C16 at the parent (0,0,40,40) and the child (0,40,40,40) right below it: the route
is the zero-length line at (20,40) and nothing else; and the arrow head of the segment
(0,0)->(1,1), whose length is not rational, still has two lines. -/
theorem C16_degenerate_segment_no_arrow_head_witness :
    drawArrow 2 1 ⟨46, 46, 0, 0, 40, 40⟩ ⟨46, 46, 0, 40, 40, 40⟩
      = ⟨2, 1, ArrowKind.vertical, [⟨0 + 40 / 2, 0 + 40, 0 + 40 / 2, 40⟩]⟩ ∧
    (createArrowHead 0 0 1 1 8).length = 2 :=
  ⟨(C16_degenerate_segment_no_arrow_head 0 0 0 0 8).2.2 2 1 ⟨46, 46, 0, 0, 40, 40⟩
      ⟨46, 46, 0, 40, 40, 40⟩ rfl (by norm_num) (by norm_num),
   (C16_degenerate_segment_no_arrow_head 0 0 1 1 8).2.1 (by norm_num)⟩

/-! ## Lists of zero-sized objects -/

/-- The total area of the rectangles of a list of objects. -/
def totalArea (objs : List CanvasObject) : ℚ :=
  (objs.map (fun o => o.w * o.h)).sum

theorem bucketMax_all_zero (n : Nat) (key : Nat → Nat) (val : CanvasObject → ℚ)
    (objs : List CanvasObject) (hz : ∀ o ∈ objs, val o = 0) (c : Nat) :
    (bucketMax n key val objs 0 (List.replicate n 0)).getD c 0 = 0 := by
  rcases bucketMax_eq_or n key val objs 0 (List.replicate n 0) c with h | ⟨j, o, hj, _, hv⟩
  · rw [h, getD_replicate_zero]
  · rw [hv]
    exact hz o (List.getElem?_mem hj)

/-- C17, as stated, fails: four objects of minimum size 0 on the 2 x 2 `sampleGrid`
are placed at the gutter offsets with width 0 and height 0, so the total area is 0,
while `MinSize` reports (5, 3). -/
theorem C17_zero_sizes_counterexample :
    Layout sampleGrid (List.replicate 4 ⟨0, 0, 0, 0, 0, 0⟩) (0, 0)
      = some [⟨0, 0, 0, 0, 0, 0⟩, ⟨0, 0, 5, 0, 0, 0⟩, ⟨0, 0, 0, 3, 0, 0⟩,
          ⟨0, 0, 5, 3, 0, 0⟩] ∧
    totalArea [⟨0, 0, 0, 0, 0, 0⟩, ⟨0, 0, 5, 0, 0, 0⟩, ⟨0, 0, 0, 3, 0, 0⟩,
      ⟨0, 0, 5, 3, 0, 0⟩] = 0 ∧
    ¬ (0 < totalArea [⟨0, 0, 0, 0, 0, 0⟩, ⟨0, 0, 5, 0, 0, 0⟩, ⟨0, 0, 0, 3, 0, 0⟩,
      ⟨0, 0, 5, 3, 0, 0⟩]) ∧
    MinSize sampleGrid (List.replicate 4 ⟨0, 0, 0, 0, 0, 0⟩) = some (5, 3) := by
  refine ⟨?_, ?_, by norm_num [totalArea], ?_⟩
  · simp [Layout, sampleGrid, layoutPasses, layoutMeasure, layoutMeasureLoop,
      layoutMeasureStep, cumulativeOffsets, placeLoop, placeObject, CanvasObject.Move,
      CanvasObject.Resize, List.range', List.replicate]
  · norm_num [totalArea]
  · simp [MinSize, sampleGrid, minSizeMeasure, minSizeMeasureLoop, minSizeMeasureStep,
      sumLoop, List.replicate]

/-- C17 (amended): on a list of exactly R*C objects whose minimum sizes are all 0,
`Layout` gives every rectangle width 0 and height 0, so the total area is 0: the
fallback of 50 units per cell is not applied to the layout. `MinSize` reports the
gutters alone, (C-1)*HorizontalPad and (R-1)*VerticalPad, each replaced by
count*50 + gutters only when it is 0. -/
theorem C17_zero_sizes_zero_area (g : grid4x15) (objects : List CanvasObject)
    (cs : ℚ × ℚ) (R C : Nat) (hR : 1 ≤ R) (hC : 1 ≤ C)
    (hRows : g.Rows = R) (hCols : g.Cols = C) (hlen : objects.length = R * C)
    (hzero : ∀ o ∈ objects, o.minW = 0 ∧ o.minH = 0) :
    ∃ out, Layout g objects cs = some out ∧ out.length = R * C ∧
      (∀ a ∈ out, a.w = 0 ∧ a.h = 0) ∧ totalArea out = 0 ∧
      MinSize g objects = some
        (if ((C : ℚ) - 1) * g.HorizontalPad = 0
          then (C : ℚ) * 50 + ((C : ℚ) - 1) * g.HorizontalPad
          else ((C : ℚ) - 1) * g.HorizontalPad,
         if ((R : ℚ) - 1) * g.VerticalPad = 0
          then (R : ℚ) * 50 + ((R : ℚ) - 1) * g.VerticalPad
          else ((R : ℚ) - 1) * g.VerticalPad) := by
  have hRn : g.Rows.toNat = R := toNat_of_eq_natCast _ _ hRows
  have hCn : g.Cols.toNat = C := toNat_of_eq_natCast _ _ hCols
  have hRq : (g.Rows : ℚ) = (R : ℚ) := by rw [hRows]; simp
  have hCq : (g.Cols : ℚ) = (C : ℚ) := by rw [hCols]; simp
  have hcw : ∀ k, (layoutMeasure R C objects).1.getD k 0 = 0 := by
    intro k
    rw [layoutMeasure_fst]
    exact bucketMax_all_zero _ _ _ _ (fun o ho => (hzero o ho).1) k
  have hrh : ∀ k, (layoutMeasure R C objects).2.getD k 0 = 0 := by
    intro k
    rw [layoutMeasure_snd]
    exact bucketMax_all_zero _ _ _ _ (fun o ho => (hzero o ho).2) k
  have hwh : ∀ a ∈ layoutPasses R C g.HorizontalPad g.VerticalPad objects,
      a.w = 0 ∧ a.h = 0 := by
    intro a ha
    obtain ⟨i, hi⟩ := List.mem_iff_getElem?.mp ha
    have hi1 : i < objects.length := by
      have := (List.getElem?_eq_some_iff.mp hi).1
      rwa [layoutPasses_length] at this
    rw [layoutPasses_getElem? R C _ _ objects hlen i hi1] at hi
    have h := Option.some.inj hi
    subst h
    exact ⟨hcw _, hrh _⟩
  refine ⟨_, Layout_eq_some g objects cs (by omega) (by omega), ?_, ?_, ?_, ?_⟩
  · rw [layoutPasses_length, hlen]
  · rw [hRn, hCn]; exact hwh
  · rw [hRn, hCn]
    unfold totalArea
    apply List.sum_eq_zero
    intro x hx
    obtain ⟨a, ha, rfl⟩ := List.mem_map.mp hx
    rw [(hwh a ha).1, zero_mul]
  · rw [MinSize_eq_some g objects (by omega) (by omega) (by omega)]
    unfold minSizeTotals MinSize.colWidths MinSize.rowHeights
    rw [minSizeMeasure_eq, hRn, hCn, hRq, hCq]
    simp only [hcw, hrh, Finset.sum_const_zero, zero_add]

/-- C17 (amended) at four objects of minimum size 0 on `sampleGrid`. -/
theorem C17_zero_sizes_zero_area_witness :
    ∃ out, Layout sampleGrid (List.replicate 4 ⟨0, 0, 9, 9, 9, 9⟩) (0, 0) = some out ∧
      out.length = 2 * 2 ∧ (∀ a ∈ out, a.w = 0 ∧ a.h = 0) ∧ totalArea out = 0 ∧
      MinSize sampleGrid (List.replicate 4 ⟨0, 0, 9, 9, 9, 9⟩) = some
        (if (((2 : Nat) : ℚ) - 1) * sampleGrid.HorizontalPad = 0
          then ((2 : Nat) : ℚ) * 50 + (((2 : Nat) : ℚ) - 1) * sampleGrid.HorizontalPad
          else (((2 : Nat) : ℚ) - 1) * sampleGrid.HorizontalPad,
         if (((2 : Nat) : ℚ) - 1) * sampleGrid.VerticalPad = 0
          then ((2 : Nat) : ℚ) * 50 + (((2 : Nat) : ℚ) - 1) * sampleGrid.VerticalPad
          else (((2 : Nat) : ℚ) - 1) * sampleGrid.VerticalPad) :=
  C17_zero_sizes_zero_area sampleGrid (List.replicate 4 ⟨0, 0, 9, 9, 9, 9⟩) (0, 0) 2 2
    (by decide) (by decide) rfl rfl rfl
    (by
      intro o ho
      rw [List.eq_of_mem_replicate ho]
      exact ⟨rfl, rfl⟩)

/-! ## Determinism of the layout -/

/-- The minimum size of an object. -/
def CanvasObject.minSize (o : CanvasObject) : ℚ × ℚ := (o.minW, o.minH)

/-- The rectangle of an object: position and size. -/
def CanvasObject.rect (o : CanvasObject) : ℚ × ℚ × ℚ × ℚ := (o.x, o.y, o.w, o.h)

theorem layoutMeasureLoop_congr (R C : Nat) (objs1 objs2 : List CanvasObject) (i : Nat)
    (acc : List ℚ × List ℚ)
    (h : objs1.map CanvasObject.minSize = objs2.map CanvasObject.minSize) :
    layoutMeasureLoop R C objs1 i acc = layoutMeasureLoop R C objs2 i acc := by
  induction objs1 generalizing objs2 i acc with
  | nil =>
    cases objs2 with
    | nil => rfl
    | cons b rest => simp at h
  | cons a rest ih =>
    cases objs2 with
    | nil => simp at h
    | cons b rest2 =>
      simp only [List.map_cons, List.cons.injEq] at h
      obtain ⟨hab, hrest⟩ := h
      have hw : a.minW = b.minW := congrArg Prod.fst hab
      have hh : a.minH = b.minH := congrArg Prod.snd hab
      simp only [layoutMeasureLoop, layoutMeasureStep, hw, hh]
      exact ih rest2 _ _ hrest

theorem layoutMeasure_congr (R C : Nat) (objs1 objs2 : List CanvasObject)
    (h : objs1.map CanvasObject.minSize = objs2.map CanvasObject.minSize) :
    layoutMeasure R C objs1 = layoutMeasure R C objs2 :=
  layoutMeasureLoop_congr R C objs1 objs2 0 _ h

theorem placeObject_minSize (R C : Nat) (co ro cw rh : List ℚ) (i : Nat)
    (o : CanvasObject) :
    (placeObject R C co ro cw rh i o).minSize = o.minSize := by
  unfold placeObject
  simp only []
  split_ifs <;> rfl

theorem placeLoop_minSize (R C : Nat) (co ro cw rh : List ℚ) (objs : List CanvasObject)
    (i : Nat) :
    (placeLoop R C co ro cw rh objs i).map CanvasObject.minSize
      = objs.map CanvasObject.minSize := by
  induction objs generalizing i with
  | nil => rfl
  | cons o rest ih =>
    simp only [placeLoop, List.map_cons, placeObject_minSize, ih]

theorem placeObject_idem (R C : Nat) (co ro cw rh : List ℚ) (i : Nat)
    (o : CanvasObject) :
    placeObject R C co ro cw rh i (placeObject R C co ro cw rh i o)
      = placeObject R C co ro cw rh i o := by
  unfold placeObject
  simp only []
  split_ifs <;> rfl

theorem placeLoop_idem (R C : Nat) (co ro cw rh : List ℚ) (objs : List CanvasObject)
    (i : Nat) :
    placeLoop R C co ro cw rh (placeLoop R C co ro cw rh objs i) i
      = placeLoop R C co ro cw rh objs i := by
  induction objs generalizing i with
  | nil => rfl
  | cons o rest ih =>
    simp only [placeLoop, placeObject_idem, ih]

theorem layoutPasses_minSize (R C : Nat) (hpad vpad : ℚ) (objs : List CanvasObject) :
    (layoutPasses R C hpad vpad objs).map CanvasObject.minSize
      = objs.map CanvasObject.minSize := by
  unfold layoutPasses
  exact placeLoop_minSize _ _ _ _ _ _ _ _

/-- Running the three passes on their own result changes nothing. -/
theorem layoutPasses_idem (R C : Nat) (hpad vpad : ℚ) (objs : List CanvasObject) :
    layoutPasses R C hpad vpad (layoutPasses R C hpad vpad objs)
      = layoutPasses R C hpad vpad objs := by
  have hm := layoutMeasure_congr R C _ _ (layoutPasses_minSize R C hpad vpad objs)
  unfold layoutPasses at hm ⊢
  simp only [] at hm ⊢
  rw [hm]
  exact placeLoop_idem _ _ _ _ _ _ _ _

/-- C18: on a grid of R, C >= 1, two runs of `Layout` on object lists whose minimum
sizes agree index by index return normally with lists of the same length, and at every
flat index inside the grid the two rectangles are identical, whatever the two
`containerSize` arguments and whatever positions and sizes the objects had before.
Calling `Layout` again on the result of a call returns that same result. -/
theorem C18_layout_depends_on_min_sizes_only (g : grid4x15)
    (objs1 objs2 : List CanvasObject) (cs1 cs2 : ℚ × ℚ) (R C : Nat)
    (hR : 1 ≤ R) (hC : 1 ≤ C) (hRows : g.Rows = R) (hCols : g.Cols = C)
    (hmin : objs1.map CanvasObject.minSize = objs2.map CanvasObject.minSize) :
    ∃ out1 out2, Layout g objs1 cs1 = some out1 ∧ Layout g objs2 cs2 = some out2 ∧
      out1.length = out2.length ∧
      (∀ i a b, i < R * C → out1[i]? = some a → out2[i]? = some b → a.rect = b.rect) ∧
      Layout g out1 cs2 = some out1 := by
  have hRn : g.Rows.toNat = R := toNat_of_eq_natCast _ _ hRows
  have hCn : g.Cols.toNat = C := toNat_of_eq_natCast _ _ hCols
  have hlen : objs1.length = objs2.length := by
    have := congrArg List.length hmin
    simpa using this
  have hm := layoutMeasure_congr R C objs1 objs2 hmin
  refine ⟨_, _, Layout_eq_some g objs1 cs1 (by omega) (by omega),
    Layout_eq_some g objs2 cs2 (by omega) (by omega), ?_, ?_, ?_⟩
  · rw [layoutPasses_length, layoutPasses_length, hlen]
  · rw [hRn, hCn]
    intro i a b hin ha hb
    have hi1 : i < objs1.length := by
      have := (List.getElem?_eq_some_iff.mp ha).1
      rwa [layoutPasses_length] at this
    have hi2 : i < objs2.length := by omega
    rw [layoutPasses_getElem?_inside R C _ _ objs1 i hi1 hin] at ha
    rw [layoutPasses_getElem?_inside R C _ _ objs2 i hi2 hin] at hb
    have ha' := Option.some.inj ha
    have hb' := Option.some.inj hb
    subst ha'
    subst hb'
    rw [hm]
    rfl
  · rw [Layout_eq_some g _ cs2 (by omega) (by omega), layoutPasses_idem]

/-- C18 at `sampleObjects` and the same minimum sizes on objects that have never been
placed, with two different container sizes. -/
theorem C18_layout_depends_on_min_sizes_only_witness :
    ∃ out1 out2, Layout sampleGrid sampleObjects (0, 0) = some out1 ∧
      Layout sampleGrid
        [⟨10, 20, 1, 1, 1, 1⟩, ⟨30, 5, 2, 2, 2, 2⟩, ⟨1, 2, 3, 3, 3, 3⟩, ⟨7, 8, 0, 0, 0, 0⟩]
        (640, 480) = some out2 ∧
      out1.length = out2.length ∧
      (∀ i a b, i < 2 * 2 → out1[i]? = some a → out2[i]? = some b → a.rect = b.rect) ∧
      Layout sampleGrid out1 (640, 480) = some out1 :=
  C18_layout_depends_on_min_sizes_only sampleGrid sampleObjects
    [⟨10, 20, 1, 1, 1, 1⟩, ⟨30, 5, 2, 2, 2, 2⟩, ⟨1, 2, 3, 3, 3, 3⟩, ⟨7, 8, 0, 0, 0, 0⟩]
    (0, 0) (640, 480) 2 2 (by decide) (by decide) rfl rfl
    (by simp [sampleObjects, CanvasObject.minSize])

/-! ## The talent grid -/

/-- The tier and column a talent is filed under: a NULL reads as 0. -/
def Talent.gridPos (t : Talent) : Int × Int :=
  (if t.TierID.Valid then t.TierID.Int64 else 0,
   if t.ColumnIndex.Valid then t.ColumnIndex.Int64 else 0)

/-- The content of cell (r, c) of a grid; nil outside the grid. -/
def TalentGrid.cell (grid : TalentGrid) (r c : Nat) : Option Nat :=
  (grid.getD r []).getD c none

/-- The cell (r, c) after the loop over `talents` from index `i`: the index of the
last talent filed under (r, c), or `init` when there is none. -/
def lastAt (r c : Nat) : List Talent → Nat → Option Nat → Option Nat
  | [], _, init => init
  | t :: rest, i, init =>
      lastAt r c rest (i + 1) (if t.gridPos = ((r : Int), (c : Int)) then some i else init)

/-- A grid of `R` rows of `C` cells each. -/
def TalentGrid.shaped (grid : TalentGrid) (R C : Nat) : Prop :=
  grid.length = R ∧ ∀ row ∈ grid, row.length = C

theorem getD_set_any {α : Type} (l : List α) (i j : Nat) (a d : α) :
    (l.set i a).getD j d = if i = j ∧ i < l.length then a else l.getD j d := by
  simp only [List.getD_eq_getElem?_getD, List.getElem?_set]
  by_cases hij : i = j
  · subst hij
    by_cases hi : i < l.length
    · simp [hi]
    · simp [hi, List.getElem?_eq_none (Nat.le_of_not_lt hi)]
  · simp [hij]

theorem shaped_getD_length (grid : TalentGrid) (R C r : Nat) (h : grid.shaped R C)
    (hr : r < R) : (grid.getD r []).length = C := by
  have hlt : r < grid.length := by rw [h.1]; exact hr
  rw [List.getD_eq_getElem?_getD, List.getElem?_eq_getElem hlt]
  exact h.2 _ (List.getElem_mem hlt)

theorem mapTalentsStep_shaped (R C : Nat) (grid : TalentGrid) (i : Nat) (t : Talent)
    (h : grid.shaped R C) : (mapTalentsStep R C grid i t).shaped R C := by
  unfold mapTalentsStep
  simp only []
  generalize (if t.TierID.Valid then t.TierID.Int64 else 0) = tr
  generalize (if t.ColumnIndex.Valid then t.ColumnIndex.Int64 else 0) = tc
  by_cases hin : tr ≥ 0 ∧ tr < (R : Int) ∧ tc ≥ 0 ∧ tc < (C : Int)
  · rw [if_pos hin]
    constructor
    · rw [List.length_set]; exact h.1
    · intro row hrow
      rcases List.mem_or_eq_of_mem_set hrow with h1 | h1
      · exact h.2 row h1
      · rw [h1, List.length_set]
        exact shaped_getD_length grid R C _ h (by omega)
  · rw [if_neg hin]
    exact h

theorem mapTalentsLoop_shaped (R C : Nat) (ts : List Talent) (i : Nat) (grid : TalentGrid)
    (h : grid.shaped R C) : (mapTalentsLoop R C ts i grid).shaped R C := by
  induction ts generalizing i grid with
  | nil => exact h
  | cons t rest ih =>
    simp only [mapTalentsLoop]
    exact ih _ _ (mapTalentsStep_shaped R C grid i t h)

/-- One round of the loop writes `i` into the cell the talent is filed under and
leaves every other cell. -/
theorem mapTalentsStep_cell (R C : Nat) (grid : TalentGrid) (i : Nat) (t : Talent)
    (h : grid.shaped R C) (r c : Nat) (hr : r < R) (hc : c < C) :
    (mapTalentsStep R C grid i t).cell r c
      = if t.gridPos = ((r : Int), (c : Int)) then some i else grid.cell r c := by
  unfold mapTalentsStep Talent.gridPos TalentGrid.cell
  simp only []
  generalize (if t.TierID.Valid then t.TierID.Int64 else 0) = tr
  generalize (if t.ColumnIndex.Valid then t.ColumnIndex.Int64 else 0) = tc
  by_cases hin : tr ≥ 0 ∧ tr < (R : Int) ∧ tc ≥ 0 ∧ tc < (C : Int)
  · rw [if_pos hin, getD_set_any]
    have hlen : tr.toNat < grid.length := by rw [h.1]; omega
    by_cases hrr : tr.toNat = r
    · rw [if_pos ⟨hrr, hlen⟩, getD_set_any]
      have hrowlen : (grid.getD tr.toNat []).length = C :=
        shaped_getD_length grid R C _ h (by omega)
      by_cases hcc : tc.toNat = c
      · rw [if_pos ⟨hcc, by rw [hrowlen]; omega⟩, if_pos]
        rw [Prod.mk.injEq]
        constructor <;> omega
      · rw [if_neg (fun hx => hcc hx.1), if_neg, hrr]
        rw [Prod.mk.injEq]
        intro hx
        omega
    · rw [if_neg (fun hx => hrr hx.1), if_neg]
      rw [Prod.mk.injEq]
      intro hx
      omega
  · rw [if_neg hin, if_neg]
    rw [Prod.mk.injEq]
    intro hx
    apply hin
    omega

theorem mapTalentsLoop_cell (R C : Nat) (ts : List Talent) (i : Nat) (grid : TalentGrid)
    (h : grid.shaped R C) (r c : Nat) (hr : r < R) (hc : c < C) :
    (mapTalentsLoop R C ts i grid).cell r c = lastAt r c ts i (grid.cell r c) := by
  induction ts generalizing i grid with
  | nil => rfl
  | cons t rest ih =>
    simp only [mapTalentsLoop, lastAt]
    rw [ih _ _ (mapTalentsStep_shaped R C grid i t h), mapTalentsStep_cell R C grid i t h r c hr hc]

theorem lastAt_eq_none_iff (r c : Nat) (ts : List Talent) (i0 : Nat) (init : Option Nat) :
    lastAt r c ts i0 init = none ↔
      init = none ∧ ∀ (k : Nat) (t : Talent), ts[k]? = some t → t.gridPos ≠ ((r : Int), (c : Int)) := by
  induction ts generalizing i0 init with
  | nil => simp [lastAt]
  | cons t rest ih =>
    simp only [lastAt]
    rw [ih]
    constructor
    · rintro ⟨h1, h2⟩
      by_cases hp : t.gridPos = ((r : Int), (c : Int))
      · rw [if_pos hp] at h1
        exact absurd h1 (by simp)
      · rw [if_neg hp] at h1
        refine ⟨h1, ?_⟩
        intro k t' hk
        cases k with
        | zero =>
          simp only [List.getElem?_cons_zero, Option.some.injEq] at hk
          rw [← hk]; exact hp
        | succ k =>
          simp only [List.getElem?_cons_succ] at hk
          exact h2 k t' hk
    · rintro ⟨h1, h2⟩
      have hp : t.gridPos ≠ ((r : Int), (c : Int)) := h2 0 t (by simp)
      rw [if_neg hp]
      exact ⟨h1, fun k t' hk => h2 (k + 1) t' (by simpa using hk)⟩

theorem lastAt_eq_some_iff (r c : Nat) (ts : List Talent) (i0 : Nat) (init : Option Nat)
    (i : Nat) :
    lastAt r c ts i0 init = some i ↔
      (∃ k t, ts[k]? = some t ∧ i = i0 + k ∧ t.gridPos = ((r : Int), (c : Int)) ∧
          ∀ (k' : Nat) (t' : Talent), k < k' → ts[k']? = some t' →
            t'.gridPos ≠ ((r : Int), (c : Int))) ∨
      (init = some i ∧ ∀ (k : Nat) (t : Talent), ts[k]? = some t → t.gridPos ≠ ((r : Int), (c : Int))) := by
  induction ts generalizing i0 init with
  | nil => simp [lastAt]
  | cons t rest ih =>
    simp only [lastAt]
    rw [ih]
    constructor
    · rintro (⟨k, t', hk, hi, hp, hlast⟩ | ⟨hinit, hall⟩)
      · refine Or.inl ⟨k + 1, t', by simpa using hk, by omega, hp, ?_⟩
        intro k' t'' hlt hk'
        cases k' with
        | zero => omega
        | succ k' =>
          simp only [List.getElem?_cons_succ] at hk'
          exact hlast k' t'' (by omega) hk'
      · by_cases hp : t.gridPos = ((r : Int), (c : Int))
        · rw [if_pos hp] at hinit
          have hi : i = i0 := (Option.some.inj hinit).symm
          refine Or.inl ⟨0, t, by simp, by omega, hp, ?_⟩
          intro k' t'' hlt hk'
          cases k' with
          | zero => omega
          | succ k' =>
            simp only [List.getElem?_cons_succ] at hk'
            exact hall k' t'' hk'
        · rw [if_neg hp] at hinit
          refine Or.inr ⟨hinit, ?_⟩
          intro k t' hk
          cases k with
          | zero =>
            simp only [List.getElem?_cons_zero, Option.some.injEq] at hk
            rw [← hk]; exact hp
          | succ k =>
            simp only [List.getElem?_cons_succ] at hk
            exact hall k t' hk
    · rintro (⟨k, t', hk, hi, hp, hlast⟩ | ⟨hinit, hall⟩)
      · cases k with
        | zero =>
          simp only [List.getElem?_cons_zero, Option.some.injEq] at hk
          subst hk
          refine Or.inr ⟨by rw [if_pos hp, hi]; rfl, ?_⟩
          intro k t' hk
          exact hlast (k + 1) t' (by omega) (by simpa using hk)
        | succ k =>
          simp only [List.getElem?_cons_succ] at hk
          refine Or.inl ⟨k, t', hk, by omega, hp, ?_⟩
          intro k' t'' hlt hk'
          exact hlast (k' + 1) t'' (by omega) (by simpa using hk')
      · have hp : t.gridPos ≠ ((r : Int), (c : Int)) := hall 0 t (by simp)
        rw [if_neg hp]
        exact Or.inr ⟨hinit, fun k t' hk => hall (k + 1) t' (by simpa using hk)⟩

theorem replicate_shaped (R C : Nat) :
    TalentGrid.shaped (List.replicate R (List.replicate C none)) R C := by
  constructor
  · simp
  · intro row hrow
    rw [List.eq_of_mem_replicate hrow]
    simp

theorem replicate_cell (R C r c : Nat) :
    TalentGrid.cell (List.replicate R (List.replicate C none)) r c = none := by
  unfold TalentGrid.cell
  simp only [List.getD_eq_getElem?_getD, List.getElem?_replicate]
  by_cases hr : r < R
  · simp only [if_pos hr, Option.getD_some, List.getElem?_replicate]
    split_ifs <;> rfl
  · simp [hr]

theorem shaped_cell_outside (grid : TalentGrid) (R C r c : Nat) (h : grid.shaped R C)
    (hout : R ≤ r ∨ C ≤ c) : grid.cell r c = none := by
  unfold TalentGrid.cell
  rcases Nat.lt_or_ge r R with hr | hr
  · have hc : C ≤ c := by omega
    have hlen := shaped_getD_length grid R C r h hr
    rw [List.getD_eq_getElem?_getD (grid.getD r []), List.getElem?_eq_none (by omega)]
    rfl
  · rw [List.getD_eq_getElem?_getD grid, List.getElem?_eq_none (by rw [h.1]; exact hr)]
    rfl

/-- C19: `mapTalentsToGrid(talents, rows, cols)` returns a grid of exactly `rows` rows
of `cols` cells each. The cell (r, c) holds the talent of index i exactly when that
talent's (TierID, ColumnIndex), a NULL read as 0, is (r, c) and no later talent has the
same pair, and it is nil exactly when no talent has that pair; a talent whose tier or
column lies outside [0,rows) x [0,cols) is in no cell. A cell holds one pointer, so at
most one talent. -/
theorem C19_map_talents_to_grid (talents : List Talent) (R C : Nat) :
    ∃ grid, mapTalentsToGrid talents R C = some grid ∧
      grid.length = R ∧ (∀ row ∈ grid, row.length = C) ∧
      (∀ r c, r < R → c < C →
        (∀ i, grid.cell r c = some i ↔
          ∃ t, talents[i]? = some t ∧ t.gridPos = ((r : Int), (c : Int)) ∧
            ∀ (k : Nat) (t' : Talent), i < k → talents[k]? = some t' →
              t'.gridPos ≠ ((r : Int), (c : Int))) ∧
        (grid.cell r c = none ↔
          ∀ (k : Nat) (t : Talent), talents[k]? = some t →
            t.gridPos ≠ ((r : Int), (c : Int)))) ∧
      (∀ (i : Nat) (t : Talent), talents[i]? = some t →
        ¬ (0 ≤ t.gridPos.1 ∧ t.gridPos.1 < R ∧ 0 ≤ t.gridPos.2 ∧ t.gridPos.2 < C) →
        ∀ r c, grid.cell r c ≠ some i) := by
  have hshape := mapTalentsLoop_shaped R C talents 0 _ (replicate_shaped R C)
  have hcell : ∀ r c, r < R → c < C → ∀ i,
      (mapTalentsLoop R C talents 0
          (List.replicate R (List.replicate C none))).cell r c = some i ↔
        ∃ t, talents[i]? = some t ∧ t.gridPos = ((r : Int), (c : Int)) ∧
          ∀ (k : Nat) (t' : Talent), i < k → talents[k]? = some t' →
            t'.gridPos ≠ ((r : Int), (c : Int)) := by
    intro r c hr hc i
    rw [mapTalentsLoop_cell R C talents 0 _ (replicate_shaped R C) r c hr hc,
      replicate_cell, lastAt_eq_some_iff]
    constructor
    · rintro (⟨k, t, hk, hi, hp, hlast⟩ | ⟨hinit, _⟩)
      · have hik : i = k := by omega
        subst hik
        exact ⟨t, hk, hp, hlast⟩
      · exact absurd hinit (by simp)
    · rintro ⟨t, hk, hp, hlast⟩
      exact Or.inl ⟨i, t, hk, by omega, hp, hlast⟩
  refine ⟨mapTalentsLoop R C talents 0 (List.replicate R (List.replicate C none)),
    ?_, ?_, ?_, ?_, ?_⟩
  · unfold mapTalentsToGrid
    rw [if_neg (by omega), if_neg (by omega)]
    simp only [Int.toNat_ofNat]
  · exact hshape.1
  · exact hshape.2
  · intro r c hr hc
    refine ⟨hcell r c hr hc, ?_⟩
    rw [mapTalentsLoop_cell R C talents 0 _ (replicate_shaped R C) r c hr hc,
      replicate_cell, lastAt_eq_none_iff]
    exact ⟨fun h => h.2, fun h => ⟨rfl, h⟩⟩
  · intro i t hi hout r c hcontra
    rcases Nat.lt_or_ge r R with hr | hr
    · rcases Nat.lt_or_ge c C with hc | hc
      · obtain ⟨t', hi', hp, _⟩ := (hcell r c hr hc i).mp hcontra
        rw [hi] at hi'
        have ht : t = t' := Option.some.inj hi'
        subst ht
        apply hout
        rw [hp]
        simp only []
        omega
      · rw [shaped_cell_outside _ R C r c hshape (Or.inr hc)] at hcontra
        exact absurd hcontra (by simp)
    · rw [shaped_cell_outside _ R C r c hshape (Or.inl hr)] at hcontra
      exact absurd hcontra (by simp)

/-! ## Routing of laid-out rectangles -/

theorem drawArrow_kind (id preID : Int) (preBtn btn : CanvasObject) :
    (drawArrow id preID preBtn btn).kind = selectArrow preBtn.x preBtn.y btn.x btn.y := by
  by_cases hy : preBtn.y = btn.y
  · rw [drawArrow_horizontal id preID preBtn btn hy, selectArrow_horizontal _ _ _ _ hy]
  · by_cases hx : preBtn.x = btn.x
    · rw [drawArrow_vertical id preID preBtn btn hy hx, selectArrow_vertical _ _ _ _ hy hx]
    · rw [drawArrow_step id preID preBtn btn hy hx, selectArrow_step _ _ _ _ hy hx]

/-- When every slot plus its gutter is positive, later slots start strictly later. -/
theorem offsetSum_strict (sizes : List ℚ) (pad : ℚ) (n : Nat)
    (hpos : ∀ k, k < n → 0 < sizes.getD k 0 + pad) (a b : Nat) (hab : a < b)
    (hb : b ≤ n) : offsetSum sizes pad a < offsetSum sizes pad b := by
  induction b with
  | zero => omega
  | succ b ih =>
    rw [offsetSum_succ]
    have hstep := hpos b (by omega)
    rcases Nat.lt_or_ge a b with h | h
    · have := ih h (by omega)
      linarith
    · have hab' : a = b := by omega
      subst hab'
      linarith

theorem offsetSum_ne (sizes : List ℚ) (pad : ℚ) (n : Nat)
    (hpos : ∀ k, k < n → 0 < sizes.getD k 0 + pad) (a b : Nat) (hab : a ≠ b)
    (ha : a ≤ n) (hb : b ≤ n) : offsetSum sizes pad a ≠ offsetSum sizes pad b := by
  rcases Nat.lt_or_gt_of_ne hab with h | h
  · exact ne_of_lt (offsetSum_strict sizes pad n hpos a b h hb)
  · exact ne_of_gt (offsetSum_strict sizes pad n hpos b a h ha)

/-! ## Objects appended after the cells -/

theorem bucketMax_append (n : Nat) (key : Nat → Nat) (val : CanvasObject → ℚ)
    (a b : List CanvasObject) (i : Nat) (acc : List ℚ) :
    bucketMax n key val (a ++ b) i acc
      = bucketMax n key val b (i + a.length) (bucketMax n key val a i acc) := by
  induction a generalizing i acc with
  | nil => rfl
  | cons o rest ih =>
    simp only [List.cons_append, bucketMax, List.length_cons, List.append_eq]
    rw [ih]
    have e : i + 1 + rest.length = i + (rest.length + 1) := by omega
    rw [e]

/-- Objects that pass neither guard of a measurement loop leave the slice as it is. -/
theorem bucketMax_noop (n : Nat) (key : Nat → Nat) (val : CanvasObject → ℚ)
    (objs : List CanvasObject) (i : Nat) (acc : List ℚ)
    (h : ∀ (k : Nat) (o : CanvasObject), objs[k]? = some o →
      ¬ (key (i + k) < n ∧ val o > acc.getD (key (i + k)) 0)) :
    bucketMax n key val objs i acc = acc := by
  induction objs generalizing i with
  | nil => rfl
  | cons o rest ih =>
    simp only [bucketMax]
    have h0 := h 0 o (by simp)
    rw [Nat.add_zero] at h0
    rw [if_neg h0]
    apply ih
    intro k o' hk
    have hk' := h (k + 1) o' (by simpa using hk)
    have e : i + (k + 1) = i + 1 + k := by omega
    rw [e] at hk'
    exact hk'

theorem placeLoop_append (rows cols : Nat) (co ro cw rh : List ℚ)
    (a b : List CanvasObject) (i : Nat) :
    placeLoop rows cols co ro cw rh (a ++ b) i
      = placeLoop rows cols co ro cw rh a i
          ++ placeLoop rows cols co ro cw rh b (i + a.length) := by
  induction a generalizing i with
  | nil => rfl
  | cons o rest ih =>
    simp only [List.cons_append, placeLoop, List.length_cons, List.append_eq]
    rw [ih]
    have e : i + 1 + rest.length = i + (rest.length + 1) := by omega
    rw [e]

/-- The placement loop leaves objects at flat indices beyond the grid as they are. -/
theorem placeLoop_beyond (R C : Nat) (hC : 0 < C) (co ro cw rh : List ℚ)
    (objs : List CanvasObject) (i : Nat) (hi : R * C ≤ i) :
    placeLoop R C co ro cw rh objs i = objs := by
  induction objs generalizing i with
  | nil => rfl
  | cons o rest ih =>
    have hrow : ¬ i / C < R := by
      rw [Nat.div_lt_iff_lt_mul hC]
      omega
    simp only [placeLoop, placeObject,
      if_neg (fun h : i / C < R ∧ i % C < C => hrow h.1)]
    rw [ih (i + 1) (by omega)]

/-- Objects after a full list of cells do not count for any row height. -/
theorem layoutMeasure_append_snd (R C : Nat) (hC : 0 < C) (cells extras : List CanvasObject)
    (hlen : cells.length = R * C) :
    (layoutMeasure R C (cells ++ extras)).2 = (layoutMeasure R C cells).2 := by
  rw [layoutMeasure_snd, layoutMeasure_snd, bucketMax_append]
  apply bucketMax_noop
  intro k o _ hcontra
  have h1 := hcontra.1
  simp only [] at h1
  rw [Nat.div_lt_iff_lt_mul hC] at h1
  omega

/-- Objects after a full list of cells that are no wider than the column their flat
index maps to do not change any column width. -/
theorem layoutMeasure_append_fst (R C : Nat) (cells extras : List CanvasObject)
    (hlen : cells.length = R * C)
    (hfit : ∀ (k : Nat) (e : CanvasObject), extras[k]? = some e →
      e.minW ≤ (layoutMeasure R C cells).1.getD ((R * C + k) % C) 0) :
    (layoutMeasure R C (cells ++ extras)).1 = (layoutMeasure R C cells).1 := by
  rw [layoutMeasure_fst, layoutMeasure_fst R C cells, bucketMax_append]
  rw [layoutMeasure_fst] at hfit
  apply bucketMax_noop
  intro k o hk hcontra
  have h1 := hfit k o hk
  have h2 := hcontra.2
  simp only [Nat.zero_add, hlen] at h2
  exact absurd h2 (not_lt.mpr h1)

/-- C21: for a list `cells ++ extras` with exactly R*C cells, `Layout` returns normally
and leaves every extra as it was (neither moved nor resized), and the row heights are
those of the cells alone. If moreover the minimum width of every extra is at most the
width that the column its flat index maps to (i % C) has for the cells alone, then the
column widths are those of the cells alone and every cell gets the rectangle it gets
when `Layout` runs on the cells alone: the result is that result followed by the
extras. -/
theorem C21_appended_objects_leave_grid (g : grid4x15) (cells extras : List CanvasObject)
    (cs : ℚ × ℚ) (R C : Nat) (hR : 1 ≤ R) (hC : 1 ≤ C)
    (hRows : g.Rows = R) (hCols : g.Cols = C) (hlen : cells.length = R * C) :
    ∃ out out0, Layout g (cells ++ extras) cs = some out ∧ Layout g cells cs = some out0 ∧
      out.length = R * C + extras.length ∧
      (∀ (k : Nat) (e : CanvasObject), extras[k]? = some e → out[R * C + k]? = some e) ∧
      Layout.rowHeights g (cells ++ extras) = Layout.rowHeights g cells ∧
      ((∀ (k : Nat) (e : CanvasObject), extras[k]? = some e →
          e.minW ≤ (Layout.colWidths g cells).getD ((R * C + k) % C) 0) →
        Layout.colWidths g (cells ++ extras) = Layout.colWidths g cells ∧
        out = out0 ++ extras ∧
        ∀ i, i < R * C → out[i]? = out0[i]?) := by
  have hRn : g.Rows.toNat = R := toNat_of_eq_natCast _ _ hRows
  have hCn : g.Cols.toNat = C := toNat_of_eq_natCast _ _ hCols
  have hsnd := layoutMeasure_append_snd R C hC cells extras hlen
  unfold Layout.rowHeights Layout.colWidths
  rw [hRn, hCn]
  refine ⟨_, _, Layout_eq_some g (cells ++ extras) cs (by omega) (by omega),
    Layout_eq_some g cells cs (by omega) (by omega), ?_, ?_, hsnd, ?_⟩
  · rw [layoutPasses_length, List.length_append, hlen]
  · intro k e hk
    have hklt : k < extras.length := (List.getElem?_eq_some_iff.mp hk).1
    have hi : R * C + k < (cells ++ extras).length := by
      rw [List.length_append, hlen]; omega
    rw [hRn, hCn, layoutPasses_getElem?_beyond R C _ _ (cells ++ extras) hC _ hi (by omega),
      ← List.getElem?_eq_getElem hi, List.getElem?_append_right (by omega), hlen,
      Nat.add_sub_cancel_left]
    exact hk
  · intro hfit
    have hfst := layoutMeasure_append_fst R C cells extras hlen hfit
    have hout : layoutPasses R C g.HorizontalPad g.VerticalPad (cells ++ extras)
        = layoutPasses R C g.HorizontalPad g.VerticalPad cells ++ extras := by
      unfold layoutPasses
      simp only [hfst, hsnd]
      rw [placeLoop_append, Nat.zero_add,
        placeLoop_beyond R C hC _ _ _ _ extras cells.length (by omega)]
    rw [hRn, hCn]
    refine ⟨hfst, hout, ?_⟩
    intro i hi
    rw [hout, List.getElem?_append_left (by rw [layoutPasses_length, hlen]; exact hi)]

/-- C21 at `sampleObjects` followed by one object of minimum width 1, whose flat index
4 maps to column 0, which is 10 wide. -/
theorem C21_appended_objects_leave_grid_witness :
    ∃ out out0, Layout sampleGrid (sampleObjects ++ [⟨1, 1, 40, 20, 60, 0⟩]) (0, 0) = some out ∧
      Layout sampleGrid sampleObjects (0, 0) = some out0 ∧
      out = out0 ++ [⟨1, 1, 40, 20, 60, 0⟩] := by
  obtain ⟨out, out0, h1, h2, _, _, _, h3⟩ := C21_appended_objects_leave_grid sampleGrid
    sampleObjects [⟨1, 1, 40, 20, 60, 0⟩] (0, 0) 2 2 (by decide) (by decide) rfl rfl rfl
  refine ⟨out, out0, h1, h2, (h3 ?_).2.1⟩
  intro k e hk
  cases k with
  | zero =>
    simp only [List.getElem?_cons_zero, Option.some.injEq] at hk
    subst hk
    simp [Layout.colWidths, sampleGrid, sampleObjects, layoutMeasure, layoutMeasureLoop,
      layoutMeasureStep]
    norm_num
  | succ k => simp at hk

/-! ## The size reported is never collapsed -/

/-- A total that is not negative, with its fallback of at least 50, is positive. -/
theorem fallback_pos (n : Nat) (hn : 1 ≤ n) (total pad : ℚ) (htotal : 0 ≤ total)
    (hpad : 0 ≤ pad) :
    0 < (if total = 0 then (n : ℚ) * 50 + ((n : ℚ) - 1) * pad else total) := by
  have hn1 : (1 : ℚ) ≤ (n : ℚ) := by exact_mod_cast hn
  by_cases h : total = 0
  · rw [if_pos h]
    have : 0 ≤ ((n : ℚ) - 1) * pad := mul_nonneg (by linarith) hpad
    linarith
  · rw [if_neg h]
    exact lt_of_le_of_ne htotal (fun e => h e.symm)

/-- C22: on a grid with Rows >= 1, Cols >= 1 and non-negative gutters, `MinSize`
returns normally for every object list, and both the width and the height it returns
are strictly positive. -/
theorem C22_minsize_is_positive (g : grid4x15) (objects : List CanvasObject)
    (hR : 1 ≤ g.Rows) (hC : 1 ≤ g.Cols)
    (hh : 0 ≤ g.HorizontalPad) (hv : 0 ≤ g.VerticalPad) :
    ∃ size, MinSize g objects = some size ∧ 0 < size.1 ∧ 0 < size.2 := by
  obtain ⟨R, hRows⟩ : ∃ R : Nat, g.Rows = R := ⟨g.Rows.toNat, by omega⟩
  obtain ⟨C, hCols⟩ : ∃ C : Nat, g.Cols = C := ⟨g.Cols.toNat, by omega⟩
  have hRn : g.Rows.toNat = R := toNat_of_eq_natCast _ _ hRows
  have hCn : g.Cols.toNat = C := toNat_of_eq_natCast _ _ hCols
  have hRq : (g.Rows : ℚ) = (R : ℚ) := by rw [hRows]; simp
  have hCq : (g.Cols : ℚ) = (C : ℚ) := by rw [hCols]; simp
  have hR1 : 1 ≤ R := by omega
  have hC1 : 1 ≤ C := by omega
  have hRq1 : (1 : ℚ) ≤ (R : ℚ) := by exact_mod_cast hR1
  have hCq1 : (1 : ℚ) ≤ (C : ℚ) := by exact_mod_cast hC1
  have hw : 0 ≤ (minSizeTotals g objects).1 := by
    unfold minSizeTotals MinSize.colWidths
    rw [minSizeMeasure_eq, hRn, hCn, hCq, layoutMeasure_fst]
    have h1 : 0 ≤ Finset.sum (Finset.range C) (fun k =>
        (bucketMax C (fun k => k % C) CanvasObject.minW objects 0
          (List.replicate C 0)).getD k 0) :=
      Finset.sum_nonneg (fun k _ => bucketMax_nonneg _ _ _ _ k)
    have h2 : 0 ≤ ((C : ℚ) - 1) * g.HorizontalPad := mul_nonneg (by linarith) hh
    simp only []
    linarith
  have hht : 0 ≤ (minSizeTotals g objects).2 := by
    unfold minSizeTotals MinSize.rowHeights
    rw [minSizeMeasure_eq, hRn, hCn, hRq, layoutMeasure_snd]
    have h1 : 0 ≤ Finset.sum (Finset.range R) (fun k =>
        (bucketMax R (fun k => k / C) CanvasObject.minH objects 0
          (List.replicate R 0)).getD k 0) :=
      Finset.sum_nonneg (fun k _ => bucketMax_nonneg _ _ _ _ k)
    have h2 : 0 ≤ ((R : ℚ) - 1) * g.VerticalPad := mul_nonneg (by linarith) hv
    simp only []
    linarith
  refine ⟨_, MinSize_eq_some g objects (by omega) (by omega) (by omega), ?_, ?_⟩
  · simp only [hCq]
    exact fallback_pos C hC1 _ _ hw hh
  · simp only [hRq]
    exact fallback_pos R hR1 _ _ hht hv

/-- C22 at the editor's 15 x 4 grid with gutters of 23 and no object at all, and at
`sampleGrid` with four objects of minimum size 0. -/
theorem C22_minsize_is_positive_witness :
    (∃ size, MinSize ⟨15, 4, 23, 23⟩ [] = some size ∧ 0 < size.1 ∧ 0 < size.2) ∧
    (∃ size, MinSize sampleGrid (List.replicate 4 ⟨0, 0, 0, 0, 0, 0⟩) = some size ∧
      0 < size.1 ∧ 0 < size.2) :=
  ⟨C22_minsize_is_positive ⟨15, 4, 23, 23⟩ [] (by decide) (by decide) (by norm_num)
      (by norm_num),
   C22_minsize_is_positive sampleGrid (List.replicate 4 ⟨0, 0, 0, 0, 0, 0⟩) (by decide)
      (by decide) (by norm_num [sampleGrid]) (by norm_num [sampleGrid])⟩

/-! ## float32 arithmetic

The source computes offsets and totals in `float32`: every addition and multiplication
is rounded to the nearest float32. The passes below take the rounding as a parameter
`rnd`; `rnd = f32` is the arithmetic of the source, `rnd = id` is exact arithmetic. -/

/-- Round to the nearest integer, a tie going to the even one. -/
def roundHalfEven (x : ℚ) : ℤ :=
  if x - ⌊x⌋ < 1 / 2 then ⌊x⌋
  else if 1 / 2 < x - ⌊x⌋ then ⌊x⌋ + 1
  else if ⌊x⌋ % 2 = 0 then ⌊x⌋ else ⌊x⌋ + 1

/-- Rounding to the nearest float32 (IEEE 754 binary32: 24 significant bits, round to
nearest, ties to even, gradual underflow below 2^-126). Overflow to an infinity, which
needs a value of about 2^128, is not modelled. -/
def f32 (q : ℚ) : ℚ :=
  if q = 0 then 0
  else (roundHalfEven (q / (2 : ℚ) ^ (max (Int.log 2 |q|) (-126) - 23)) : ℚ)
    * (2 : ℚ) ^ (max (Int.log 2 |q|) (-126) - 23)

/-- The offset loops of `Layout` (lines 68-75) with both additions of
`offs[c-1] + sizes[c-1] + pad` rounded. -/
def cumulativeOffsetsRounded (rnd : ℚ → ℚ) (sizes : List ℚ) (pad : ℚ) (n : Nat) : List ℚ :=
  (List.range' 1 (n - 1)).foldl
    (fun offs c => offs.set c (rnd (rnd (offs.getD (c - 1) 0 + sizes.getD (c - 1) 0) + pad)))
    (List.replicate n 0)

/-- The three passes of `Layout` with rounded offsets; measurement and placement do no
arithmetic. -/
def layoutPassesRounded (rnd : ℚ → ℚ) (rows cols : Nat) (hpad vpad : ℚ)
    (objects : List CanvasObject) : List CanvasObject :=
  let m := layoutMeasure rows cols objects
  let colOffsets := cumulativeOffsetsRounded rnd m.1 hpad cols
  let rowOffsets := cumulativeOffsetsRounded rnd m.2 vpad rows
  placeLoop rows cols colOffsets rowOffsets m.1 m.2 objects 0

/-- The method `grid4x15.Layout` (lines 50-86) with every float32 operation rounded by
`rnd`. -/
def LayoutRounded (rnd : ℚ → ℚ) (g : grid4x15) (objects : List CanvasObject)
    (_containerSize : ℚ × ℚ) : Option (List CanvasObject) :=
  if g.Cols < 0 ∨ g.Rows < 0 then none
  else if g.Cols = 0 ∧ objects ≠ [] then none
  else some (layoutPassesRounded rnd g.Rows.toNat g.Cols.toNat g.HorizontalPad
    g.VerticalPad objects)

/-- The loops `total += w` of `MinSize` (lines 28-34) with the addition rounded. -/
def sumLoopRounded (rnd : ℚ → ℚ) (xs : List ℚ) : ℚ :=
  xs.foldl (fun total w => rnd (total + w)) 0

/-- The method `grid4x15.MinSize` (lines 12-48) with every float32 operation rounded by
`rnd`: the conversions `float32(n)`, the products and the sums. -/
def MinSizeRounded (rnd : ℚ → ℚ) (g : grid4x15) (objects : List CanvasObject) :
    Option (ℚ × ℚ) :=
  if g.Cols < 0 ∨ g.Rows < 0 then none
  else if g.Cols = 0 ∧ objects ≠ [] then none
  else
    let m := minSizeMeasure g.Rows.toNat g.Cols.toNat objects
    let totalWidth := sumLoopRounded rnd m.1
    let totalHeight := sumLoopRounded rnd m.2
    let totalWidth := rnd (totalWidth + rnd (rnd ((g.Cols - 1 : Int) : ℚ) * g.HorizontalPad))
    let totalHeight := rnd (totalHeight + rnd (rnd ((g.Rows - 1 : Int) : ℚ) * g.VerticalPad))
    let totalWidth :=
      if totalWidth = 0 then
        rnd (rnd (rnd (g.Cols : ℚ) * 50) + rnd (rnd ((g.Cols - 1 : Int) : ℚ) * g.HorizontalPad))
      else totalWidth
    let totalHeight :=
      if totalHeight = 0 then
        rnd (rnd (rnd (g.Rows : ℚ) * 50) + rnd (rnd ((g.Rows - 1 : Int) : ℚ) * g.VerticalPad))
      else totalHeight
    some (totalWidth, totalHeight)

/-- The offset of slot `j` as the rounded loop computes it: 0 for the first slot, then
`(offset + size) + pad` with both additions rounded. -/
def offsetRounded (rnd : ℚ → ℚ) (sizes : List ℚ) (pad : ℚ) : Nat → ℚ
  | 0 => 0
  | c + 1 => rnd (rnd (offsetRounded rnd sizes pad c + sizes.getD c 0) + pad)

/-- No addition of the offset loop rounds: the partial sums and the partial sums plus
the next size are left as they are by `rnd`. -/
def OffsetsExact (rnd : ℚ → ℚ) (sizes : List ℚ) (pad : ℚ) (n : Nat) : Prop :=
  ∀ c, c + 1 < n →
    rnd (offsetSum sizes pad c + sizes.getD c 0) = offsetSum sizes pad c + sizes.getD c 0 ∧
    rnd (offsetSum sizes pad c + sizes.getD c 0 + pad)
      = offsetSum sizes pad c + sizes.getD c 0 + pad

theorem roundHalfEven_of_near (x : ℚ) (m : ℤ) (h : |x - m| < 1 / 2) :
    roundHalfEven x = m := by
  have h1 := abs_lt.mp h
  unfold roundHalfEven
  rcases le_or_lt (m : ℚ) x with hle | hlt
  · have hf : ⌊x⌋ = m := by
      rw [Int.floor_eq_iff]
      constructor
      · exact hle
      · linarith [h1.2]
    rw [hf, if_pos (by linarith [h1.2])]
  · have hf : ⌊x⌋ = m - 1 := by
      rw [Int.floor_eq_iff]
      push_cast
      constructor
      · linarith [h1.1]
      · linarith
    rw [hf]
    push_cast
    rw [if_neg (by linarith [h1.1]), if_pos (by linarith [h1.1])]
    ring

theorem log_two_eq (q : ℚ) (e : ℤ) (hlo : (2 : ℚ) ^ e ≤ q) (hhi : q < (2 : ℚ) ^ (e + 1)) :
    Int.log 2 q = e := by
  have hpos : 0 < q := lt_of_lt_of_le (zpow_pos (by norm_num) e) hlo
  apply le_antisymm
  · have := (Int.lt_zpow_iff_log_lt (b := 2) (by norm_num) hpos (x := e + 1)).mp
      (by exact_mod_cast hhi)
    omega
  · exact (Int.zpow_le_iff_le_log (b := 2) (by norm_num) hpos).mp (by exact_mod_cast hlo)

/-- One rounding of a positive number in the normal range, checked from its binade
`2^e <= q < 2^(e+1)` and the integer `m` nearest to `q / 2^(e-23)`. -/
theorem f32_eq (q : ℚ) (e m : ℤ) (hlo : (2 : ℚ) ^ e ≤ q) (hhi : q < (2 : ℚ) ^ (e + 1))
    (he : -126 ≤ e) (hnear : (m : ℚ) - 1 / 2 < q / (2 : ℚ) ^ (e - 23) ∧
      q / (2 : ℚ) ^ (e - 23) < (m : ℚ) + 1 / 2) :
    f32 q = m * (2 : ℚ) ^ (e - 23) := by
  have hpos : 0 < q := lt_of_lt_of_le (zpow_pos (by norm_num) e) hlo
  have hq : q ≠ 0 := ne_of_gt hpos
  have habs : |q| = q := abs_of_pos hpos
  have hn : |q / (2 : ℚ) ^ (e - 23) - m| < 1 / 2 := by
    rw [abs_lt]
    constructor <;> linarith [hnear.1, hnear.2]
  unfold f32
  rw [if_neg hq, habs, log_two_eq q e hlo hhi, max_eq_left he, roundHalfEven_of_near _ m hn]

theorem f32_zero : f32 0 = 0 := by
  unfold f32
  rw [if_pos rfl]

theorem offsets_rounded_after_rounds (rnd : ℚ → ℚ) (sizes : List ℚ) (pad : ℚ) (n m : Nat) :
    ((List.range' 1 m).foldl
        (fun offs c =>
          offs.set c (rnd (rnd (offs.getD (c - 1) 0 + sizes.getD (c - 1) 0) + pad)))
        (List.replicate n 0)).length = n ∧
    ∀ j, j < n → j ≤ m →
      ((List.range' 1 m).foldl
        (fun offs c =>
          offs.set c (rnd (rnd (offs.getD (c - 1) 0 + sizes.getD (c - 1) 0) + pad)))
        (List.replicate n 0)).getD j 0 = offsetRounded rnd sizes pad j := by
  induction m with
  | zero =>
    refine ⟨by simp, ?_⟩
    intro j _ hj
    have hj0 : j = 0 := by omega
    subst hj0
    simp only [List.range'_zero, List.foldl_nil]
    rw [getD_replicate_zero]
    rfl
  | succ m ih =>
    obtain ⟨hlen, hval⟩ := ih
    rw [List.range'_1_concat, List.foldl_append]
    simp only [List.foldl_cons, List.foldl_nil]
    refine ⟨by rw [List.length_set]; exact hlen, ?_⟩
    intro j hjn hjm
    rw [getD_set_zero]
    have e1 : 1 + m - 1 = m := by omega
    rw [e1]
    split_ifs with h
    · have hj : j = m + 1 := by omega
      subst hj
      rw [hval m (by omega) (le_refl _)]
      rfl
    · have hj : j ≤ m := by
        by_contra hc
        apply h
        rw [hlen]
        exact ⟨by omega, by omega⟩
      exact hval j hjn hj

theorem cumulativeOffsetsRounded_getD (rnd : ℚ → ℚ) (sizes : List ℚ) (pad : ℚ) (n j : Nat)
    (hj : j < n) :
    (cumulativeOffsetsRounded rnd sizes pad n).getD j 0 = offsetRounded rnd sizes pad j :=
  (offsets_rounded_after_rounds rnd sizes pad n (n - 1)).2 j hj (by omega)

theorem layoutPassesRounded_length (rnd : ℚ → ℚ) (R C : Nat) (hpad vpad : ℚ)
    (objects : List CanvasObject) :
    (layoutPassesRounded rnd R C hpad vpad objects).length = objects.length := by
  unfold layoutPassesRounded
  simp only [placeLoop_length]

/-- What the rounded passes leave at flat index `i` of a full `R * C` list. -/
theorem layoutPassesRounded_getElem? (rnd : ℚ → ℚ) (R C : Nat) (hpad vpad : ℚ)
    (objects : List CanvasObject) (hlen : objects.length = R * C) (i : Nat)
    (hi : i < objects.length) :
    (layoutPassesRounded rnd R C hpad vpad objects)[i]? = some
      ((objects[i].Move
          (offsetRounded rnd (layoutMeasure R C objects).1 hpad (i % C))
          (offsetRounded rnd (layoutMeasure R C objects).2 vpad (i / C))).Resize
        ((layoutMeasure R C objects).1.getD (i % C) 0)
        ((layoutMeasure R C objects).2.getD (i / C) 0)) := by
  obtain ⟨hrow, hcol⟩ := flat_index_bounds R C i (hlen ▸ hi)
  unfold layoutPassesRounded
  simp only []
  rw [placeLoop_getElem?, List.getElem?_eq_getElem hi, Option.map_some', Nat.zero_add]
  unfold placeObject
  simp only [if_pos (And.intro hrow hcol)]
  rw [cumulativeOffsetsRounded_getD _ _ _ _ _ hcol, cumulativeOffsetsRounded_getD _ _ _ _ _ hrow]

/-- What the rounded passes leave at a flat index inside the grid, whatever the length
of the list. -/
theorem layoutPassesRounded_getElem?_inside (rnd : ℚ → ℚ) (R C : Nat) (hpad vpad : ℚ)
    (objects : List CanvasObject) (i : Nat) (hi : i < objects.length)
    (hin : i < R * C) :
    (layoutPassesRounded rnd R C hpad vpad objects)[i]? = some
      ((objects[i].Move
          (offsetRounded rnd (layoutMeasure R C objects).1 hpad (i % C))
          (offsetRounded rnd (layoutMeasure R C objects).2 vpad (i / C))).Resize
        ((layoutMeasure R C objects).1.getD (i % C) 0)
        ((layoutMeasure R C objects).2.getD (i / C) 0)) := by
  obtain ⟨hrow, hcol⟩ := flat_index_bounds R C i hin
  unfold layoutPassesRounded
  simp only []
  rw [placeLoop_getElem?, List.getElem?_eq_getElem hi, Option.map_some', Nat.zero_add]
  unfold placeObject
  simp only [if_pos (And.intro hrow hcol)]
  rw [cumulativeOffsetsRounded_getD _ _ _ _ _ hcol, cumulativeOffsetsRounded_getD _ _ _ _ _ hrow]

theorem LayoutRounded_eq_some (rnd : ℚ → ℚ) (g : grid4x15) (objects : List CanvasObject)
    (cs : ℚ × ℚ) (hR : 1 ≤ g.Rows) (hC : 1 ≤ g.Cols) :
    LayoutRounded rnd g objects cs
      = some (layoutPassesRounded rnd g.Rows.toNat g.Cols.toNat g.HorizontalPad
          g.VerticalPad objects) := by
  unfold LayoutRounded
  rw [if_neg (by omega), if_neg (by omega)]

/-- With exact arithmetic the rounded layout is the layout of the exact model. -/
theorem LayoutRounded_id (g : grid4x15) (objects : List CanvasObject) (cs : ℚ × ℚ) :
    LayoutRounded id g objects cs = Layout g objects cs := rfl

/-- When no addition of the offset loop rounds, the offsets are the exact sums. -/
theorem offsetRounded_of_exact (rnd : ℚ → ℚ) (sizes : List ℚ) (pad : ℚ) (n : Nat)
    (h : OffsetsExact rnd sizes pad n) (j : Nat) (hj : j < n) :
    offsetRounded rnd sizes pad j = offsetSum sizes pad j := by
  induction j with
  | zero => simp [offsetRounded, offsetSum]
  | succ j ih =>
    obtain ⟨h1, h2⟩ := h j hj
    rw [offsetSum_succ]
    show rnd (rnd (offsetRounded rnd sizes pad j + sizes.getD j 0) + pad) = _
    rw [ih (by omega), h1, h2]
    ring

/-! ## Claims about the layout in float32 arithmetic -/

/-- A 1 x 3 grid with a gutter of 2.4 (as float32). -/
def roundingGrid : grid4x15 := ⟨1, 3, 5033165 / 2097152, 0⟩

/-- Three objects of minimum widths 33.2, 97.1 (as float32) and 1. -/
def roundingObjects : List CanvasObject :=
  [⟨8703181 / 262144, 1, 0, 0, 0, 0⟩, ⟨12727091 / 131072, 1, 0, 0, 0, 0⟩,
    ⟨1, 1, 0, 0, 0, 0⟩]

/-- C1, as stated, fails in float32: on a 1 x 3 grid with gutter 2.4 and column widths
33.2 and 97.1 the third object is placed at x = 8853913/65536 (135.09999...), the
running sum ((33.2 + 2.4) + 97.1) + 2.4 rounded after each addition, while the sum of
(width + gutter) over the two columns before it is 141662617/1048576 (135.0999994...)
and its float32 evaluation term by term is 4426957/32768 (135.10000...). -/
theorem C1_closed_form_counterexample :
    ∃ out, LayoutRounded f32 roundingGrid roundingObjects (0, 0) = some out ∧
      (out[2]?).map CanvasObject.x = some (8853913 / 65536) ∧
      Finset.sum (Finset.range (2 % 3))
        (fun k => (Layout.colWidths roundingGrid roundingObjects).getD k 0
          + roundingGrid.HorizontalPad) = 141662617 / 1048576 ∧
      f32 (f32 (8703181 / 262144 + 5033165 / 2097152)
        + f32 (12727091 / 131072 + 5033165 / 2097152)) = 4426957 / 32768 ∧
      (8853913 / 65536 : ℚ) ≠ 141662617 / 1048576 ∧
      (8853913 / 65536 : ℚ) ≠ 4426957 / 32768 := by
  have hw0 : (layoutMeasure 1 3 roundingObjects).1.getD 0 0 = 8703181 / 262144 := by
    norm_num [roundingObjects, layoutMeasure, layoutMeasureLoop, layoutMeasureStep]
  have hw1 : (layoutMeasure 1 3 roundingObjects).1.getD 1 0 = 12727091 / 131072 := by
    norm_num [roundingObjects, layoutMeasure, layoutMeasureLoop, layoutMeasureStep]
  have s1 : f32 (0 + 8703181 / 262144) = 8703181 / 262144 := by
    rw [f32_eq _ 5 8703181 (by norm_num) (by norm_num) (by norm_num) (by norm_num)]
    norm_num
  have s2 : f32 (8703181 / 262144 + 5033165 / 2097152) = 9332327 / 262144 := by
    rw [f32_eq _ 5 9332327 (by norm_num) (by norm_num) (by norm_num) (by norm_num)]
    norm_num
  have s3 : f32 (9332327 / 262144 + 12727091 / 131072) = 8696627 / 65536 := by
    rw [f32_eq _ 7 8696627 (by norm_num) (by norm_num) (by norm_num) (by norm_num)]
    norm_num
  have s4 : f32 (8696627 / 65536 + 5033165 / 2097152) = 8853913 / 65536 := by
    rw [f32_eq _ 7 8853913 (by norm_num) (by norm_num) (by norm_num) (by norm_num)]
    norm_num
  have t1 : f32 (12727091 / 131072 + 5033165 / 2097152) = 199 / 2 := by
    rw [f32_eq _ 6 13041664 (by norm_num) (by norm_num) (by norm_num) (by norm_num)]
    norm_num
  have t2 : f32 (9332327 / 262144 + 199 / 2) = 4426957 / 32768 := by
    rw [f32_eq _ 7 8853914 (by norm_num) (by norm_num) (by norm_num) (by norm_num)]
    norm_num
  have hx : offsetRounded f32 (layoutMeasure 1 3 roundingObjects).1 (5033165 / 2097152) 2
      = 8853913 / 65536 := by
    show f32 (f32 (f32 (f32 (0 + (layoutMeasure 1 3 roundingObjects).1.getD 0 0)
      + 5033165 / 2097152) + (layoutMeasure 1 3 roundingObjects).1.getD 1 0)
      + 5033165 / 2097152) = _
    rw [hw0, hw1, s1, s2, s3, s4]
  refine ⟨_, LayoutRounded_eq_some f32 roundingGrid roundingObjects (0, 0) (by decide)
    (by decide), ?_, ?_, ?_, by norm_num, by norm_num⟩
  · show ((layoutPassesRounded f32 1 3 (5033165 / 2097152) 0 roundingObjects)[2]?).map
      CanvasObject.x = _
    rw [layoutPassesRounded_getElem? f32 1 3 _ _ roundingObjects rfl 2 (by decide)]
    show some (offsetRounded f32 (layoutMeasure 1 3 roundingObjects).1
      (5033165 / 2097152) 2) = _
    rw [hx]
  · show Finset.sum (Finset.range 2)
      (fun k => (layoutMeasure 1 3 roundingObjects).1.getD k 0 + 5033165 / 2097152) = _
    rw [Finset.sum_range_succ, Finset.sum_range_one, hw0, hw1]
    norm_num
  · rw [s2, t1, t2]

/-- In `sampleGrid` with `sampleObjects` no addition of the column offsets rounds in
float32: 0 + 10 = 10 and 10 + 5 = 15. -/
theorem sample_cols_exact :
    OffsetsExact f32 (Layout.colWidths sampleGrid sampleObjects)
      sampleGrid.HorizontalPad 2 := by
  intro c hc
  have hc0 : c = 0 := by omega
  subst hc0
  have hw : (Layout.colWidths sampleGrid sampleObjects).getD 0 0 = 10 := by
    show (layoutMeasure 2 2 sampleObjects).1.getD 0 0 = 10
    norm_num [sampleObjects, layoutMeasure, layoutMeasureLoop, layoutMeasureStep]
  have hp : sampleGrid.HorizontalPad = 5 := rfl
  have h0 : offsetSum (Layout.colWidths sampleGrid sampleObjects)
      sampleGrid.HorizontalPad 0 = 0 := by simp [offsetSum]
  rw [h0, hw, hp]
  constructor
  · rw [f32_eq _ 3 (10 * 2 ^ 20) (by norm_num) (by norm_num) (by norm_num) (by norm_num)]
    norm_num
  · rw [f32_eq _ 3 (15 * 2 ^ 20) (by norm_num) (by norm_num) (by norm_num) (by norm_num)]
    norm_num

/-- In `sampleGrid` with `sampleObjects` no addition of the row offsets rounds in
float32: 0 + 20 = 20 and 20 + 3 = 23. -/
theorem sample_rows_exact :
    OffsetsExact f32 (Layout.rowHeights sampleGrid sampleObjects)
      sampleGrid.VerticalPad 2 := by
  intro c hc
  have hc0 : c = 0 := by omega
  subst hc0
  have hw : (Layout.rowHeights sampleGrid sampleObjects).getD 0 0 = 20 := by
    show (layoutMeasure 2 2 sampleObjects).2.getD 0 0 = 20
    norm_num [sampleObjects, layoutMeasure, layoutMeasureLoop, layoutMeasureStep]
  have hp : sampleGrid.VerticalPad = 3 := rfl
  have h0 : offsetSum (Layout.rowHeights sampleGrid sampleObjects)
      sampleGrid.VerticalPad 0 = 0 := by simp [offsetSum]
  rw [h0, hw, hp]
  constructor
  · rw [f32_eq _ 4 (20 * 2 ^ 19) (by norm_num) (by norm_num) (by norm_num) (by norm_num)]
    norm_num
  · rw [f32_eq _ 4 (23 * 2 ^ 19) (by norm_num) (by norm_num) (by norm_num) (by norm_num)]
    norm_num

/-- C1 (amended): on a grid of R >= 1 rows and C >= 1 columns and a list of exactly R*C
objects, `Layout`, with every float32 addition rounded by `rnd`, returns normally, keeps
the number of objects, and moves and resizes the object at every flat index i to
position (colOffset[i % C], rowOffset[i / C]) and size (colWidths[i % C],
rowHeights[i / C]), where colOffset[0] = 0 and colOffset[c+1] = (colOffset[c] +
colWidths[c]) + HorizontalPad with both additions rounded, and rowOffset alike. When no
addition of the column (row) offsets rounds, colOffset[c] is the sum over k < c of
colWidths[k] + HorizontalPad (rowOffset[r] the sum over k < r of rowHeights[k] +
VerticalPad). -/
theorem C1_layout_places_by_running_sum (rnd : ℚ → ℚ) (g : grid4x15)
    (objects : List CanvasObject) (cs : ℚ × ℚ) (R C : Nat) (hR : 1 ≤ R) (hC : 1 ≤ C)
    (hRows : g.Rows = R) (hCols : g.Cols = C) (hlen : objects.length = R * C) :
    ∃ (out : List CanvasObject) (colOffset rowOffset : Nat → ℚ),
      LayoutRounded rnd g objects cs = some out ∧ out.length = R * C ∧
      colOffset 0 = 0 ∧
      (∀ c, colOffset (c + 1)
        = rnd (rnd (colOffset c + (Layout.colWidths g objects).getD c 0)
            + g.HorizontalPad)) ∧
      rowOffset 0 = 0 ∧
      (∀ r, rowOffset (r + 1)
        = rnd (rnd (rowOffset r + (Layout.rowHeights g objects).getD r 0)
            + g.VerticalPad)) ∧
      (∀ i (hi : i < objects.length),
        out[i]? = some
          ((objects[i].Move (colOffset (i % C)) (rowOffset (i / C))).Resize
            ((Layout.colWidths g objects).getD (i % C) 0)
            ((Layout.rowHeights g objects).getD (i / C) 0))) ∧
      (OffsetsExact rnd (Layout.colWidths g objects) g.HorizontalPad C →
        ∀ c, c < C → colOffset c = Finset.sum (Finset.range c)
          (fun k => (Layout.colWidths g objects).getD k 0 + g.HorizontalPad)) ∧
      (OffsetsExact rnd (Layout.rowHeights g objects) g.VerticalPad R →
        ∀ r, r < R → rowOffset r = Finset.sum (Finset.range r)
          (fun k => (Layout.rowHeights g objects).getD k 0 + g.VerticalPad)) := by
  have hRn : g.Rows.toNat = R := toNat_of_eq_natCast _ _ hRows
  have hCn : g.Cols.toNat = C := toNat_of_eq_natCast _ _ hCols
  refine ⟨_, offsetRounded rnd (Layout.colWidths g objects) g.HorizontalPad,
    offsetRounded rnd (Layout.rowHeights g objects) g.VerticalPad,
    LayoutRounded_eq_some rnd g objects cs (by omega) (by omega), ?_, rfl, fun _ => rfl,
    rfl, fun _ => rfl, ?_, ?_, ?_⟩
  · rw [layoutPassesRounded_length, hlen]
  · intro i hi
    rw [hRn, hCn, layoutPassesRounded_getElem? rnd R C _ _ objects hlen i hi]
    unfold Layout.colWidths Layout.rowHeights
    rw [hRn, hCn]
  · intro hex c hc
    exact offsetRounded_of_exact rnd _ _ C hex c hc
  · intro hex r hr
    exact offsetRounded_of_exact rnd _ _ R hex r hr

/-- C1 (amended) in float32 at `sampleGrid` and `sampleObjects`, where no addition
rounds: the offsets are the exact sums. -/
theorem C1_layout_places_by_running_sum_witness :
    ∃ (out : List CanvasObject) (colOffset rowOffset : Nat → ℚ),
      LayoutRounded f32 sampleGrid sampleObjects (0, 0) = some out ∧ out.length = 2 * 2 ∧
      (∀ i (hi : i < sampleObjects.length),
        out[i]? = some
          ((sampleObjects[i].Move (colOffset (i % 2)) (rowOffset (i / 2))).Resize
            ((Layout.colWidths sampleGrid sampleObjects).getD (i % 2) 0)
            ((Layout.rowHeights sampleGrid sampleObjects).getD (i / 2) 0))) ∧
      (∀ c, c < 2 → colOffset c = Finset.sum (Finset.range c)
        (fun k => (Layout.colWidths sampleGrid sampleObjects).getD k 0
          + sampleGrid.HorizontalPad)) ∧
      (∀ r, r < 2 → rowOffset r = Finset.sum (Finset.range r)
        (fun k => (Layout.rowHeights sampleGrid sampleObjects).getD k 0
          + sampleGrid.VerticalPad)) := by
  obtain ⟨out, co, ro, h1, h2, _, _, _, _, h3, h4, h5⟩ :=
    C1_layout_places_by_running_sum f32 sampleGrid sampleObjects (0, 0) 2 2 (by decide)
      (by decide) rfl rfl rfl
  exact ⟨out, co, ro, h1, h2, h3, h4 sample_cols_exact, h5 sample_rows_exact⟩

/-- On a full list, when no addition of the column and row offsets rounds, the rounded
passes give the list of the exact passes. -/
theorem layoutPassesRounded_of_exact (rnd : ℚ → ℚ) (R C : Nat) (hpad vpad : ℚ)
    (objects : List CanvasObject) (hlen : objects.length = R * C)
    (hc : OffsetsExact rnd (layoutMeasure R C objects).1 hpad C)
    (hr : OffsetsExact rnd (layoutMeasure R C objects).2 vpad R) :
    layoutPassesRounded rnd R C hpad vpad objects = layoutPasses R C hpad vpad objects := by
  apply List.ext_getElem?
  intro i
  rcases Nat.lt_or_ge i objects.length with hi | hi
  · obtain ⟨hrow, hcol⟩ := flat_index_bounds R C i (hlen ▸ hi)
    rw [layoutPassesRounded_getElem? rnd R C _ _ objects hlen i hi,
      layoutPasses_getElem? R C _ _ objects hlen i hi,
      offsetRounded_of_exact rnd _ _ C hc _ hcol, offsetRounded_of_exact rnd _ _ R hr _ hrow]
  · rw [List.getElem?_eq_none (by rw [layoutPassesRounded_length]; exact hi),
      List.getElem?_eq_none (by rw [layoutPasses_length]; exact hi)]

/-- With exact sums and non-negative gutters the rectangles of a full list are
separated: a column ends where or before every later column starts, a row likewise,
and no point lies inside two rectangles. -/
theorem layoutPasses_no_overlap (R C : Nat) (hpad vpad : ℚ) (objects : List CanvasObject)
    (hlen : objects.length = R * C) (hh : 0 ≤ hpad) (hv : 0 ≤ vpad)
    (i j : Nat) (a b : CanvasObject)
    (hi : (layoutPasses R C hpad vpad objects)[i]? = some a)
    (hj : (layoutPasses R C hpad vpad objects)[j]? = some b) :
    (i % C < j % C → a.x + a.w ≤ b.x) ∧
    (i / C < j / C → a.y + a.h ≤ b.y) ∧
    (i ≠ j → ∀ px py : ℚ,
      ¬ ((a.x < px ∧ px < a.x + a.w ∧ a.y < py ∧ py < a.y + a.h) ∧
         (b.x < px ∧ px < b.x + b.w ∧ b.y < py ∧ py < b.y + b.h))) := by
  have hcw : ∀ k, 0 ≤ (layoutMeasure R C objects).1.getD k 0 := by
    intro k; rw [layoutMeasure_fst]; exact bucketMax_nonneg _ _ _ _ _
  have hrh : ∀ k, 0 ≤ (layoutMeasure R C objects).2.getD k 0 := by
    intro k; rw [layoutMeasure_snd]; exact bucketMax_nonneg _ _ _ _ _
  have key : ∀ i j a b,
      (layoutPasses R C hpad vpad objects)[i]? = some a →
      (layoutPasses R C hpad vpad objects)[j]? = some b →
      (i % C < j % C → a.x + a.w ≤ b.x) ∧ (i / C < j / C → a.y + a.h ≤ b.y) := by
    intro i j a b hi hj
    have hi1 : i < objects.length := by
      have := (List.getElem?_eq_some_iff.mp hi).1
      rwa [layoutPasses_length] at this
    have hj1 : j < objects.length := by
      have := (List.getElem?_eq_some_iff.mp hj).1
      rwa [layoutPasses_length] at this
    rw [layoutPasses_getElem? R C _ _ objects hlen i hi1] at hi
    rw [layoutPasses_getElem? R C _ _ objects hlen j hj1] at hj
    have ha := Option.some.inj hi
    have hb := Option.some.inj hj
    subst ha
    subst hb
    constructor
    · intro hlt
      exact offsetSum_separated _ _ hcw hh _ _ hlt
    · intro hlt
      exact offsetSum_separated _ _ hrh hv _ _ hlt
  refine ⟨(key i j a b hi hj).1, (key i j a b hi hj).2, ?_⟩
  intro hne px py hboth
  obtain ⟨⟨h1, h2, h3, h4⟩, h5, h6, h7, h8⟩ := hboth
  have hsplit : i % C ≠ j % C ∨ i / C ≠ j / C := by
    by_contra hc
    push_neg at hc
    apply hne
    rw [← Nat.div_add_mod i C, ← Nat.div_add_mod j C, hc.1, hc.2]
  rcases hsplit with h | h
  · rcases Nat.lt_or_gt_of_ne h with hl | hg
    · have := (key i j a b hi hj).1 hl
      linarith
    · have := (key j i b a hj hi).1 hg
      linarith
  · rcases Nat.lt_or_gt_of_ne h with hl | hg
    · have := (key i j a b hi hj).2 hl
      linarith
    · have := (key j i b a hj hi).2 hg
      linarith

/-- A 1 x 3 grid without gutters. -/
def overlapGrid : grid4x15 := ⟨1, 3, 0, 0⟩

/-- Three objects of minimum widths 1, 0.15 (as float32) and 1, and of height 1. -/
def overlapObjects : List CanvasObject :=
  [⟨1, 1, 0, 0, 0, 0⟩, ⟨5033165 / 33554432, 1, 0, 0, 0, 0⟩, ⟨1, 1, 0, 0, 0, 0⟩]

/-- C10, as stated, fails in float32: on a 1 x 3 grid without gutters and with column
widths 1, 0.15, 1 the second rectangle spans x from 1 to 1 + 0.15 = 38587597/33554432,
while the third starts at 9646899/8388608 = 38587596/33554432, because the sum 1 + 0.15
is rounded down; the point (77175193/67108864, 1/2) lies inside both rectangles. -/
theorem C10_rounding_overlap_counterexample :
    ∃ out a b, LayoutRounded f32 overlapGrid overlapObjects (0, 0) = some out ∧
      out[1]? = some a ∧ out[2]? = some b ∧ 1 % 3 < 2 % 3 ∧
      ¬ (a.x + a.w ≤ b.x) ∧
      ((a.x < 77175193 / 67108864 ∧ 77175193 / 67108864 < a.x + a.w ∧
          a.y < 1 / 2 ∧ 1 / 2 < a.y + a.h) ∧
        (b.x < 77175193 / 67108864 ∧ 77175193 / 67108864 < b.x + b.w ∧
          b.y < 1 / 2 ∧ 1 / 2 < b.y + b.h)) := by
  have hw0 : (layoutMeasure 1 3 overlapObjects).1.getD 0 0 = 1 := by
    norm_num [overlapObjects, layoutMeasure, layoutMeasureLoop, layoutMeasureStep]
  have hw1 : (layoutMeasure 1 3 overlapObjects).1.getD 1 0 = 5033165 / 33554432 := by
    norm_num [overlapObjects, layoutMeasure, layoutMeasureLoop, layoutMeasureStep]
  have hw2 : (layoutMeasure 1 3 overlapObjects).1.getD 2 0 = 1 := by
    norm_num [overlapObjects, layoutMeasure, layoutMeasureLoop, layoutMeasureStep]
  have hh0 : (layoutMeasure 1 3 overlapObjects).2.getD 0 0 = 1 := by
    norm_num [overlapObjects, layoutMeasure, layoutMeasureLoop, layoutMeasureStep]
  have s1 : f32 (0 + 1) = 1 := by
    rw [f32_eq _ 0 8388608 (by norm_num) (by norm_num) (by norm_num) (by norm_num)]
    norm_num
  have s2 : f32 (1 + 0) = 1 := by
    rw [f32_eq _ 0 8388608 (by norm_num) (by norm_num) (by norm_num) (by norm_num)]
    norm_num
  have s3 : f32 (1 + 5033165 / 33554432) = 9646899 / 8388608 := by
    rw [f32_eq _ 0 9646899 (by norm_num) (by norm_num) (by norm_num) (by norm_num)]
    norm_num
  have s4 : f32 (9646899 / 8388608 + 0) = 9646899 / 8388608 := by
    rw [f32_eq _ 0 9646899 (by norm_num) (by norm_num) (by norm_num) (by norm_num)]
    norm_num
  have hx1 : offsetRounded f32 (layoutMeasure 1 3 overlapObjects).1 0 1 = 1 := by
    show f32 (f32 (0 + (layoutMeasure 1 3 overlapObjects).1.getD 0 0) + 0) = _
    rw [hw0, s1, s2]
  have hx2 : offsetRounded f32 (layoutMeasure 1 3 overlapObjects).1 0 2
      = 9646899 / 8388608 := by
    show f32 (f32 (offsetRounded f32 (layoutMeasure 1 3 overlapObjects).1 0 1
      + (layoutMeasure 1 3 overlapObjects).1.getD 1 0) + 0) = _
    rw [hx1, hw1, s3, s4]
  have hy : offsetRounded f32 (layoutMeasure 1 3 overlapObjects).2 0 0 = 0 := rfl
  refine ⟨_, _, _, LayoutRounded_eq_some f32 overlapGrid overlapObjects (0, 0) (by decide)
    (by decide),
    layoutPassesRounded_getElem? f32 1 3 _ _ overlapObjects rfl 1 (by decide),
    layoutPassesRounded_getElem? f32 1 3 _ _ overlapObjects rfl 2 (by decide),
    by decide, ?_, ?_⟩
  · simp only [CanvasObject.Move, CanvasObject.Resize, overlapGrid]
    rw [hx1, hx2, hw1]
    norm_num
  · simp only [CanvasObject.Move, CanvasObject.Resize, overlapGrid]
    rw [hx1, hx2, hw1, hw2, hy, hh0]
    norm_num

/-- C10 (amended): on a grid of R, C >= 1 with non-negative gutters and a list of
exactly R*C objects on which no addition of the column and row offsets rounds, the
rectangles `Layout` assigns (every float32 addition rounded by `rnd`) at two flat
indices i and j satisfy: if the column of i is left of the column of j then
x_i + width_i <= x_j, if the row of i is above the row of j then
y_i + height_i <= y_j, and for i different from j no point lies in the interior of both
rectangles. (Non-negative minimum sizes are not needed.) -/
theorem C10_layout_rectangles_separate_when_exact (rnd : ℚ → ℚ) (g : grid4x15)
    (objects : List CanvasObject) (cs : ℚ × ℚ) (R C : Nat) (hR : 1 ≤ R) (hC : 1 ≤ C)
    (hRows : g.Rows = R) (hCols : g.Cols = C) (hlen : objects.length = R * C)
    (hh : 0 ≤ g.HorizontalPad) (hv : 0 ≤ g.VerticalPad)
    (hcols : OffsetsExact rnd (Layout.colWidths g objects) g.HorizontalPad C)
    (hrows : OffsetsExact rnd (Layout.rowHeights g objects) g.VerticalPad R) :
    ∃ out, LayoutRounded rnd g objects cs = some out ∧
      ∀ i j a b, out[i]? = some a → out[j]? = some b →
        (i % C < j % C → a.x + a.w ≤ b.x) ∧
        (i / C < j / C → a.y + a.h ≤ b.y) ∧
        (i ≠ j → ∀ px py : ℚ,
          ¬ ((a.x < px ∧ px < a.x + a.w ∧ a.y < py ∧ py < a.y + a.h) ∧
             (b.x < px ∧ px < b.x + b.w ∧ b.y < py ∧ py < b.y + b.h))) := by
  have hRn : g.Rows.toNat = R := toNat_of_eq_natCast _ _ hRows
  have hCn : g.Cols.toNat = C := toNat_of_eq_natCast _ _ hCols
  unfold Layout.colWidths at hcols
  unfold Layout.rowHeights at hrows
  rw [hRn, hCn] at hcols hrows
  refine ⟨_, LayoutRounded_eq_some rnd g objects cs (by omega) (by omega), ?_⟩
  rw [hRn, hCn, layoutPassesRounded_of_exact rnd R C _ _ objects hlen hcols hrows]
  intro i j a b hi hj
  exact layoutPasses_no_overlap R C _ _ objects hlen hh hv i j a b hi hj

/-- C10 (amended) in float32 at `sampleGrid` and `sampleObjects`, where no addition
rounds. -/
theorem C10_layout_rectangles_separate_when_exact_witness :
    (0 ≤ sampleGrid.HorizontalPad ∧ 0 ≤ sampleGrid.VerticalPad) ∧
    ∃ out, LayoutRounded f32 sampleGrid sampleObjects (0, 0) = some out ∧
      ∀ i j a b, out[i]? = some a → out[j]? = some b →
        (i % 2 < j % 2 → a.x + a.w ≤ b.x) ∧
        (i / 2 < j / 2 → a.y + a.h ≤ b.y) ∧
        (i ≠ j → ∀ px py : ℚ,
          ¬ ((a.x < px ∧ px < a.x + a.w ∧ a.y < py ∧ py < a.y + a.h) ∧
             (b.x < px ∧ px < b.x + b.w ∧ b.y < py ∧ py < b.y + b.h))) :=
  have hp : 0 ≤ sampleGrid.HorizontalPad ∧ 0 ≤ sampleGrid.VerticalPad := by
    constructor <;> norm_num [sampleGrid]
  ⟨hp, C10_layout_rectangles_separate_when_exact f32 sampleGrid sampleObjects (0, 0) 2 2
    (by decide) (by decide) rfl rfl rfl hp.1 hp.2 sample_cols_exact sample_rows_exact⟩

/-- No operation of a total of `MinSize` rounds: the running sum over the `n` slots,
the conversion of `n - 1`, its product with the gutter and the final addition are left
as they are by `rnd`. -/
def TotalExact (rnd : ℚ → ℚ) (sizes : List ℚ) (pad : ℚ) (n : Nat) : Prop :=
  (∀ k, k < n →
    rnd (Finset.sum (Finset.range k) (fun i => sizes.getD i 0) + sizes.getD k 0)
      = Finset.sum (Finset.range k) (fun i => sizes.getD i 0) + sizes.getD k 0) ∧
  rnd ((n : ℚ) - 1) = (n : ℚ) - 1 ∧
  rnd (((n : ℚ) - 1) * pad) = ((n : ℚ) - 1) * pad ∧
  rnd (Finset.sum (Finset.range n) (fun i => sizes.getD i 0) + ((n : ℚ) - 1) * pad)
    = Finset.sum (Finset.range n) (fun i => sizes.getD i 0) + ((n : ℚ) - 1) * pad

theorem sumLoopRounded_take (rnd : ℚ → ℚ) (xs : List ℚ)
    (h : ∀ k, k < xs.length →
      rnd (Finset.sum (Finset.range k) (fun i => xs.getD i 0) + xs.getD k 0)
        = Finset.sum (Finset.range k) (fun i => xs.getD i 0) + xs.getD k 0)
    (k : Nat) (hk : k ≤ xs.length) :
    (xs.take k).foldl (fun total w => rnd (total + w)) 0
      = Finset.sum (Finset.range k) (fun i => xs.getD i 0) := by
  induction k with
  | zero => simp
  | succ k ih =>
    have hk1 : k < xs.length := by omega
    have hget : xs.getD k 0 = xs[k] := by
      rw [List.getD_eq_getElem?_getD, List.getElem?_eq_getElem hk1]
      rfl
    rw [List.take_succ, List.getElem?_eq_getElem hk1, List.foldl_append, ih (by omega)]
    simp only [Option.toList, List.foldl_cons, List.foldl_nil]
    rw [← hget, h k hk1, Finset.sum_range_succ]

/-- When no addition of the loop `total += w` rounds, the loop computes the sum of the
slots. -/
theorem sumLoopRounded_of_exact (rnd : ℚ → ℚ) (xs : List ℚ)
    (h : ∀ k, k < xs.length →
      rnd (Finset.sum (Finset.range k) (fun i => xs.getD i 0) + xs.getD k 0)
        = Finset.sum (Finset.range k) (fun i => xs.getD i 0) + xs.getD k 0) :
    sumLoopRounded rnd xs = Finset.sum (Finset.range xs.length) (fun i => xs.getD i 0) := by
  have := sumLoopRounded_take rnd xs h xs.length le_rfl
  rwa [List.take_length] at this

/-- The total of one dimension of `MinSize` before the fallback, when none of its
operations rounds. -/
theorem total_of_exact (rnd : ℚ → ℚ) (sizes : List ℚ) (pad : ℚ) (n : Nat) (N : Int)
    (hN : N = n) (hlen : sizes.length = n) (h : TotalExact rnd sizes pad n) :
    rnd (sumLoopRounded rnd sizes + rnd (rnd ((N - 1 : Int) : ℚ) * pad))
      = Finset.sum (Finset.range n) (fun i => sizes.getD i 0) + ((n : ℚ) - 1) * pad := by
  obtain ⟨h1, h2, h3, h4⟩ := h
  have hcast : ((N - 1 : Int) : ℚ) = (n : ℚ) - 1 := by
    rw [hN]
    push_cast
    ring
  rw [sumLoopRounded_of_exact rnd sizes (by rw [hlen]; exact h1), hlen, hcast, h2, h3, h4]

/-- Whenever `MinSize` does not panic it returns its two totals, each replaced by the
fallback when it is 0, every operation rounded. -/
theorem MinSizeRounded_eq_some (rnd : ℚ → ℚ) (g : grid4x15) (objects : List CanvasObject)
    (hR : 0 ≤ g.Rows) (hC : 0 ≤ g.Cols) (hne : g.Cols = 0 → objects = []) :
    MinSizeRounded rnd g objects = some
      (if rnd (sumLoopRounded rnd (MinSize.colWidths g objects)
            + rnd (rnd ((g.Cols - 1 : Int) : ℚ) * g.HorizontalPad)) = 0
        then rnd (rnd (rnd (g.Cols : ℚ) * 50)
          + rnd (rnd ((g.Cols - 1 : Int) : ℚ) * g.HorizontalPad))
        else rnd (sumLoopRounded rnd (MinSize.colWidths g objects)
            + rnd (rnd ((g.Cols - 1 : Int) : ℚ) * g.HorizontalPad)),
       if rnd (sumLoopRounded rnd (MinSize.rowHeights g objects)
            + rnd (rnd ((g.Rows - 1 : Int) : ℚ) * g.VerticalPad)) = 0
        then rnd (rnd (rnd (g.Rows : ℚ) * 50)
          + rnd (rnd ((g.Rows - 1 : Int) : ℚ) * g.VerticalPad))
        else rnd (sumLoopRounded rnd (MinSize.rowHeights g objects)
            + rnd (rnd ((g.Rows - 1 : Int) : ℚ) * g.VerticalPad))) := by
  unfold MinSizeRounded MinSize.colWidths MinSize.rowHeights
  rw [if_neg (by omega), if_neg (by intro h; exact h.2 (hne h.1))]

/-- `MinSizeRounded` in exact arithmetic is `MinSize`. -/
theorem MinSizeRounded_id (g : grid4x15) (objects : List CanvasObject) :
    MinSizeRounded id g objects = MinSize g objects := rfl

/-- Every natural number below 2^24 is a float32: rounding leaves it as it is. -/
theorem f32_natCast (k : ℕ) (hk : k < 2 ^ 24) : f32 (k : ℚ) = k := by
  rcases Nat.eq_zero_or_pos k with h0 | hpos
  · subst h0
    simp [f32]
  · have he : Nat.log 2 k < 24 := Nat.log_lt_of_lt_pow (by omega) hk
    have hsplit : (2 : ℚ) ^ (23 : ℤ)
        = (2 : ℚ) ^ ((Nat.log 2 k : ℕ) : ℤ) * (2 : ℚ) ^ (23 - Nat.log 2 k : ℕ) := by
      rw [zpow_natCast, ← pow_add]
      have : Nat.log 2 k + (23 - Nat.log 2 k) = 23 := by omega
      rw [this]
      norm_cast
    have hscale : (k : ℚ) / (2 : ℚ) ^ (((Nat.log 2 k : ℕ) : ℤ) - 23)
        = (((k * 2 ^ (23 - Nat.log 2 k) : ℕ) : ℤ) : ℚ) := by
      rw [zpow_sub₀ (by norm_num), hsplit]
      push_cast
      field_simp
      ring
    rw [f32_eq (k : ℚ) ((Nat.log 2 k : ℕ) : ℤ) ((k * 2 ^ (23 - Nat.log 2 k) : ℕ) : ℤ)]
    · rw [← hscale]
      field_simp
    · rw [zpow_natCast]
      exact_mod_cast Nat.pow_log_le_self 2 (by omega)
    · have : ((Nat.log 2 k : ℕ) : ℤ) + 1 = ((Nat.log 2 k + 1 : ℕ) : ℤ) := by push_cast; ring
      rw [this, zpow_natCast]
      exact_mod_cast Nat.lt_pow_succ_log_self (by norm_num) k
    · omega
    · rw [hscale]
      constructor <;> linarith

/-- A 1 x 2 grid with a horizontal gutter of 2.4 (as float32). -/
def tilingGrid : grid4x15 := ⟨1, 2, 5033165 / 2097152, 0⟩

/-- Two objects of minimum widths 0.1 and 0.3 (as float32) and of height 1. -/
def tilingObjects : List CanvasObject :=
  [⟨13421773 / 134217728, 1, 0, 0, 0, 0⟩, ⟨5033165 / 16777216, 1, 0, 0, 0, 0⟩]

/-- C11, as stated, fails in float32: on a 1 x 2 grid with gutter 2.4 and column widths
0.1 and 0.3, `Layout` adds (0.1 + 2.4) + 0.3 and the last column ends at
46976205/16777216 (about 2.79999995, as a float32 11744051/4194304), while `MinSize`
adds (0.1 + 0.3) + 2.4 and reports the non-zero width 2936013/1048576 (about
2.80000019). -/
theorem C11_rounding_order_counterexample :
    ∃ out size a, LayoutRounded f32 tilingGrid tilingObjects (0, 0) = some out ∧
      MinSizeRounded f32 tilingGrid tilingObjects = some size ∧ size.1 ≠ 0 ∧
      out[1]? = some a ∧ 1 % 2 = 2 - 1 ∧
      a.x + a.w = 46976205 / 16777216 ∧ f32 (a.x + a.w) = 11744051 / 4194304 ∧
      size.1 = 2936013 / 1048576 ∧ a.x + a.w ≠ size.1 ∧ f32 (a.x + a.w) ≠ size.1 := by
  have hw0 : (layoutMeasure 1 2 tilingObjects).1.getD 0 0 = 13421773 / 134217728 := by
    norm_num [tilingObjects, layoutMeasure, layoutMeasureLoop, layoutMeasureStep]
  have hw1 : (layoutMeasure 1 2 tilingObjects).1.getD 1 0 = 5033165 / 16777216 := by
    norm_num [tilingObjects, layoutMeasure, layoutMeasureLoop, layoutMeasureStep]
  have hcw : MinSize.colWidths tilingGrid tilingObjects
      = [13421773 / 134217728, 5033165 / 16777216] := by
    show (minSizeMeasure 1 2 tilingObjects).1 = _
    norm_num [tilingObjects, minSizeMeasure, minSizeMeasureLoop, minSizeMeasureStep]
    rfl
  have c1 : f32 (0 + 13421773 / 134217728) = 13421773 / 134217728 := by
    rw [f32_eq _ (-4) 13421773 (by norm_num) (by norm_num) (by norm_num) (by norm_num)]
    norm_num
  have c2 : f32 (13421773 / 134217728 + 5033165 / 16777216)
      = 13421773 / 33554432 := by
    rw [f32_eq _ (-2) 13421773 (by norm_num) (by norm_num) (by norm_num) (by norm_num)]
    norm_num
  have c3 : f32 (((tilingGrid.Cols - 1 : Int) : ℚ)) = 1 := by
    have h : ((tilingGrid.Cols - 1 : Int) : ℚ) = ((1 : ℕ) : ℚ) := by
      norm_num [tilingGrid]
    rw [h, f32_natCast 1 (by norm_num)]
    norm_num
  have c4 : f32 (1 * tilingGrid.HorizontalPad) = 5033165 / 2097152 := by
    have h : 1 * tilingGrid.HorizontalPad = 5033165 / 2097152 := by
      norm_num [tilingGrid]
    rw [h, f32_eq _ 1 10066330 (by norm_num) (by norm_num) (by norm_num) (by norm_num)]
    norm_num
  have c5 : f32 (13421773 / 33554432 + 5033165 / 2097152) = 2936013 / 1048576 := by
    rw [f32_eq _ 1 11744052 (by norm_num) (by norm_num) (by norm_num) (by norm_num)]
    norm_num
  have c6 : f32 (13421773 / 134217728 + 5033165 / 2097152) = 5 / 2 := by
    rw [f32_eq _ 1 10485760 (by norm_num) (by norm_num) (by norm_num) (by norm_num)]
    norm_num
  have c7 : f32 (46976205 / 16777216) = 11744051 / 4194304 := by
    rw [f32_eq _ 1 11744051 (by norm_num) (by norm_num) (by norm_num) (by norm_num)]
    norm_num
  have hx1 : offsetRounded f32 (layoutMeasure 1 2 tilingObjects).1
      tilingGrid.HorizontalPad 1 = 5 / 2 := by
    show f32 (f32 (0 + (layoutMeasure 1 2 tilingObjects).1.getD 0 0)
      + 5033165 / 2097152) = _
    rw [hw0, c1, c6]
  have hsize : f32 (sumLoopRounded f32 (MinSize.colWidths tilingGrid tilingObjects)
      + f32 (f32 ((tilingGrid.Cols - 1 : Int) : ℚ) * tilingGrid.HorizontalPad))
      = 2936013 / 1048576 := by
    rw [hcw, c3, c4]
    show f32 (f32 (f32 (0 + 13421773 / 134217728) + 5033165 / 16777216)
      + 5033165 / 2097152) = _
    rw [c1, c2, c5]
  have hedge : ((tilingObjects[1].Move
      (offsetRounded f32 (layoutMeasure 1 2 tilingObjects).1 tilingGrid.HorizontalPad
        (1 % 2))
      (offsetRounded f32 (layoutMeasure 1 2 tilingObjects).2 tilingGrid.VerticalPad
        (1 / 2))).Resize
      ((layoutMeasure 1 2 tilingObjects).1.getD (1 % 2) 0)
      ((layoutMeasure 1 2 tilingObjects).2.getD (1 / 2) 0)).x
      + ((tilingObjects[1].Move
      (offsetRounded f32 (layoutMeasure 1 2 tilingObjects).1 tilingGrid.HorizontalPad
        (1 % 2))
      (offsetRounded f32 (layoutMeasure 1 2 tilingObjects).2 tilingGrid.VerticalPad
        (1 / 2))).Resize
      ((layoutMeasure 1 2 tilingObjects).1.getD (1 % 2) 0)
      ((layoutMeasure 1 2 tilingObjects).2.getD (1 / 2) 0)).w
      = 46976205 / 16777216 := by
    show offsetRounded f32 (layoutMeasure 1 2 tilingObjects).1 tilingGrid.HorizontalPad 1
      + (layoutMeasure 1 2 tilingObjects).1.getD 1 0 = _
    rw [hx1, hw1]
    norm_num
  refine ⟨_, _, _, LayoutRounded_eq_some f32 tilingGrid tilingObjects (0, 0) (by decide)
    (by decide),
    MinSizeRounded_eq_some f32 tilingGrid tilingObjects (by decide) (by decide)
      (by decide), ?_,
    layoutPassesRounded_getElem? f32 1 2 _ _ tilingObjects rfl 1 (by decide), by decide,
    hedge, ?_, ?_, ?_, ?_⟩
  · simp only [hsize]
    norm_num
  · rw [hedge, c7]
  · simp only [hsize]
    norm_num
  · rw [hedge]
    simp only [hsize]
    norm_num
  · rw [hedge, c7]
    simp only [hsize]
    norm_num

/-- In `sampleGrid` with `sampleObjects` no operation of the width total of `MinSize`
rounds in float32: 0 + 10, 10 + 30, 1 * 5 and 40 + 5. -/
theorem sample_width_exact :
    TotalExact f32 (Layout.colWidths sampleGrid sampleObjects)
      sampleGrid.HorizontalPad 2 := by
  have hw0 : (Layout.colWidths sampleGrid sampleObjects).getD 0 0 = 10 := by
    show (layoutMeasure 2 2 sampleObjects).1.getD 0 0 = 10
    norm_num [sampleObjects, layoutMeasure, layoutMeasureLoop, layoutMeasureStep]
  have hw1 : (Layout.colWidths sampleGrid sampleObjects).getD 1 0 = 30 := by
    show (layoutMeasure 2 2 sampleObjects).1.getD 1 0 = 30
    norm_num [sampleObjects, layoutMeasure, layoutMeasureLoop, layoutMeasureStep]
  have hp : sampleGrid.HorizontalPad = 5 := rfl
  have n1 := f32_natCast 1 (by norm_num)
  have n5 := f32_natCast 5 (by norm_num)
  have n10 := f32_natCast 10 (by norm_num)
  have n40 := f32_natCast 40 (by norm_num)
  have n45 := f32_natCast 45 (by norm_num)
  push_cast at n1 n5 n10 n40 n45
  refine ⟨?_, ?_, ?_, ?_⟩
  · intro k hk
    interval_cases k
    · rw [Finset.sum_range_zero, hw0]
      norm_num
      exact n10
    · rw [Finset.sum_range_one, hw0, hw1]
      norm_num
      exact n40
  · norm_num
    exact n1
  · rw [hp]
    norm_num
    exact n5
  · rw [Finset.sum_range_succ, Finset.sum_range_one, hw0, hw1, hp]
    norm_num
    exact n45

/-- In `sampleGrid` with `sampleObjects` no operation of the height total of `MinSize`
rounds in float32: 0 + 20, 20 + 8, 1 * 3 and 28 + 3. -/
theorem sample_height_exact :
    TotalExact f32 (Layout.rowHeights sampleGrid sampleObjects)
      sampleGrid.VerticalPad 2 := by
  have hw0 : (Layout.rowHeights sampleGrid sampleObjects).getD 0 0 = 20 := by
    show (layoutMeasure 2 2 sampleObjects).2.getD 0 0 = 20
    norm_num [sampleObjects, layoutMeasure, layoutMeasureLoop, layoutMeasureStep]
  have hw1 : (Layout.rowHeights sampleGrid sampleObjects).getD 1 0 = 8 := by
    show (layoutMeasure 2 2 sampleObjects).2.getD 1 0 = 8
    norm_num [sampleObjects, layoutMeasure, layoutMeasureLoop, layoutMeasureStep]
  have hp : sampleGrid.VerticalPad = 3 := rfl
  have n1 := f32_natCast 1 (by norm_num)
  have n3 := f32_natCast 3 (by norm_num)
  have n20 := f32_natCast 20 (by norm_num)
  have n28 := f32_natCast 28 (by norm_num)
  have n31 := f32_natCast 31 (by norm_num)
  push_cast at n1 n3 n20 n28 n31
  refine ⟨?_, ?_, ?_, ?_⟩
  · intro k hk
    interval_cases k
    · rw [Finset.sum_range_zero, hw0]
      norm_num
      exact n20
    · rw [Finset.sum_range_one, hw0, hw1]
      norm_num
      exact n28
  · norm_num
    exact n1
  · rw [hp]
    norm_num
    exact n3
  · rw [Finset.sum_range_succ, Finset.sum_range_one, hw0, hw1, hp]
    norm_num
    exact n31

/-- C11 (amended): on a grid of R, C >= 1 and a list of exactly R*C objects on which no
float32 operation of the offsets of `Layout` and of the totals of `MinSize` rounds,
`Layout` and `MinSize` (every operation rounded by `rnd`) both return normally, and in
each dimension whose computed total is not 0 the placed rectangles end exactly at the
extent `MinSize` reports: the width reported is the sum of the column widths plus
(C-1)*HorizontalPad and equals x + width of every rectangle in column C-1; the height
reported is the sum of the row heights plus (R-1)*VerticalPad and equals y + height of
every rectangle in row R-1. -/
theorem C11_layout_tiles_minsize_extent_when_exact (rnd : ℚ → ℚ) (g : grid4x15)
    (objects : List CanvasObject) (cs : ℚ × ℚ) (R C : Nat) (hR : 1 ≤ R) (hC : 1 ≤ C)
    (hRows : g.Rows = R) (hCols : g.Cols = C) (hlen : objects.length = R * C)
    (hcols : OffsetsExact rnd (Layout.colWidths g objects) g.HorizontalPad C)
    (hrows : OffsetsExact rnd (Layout.rowHeights g objects) g.VerticalPad R)
    (hwidth : TotalExact rnd (Layout.colWidths g objects) g.HorizontalPad C)
    (hheight : TotalExact rnd (Layout.rowHeights g objects) g.VerticalPad R) :
    ∃ out size, LayoutRounded rnd g objects cs = some out ∧
      MinSizeRounded rnd g objects = some size ∧
      (Finset.sum (Finset.range C) (fun k => (Layout.colWidths g objects).getD k 0)
          + ((C : ℚ) - 1) * g.HorizontalPad ≠ 0 →
        size.1 = Finset.sum (Finset.range C) (fun k => (Layout.colWidths g objects).getD k 0)
          + ((C : ℚ) - 1) * g.HorizontalPad ∧
        ∀ i a, out[i]? = some a → i % C = C - 1 → a.x + a.w = size.1) ∧
      (Finset.sum (Finset.range R) (fun k => (Layout.rowHeights g objects).getD k 0)
          + ((R : ℚ) - 1) * g.VerticalPad ≠ 0 →
        size.2 = Finset.sum (Finset.range R) (fun k => (Layout.rowHeights g objects).getD k 0)
          + ((R : ℚ) - 1) * g.VerticalPad ∧
        ∀ i a, out[i]? = some a → i / C = R - 1 → a.y + a.h = size.2) := by
  have hRn : g.Rows.toNat = R := toNat_of_eq_natCast _ _ hRows
  have hCn : g.Cols.toNat = C := toNat_of_eq_natCast _ _ hCols
  unfold Layout.colWidths at hcols hwidth ⊢
  unfold Layout.rowHeights at hrows hheight ⊢
  rw [hRn, hCn] at hcols hrows hwidth hheight ⊢
  have hmin := MinSizeRounded_eq_some rnd g objects (by omega) (by omega) (by omega)
  unfold MinSize.colWidths MinSize.rowHeights at hmin
  rw [minSizeMeasure_eq, hRn, hCn,
    total_of_exact rnd _ _ C g.Cols hCols (layoutMeasure_fst_length R C objects) hwidth,
    total_of_exact rnd _ _ R g.Rows hRows (layoutMeasure_snd_length R C objects) hheight]
    at hmin
  have hget : ∀ i a,
      (layoutPasses R C g.HorizontalPad g.VerticalPad objects)[i]? = some a →
      a.x + a.w = offsetSum (layoutMeasure R C objects).1 g.HorizontalPad (i % C)
          + (layoutMeasure R C objects).1.getD (i % C) 0 ∧
      a.y + a.h = offsetSum (layoutMeasure R C objects).2 g.VerticalPad (i / C)
          + (layoutMeasure R C objects).2.getD (i / C) 0 := by
    intro i a hi
    have hi1 : i < objects.length := by
      have := (List.getElem?_eq_some_iff.mp hi).1
      rwa [layoutPasses_length] at this
    rw [layoutPasses_getElem? R C _ _ objects hlen i hi1] at hi
    have ha := Option.some.inj hi
    subst ha
    exact ⟨rfl, rfl⟩
  refine ⟨_, _, LayoutRounded_eq_some rnd g objects cs (by omega) (by omega), hmin, ?_, ?_⟩
  · rw [hRn, hCn, layoutPassesRounded_of_exact rnd R C _ _ objects hlen hcols hrows]
    intro hne
    constructor
    · simp only [if_neg hne]
    · intro i a hi hcol
      simp only [if_neg hne]
      rw [(hget i a hi).1, hcol, offsetSum_last_edge _ _ C hC]
  · rw [hRn, hCn, layoutPassesRounded_of_exact rnd R C _ _ objects hlen hcols hrows]
    intro hne
    constructor
    · simp only [if_neg hne]
    · intro i a hi hrow
      simp only [if_neg hne]
      rw [(hget i a hi).2, hrow, offsetSum_last_edge _ _ R hR]

/-- C11 (amended) in float32 at `sampleGrid` and `sampleObjects`, where no operation
rounds. -/
theorem C11_layout_tiles_minsize_extent_when_exact_witness :
    ∃ out size, LayoutRounded f32 sampleGrid sampleObjects (0, 0) = some out ∧
      MinSizeRounded f32 sampleGrid sampleObjects = some size ∧
      (Finset.sum (Finset.range 2)
            (fun k => (Layout.colWidths sampleGrid sampleObjects).getD k 0)
          + (((2 : Nat) : ℚ) - 1) * sampleGrid.HorizontalPad ≠ 0 →
        size.1 = Finset.sum (Finset.range 2)
            (fun k => (Layout.colWidths sampleGrid sampleObjects).getD k 0)
          + (((2 : Nat) : ℚ) - 1) * sampleGrid.HorizontalPad ∧
        ∀ i a, out[i]? = some a → i % 2 = 2 - 1 → a.x + a.w = size.1) ∧
      (Finset.sum (Finset.range 2)
            (fun k => (Layout.rowHeights sampleGrid sampleObjects).getD k 0)
          + (((2 : Nat) : ℚ) - 1) * sampleGrid.VerticalPad ≠ 0 →
        size.2 = Finset.sum (Finset.range 2)
            (fun k => (Layout.rowHeights sampleGrid sampleObjects).getD k 0)
          + (((2 : Nat) : ℚ) - 1) * sampleGrid.VerticalPad ∧
        ∀ i a, out[i]? = some a → i / 2 = 2 - 1 → a.y + a.h = size.2) :=
  C11_layout_tiles_minsize_extent_when_exact f32 sampleGrid sampleObjects (0, 0) 2 2
    (by decide) (by decide) rfl rfl rfl sample_cols_exact sample_rows_exact
    sample_width_exact sample_height_exact

/-- On a full list whose objects all have minimum size s x s, with s >= 0, every column
is s wide and every row is s high. -/
theorem layoutMeasure_uniform (R C : Nat) (objects : List CanvasObject) (s : ℚ)
    (hs : 0 ≤ s) (hR : 1 ≤ R) (hC : 1 ≤ C) (hlen : objects.length = R * C)
    (hall : ∀ o ∈ objects, o.minW = s ∧ o.minH = s) :
    (∀ c, c < C → (layoutMeasure R C objects).1.getD c 0 = s) ∧
    (∀ r, r < R → (layoutMeasure R C objects).2.getD r 0 = s) := by
  constructor
  · intro c hc
    have hm : c < objects.length := by
      rw [hlen]
      calc c < C := hc
        _ = 1 * C := by ring
        _ ≤ R * C := Nat.mul_le_mul_right C hR
    obtain ⟨_, i, hi, _, hv⟩ := bucketMax_is_max C (fun k => k % C) CanvasObject.minW
      objects c hc (fun o ho => by rw [(hall o ho).1]; exact hs) c hm (Nat.mod_eq_of_lt hc)
    rw [layoutMeasure_fst, hv]
    exact (hall _ (List.getElem_mem hi)).1
  · intro r hr
    have hm : r * C < objects.length := by
      rw [hlen]
      exact Nat.mul_lt_mul_of_pos_right hr (by omega)
    obtain ⟨_, i, hi, _, hv⟩ := bucketMax_is_max R (fun k => k / C) CanvasObject.minH
      objects r hr (fun o ho => by rw [(hall o ho).2]; exact hs) (r * C) hm
      (Nat.mul_div_cancel r (by omega))
    rw [layoutMeasure_snd, hv]
    exact (hall _ (List.getElem_mem hi)).2

/-- Slots that are all `s` units with a gutter of `p` units, for natural numbers with
n * (s + p) below 2^24, have offsets that are natural numbers below 2^24: no addition
of the offset loop rounds in float32. -/
theorem offsets_exact_of_uniform (sizes : List ℚ) (s p n : ℕ)
    (hs : ∀ c, c < n → sizes.getD c 0 = (s : ℚ)) (hb : n * (s + p) < 2 ^ 24) :
    OffsetsExact f32 sizes (p : ℚ) n := by
  intro c hc
  have hoff : offsetSum sizes (p : ℚ) c = ((c * (s + p) : ℕ) : ℚ) := by
    rw [offsetSum_split, Finset.sum_congr rfl
      (fun k hk => hs k (by have := Finset.mem_range.mp hk; omega))]
    simp only [Finset.sum_const, Finset.card_range, nsmul_eq_mul]
    push_cast
    ring
  have hle : (c + 1) * (s + p) ≤ n * (s + p) := Nat.mul_le_mul_right _ (by omega)
  have hexp : (c + 1) * (s + p) = c * (s + p) + s + p := by ring
  rw [hoff, hs c (by omega)]
  constructor
  · have h := f32_natCast (c * (s + p) + s) (by omega)
    push_cast at h ⊢
    exact h
  · have h := f32_natCast (c * (s + p) + s + p) (by omega)
    push_cast at h ⊢
    exact h

/-- The grid of the editor (`loadTalentsForTab`, lines 316-321): 15 tiers of 4 columns
with gutters of 23 units. -/
def editorGrid : grid4x15 := ⟨15, 4, 23, 23⟩

/-- The 60 buttons of the editor as the layout sees them: minimum size 46 x 46. -/
def editorObjects : List CanvasObject := List.replicate 60 ⟨46, 46, 0, 0, 0, 0⟩

theorem editor_uniform :
    (∀ c, c < 4 → (Layout.colWidths editorGrid editorObjects).getD c 0 = 46) ∧
    (∀ r, r < 15 → (Layout.rowHeights editorGrid editorObjects).getD r 0 = 46) :=
  layoutMeasure_uniform 15 4 editorObjects 46 (by norm_num) (by norm_num) (by norm_num)
    (by simp [editorObjects])
    (fun o ho => by
      have h := List.eq_of_mem_replicate ho
      rw [h]
      exact ⟨rfl, rfl⟩)

/-- In the grid of the editor no addition of the column offsets rounds in float32: the
offsets are 0, 69, 138 and 207. -/
theorem editor_cols_exact :
    OffsetsExact f32 (Layout.colWidths editorGrid editorObjects)
      editorGrid.HorizontalPad 4 := by
  have h := offsets_exact_of_uniform (Layout.colWidths editorGrid editorObjects) 46 23 4
    (fun c hc => by rw [editor_uniform.1 c hc]; norm_num) (by norm_num)
  have hp : editorGrid.HorizontalPad = ((23 : ℕ) : ℚ) := by norm_num [editorGrid]
  rw [hp]
  exact h

/-- In the grid of the editor no addition of the row offsets rounds in float32: the
offsets are the multiples of 69 up to 966. -/
theorem editor_rows_exact :
    OffsetsExact f32 (Layout.rowHeights editorGrid editorObjects)
      editorGrid.VerticalPad 15 := by
  have h := offsets_exact_of_uniform (Layout.rowHeights editorGrid editorObjects) 46 23 15
    (fun r hr => by rw [editor_uniform.2 r hr]; norm_num) (by norm_num)
  have hp : editorGrid.VerticalPad = ((23 : ℕ) : ℚ) := by norm_num [editorGrid]
  rw [hp]
  exact h

/-- With exact sums, when every slot plus its gutter is positive, the route between two
rectangles of a full list follows their grid indices. -/
theorem layoutPasses_routing (R C : Nat) (hpad vpad : ℚ) (objects : List CanvasObject)
    (hlen : objects.length = R * C)
    (hcolpos : ∀ k, k < C → 0 < (layoutMeasure R C objects).1.getD k 0 + hpad)
    (hrowpos : ∀ k, k < R → 0 < (layoutMeasure R C objects).2.getD k 0 + vpad)
    (i j : Nat) (p c : CanvasObject) (id preID : Int)
    (hi : (layoutPasses R C hpad vpad objects)[i]? = some p)
    (hj : (layoutPasses R C hpad vpad objects)[j]? = some c) :
    (i / C = j / C → (drawArrow id preID p c).kind = ArrowKind.horizontal) ∧
    (i / C ≠ j / C → i % C = j % C →
      (drawArrow id preID p c).kind = ArrowKind.vertical) ∧
    (i / C ≠ j / C → i % C ≠ j % C →
      (drawArrow id preID p c).kind = ArrowKind.step) := by
  have hi1 : i < objects.length := by
    have := (List.getElem?_eq_some_iff.mp hi).1
    rwa [layoutPasses_length] at this
  have hj1 : j < objects.length := by
    have := (List.getElem?_eq_some_iff.mp hj).1
    rwa [layoutPasses_length] at this
  obtain ⟨hir, hic⟩ := flat_index_bounds R C i (hlen ▸ hi1)
  obtain ⟨hjr, hjc⟩ := flat_index_bounds R C j (hlen ▸ hj1)
  rw [layoutPasses_getElem? R C _ _ objects hlen i hi1] at hi
  rw [layoutPasses_getElem? R C _ _ objects hlen j hj1] at hj
  have hp := Option.some.inj hi
  have hc := Option.some.inj hj
  have hpx : p.x = offsetSum (layoutMeasure R C objects).1 hpad (i % C) := by
    rw [← hp]; rfl
  have hpy : p.y = offsetSum (layoutMeasure R C objects).2 vpad (i / C) := by
    rw [← hp]; rfl
  have hcx : c.x = offsetSum (layoutMeasure R C objects).1 hpad (j % C) := by
    rw [← hc]; rfl
  have hcy : c.y = offsetSum (layoutMeasure R C objects).2 vpad (j / C) := by
    rw [← hc]; rfl
  rw [drawArrow_kind]
  refine ⟨?_, ?_, ?_⟩
  · intro hrow
    apply selectArrow_horizontal
    rw [hpy, hcy, hrow]
  · intro hrow hcol
    apply selectArrow_vertical
    · rw [hpy, hcy]
      exact offsetSum_ne _ _ R hrowpos _ _ hrow (by omega) (by omega)
    · rw [hpx, hcx, hcol]
  · intro hrow hcol
    apply selectArrow_step
    · rw [hpy, hcy]
      exact offsetSum_ne _ _ R hrowpos _ _ hrow (by omega) (by omega)
    · rw [hpx, hcx]
      exact offsetSum_ne _ _ C hcolpos _ _ hcol (by omega) (by omega)

/-- A 2 x 3 grid with gutters 1/4 and 1. -/
def absorbGrid : grid4x15 := ⟨2, 3, 1 / 4, 1⟩

/-- Six objects of height 1 whose minimum widths are 2^24, 1/2 and 1 in each row. -/
def absorbObjects : List CanvasObject :=
  [⟨16777216, 1, 0, 0, 0, 0⟩, ⟨1 / 2, 1, 0, 0, 0, 0⟩, ⟨1, 1, 0, 0, 0, 0⟩,
   ⟨16777216, 1, 0, 0, 0, 0⟩, ⟨1 / 2, 1, 0, 0, 0, 0⟩, ⟨1, 1, 0, 0, 0, 0⟩]

/-- C20, as stated, fails in float32: on a 2 x 3 grid with gutters 1/4 and 1 and column
widths 2^24, 1/2 and 1 (every width plus gutter positive) the float32 sums 2^24 + 1/4
and 2^24 + 1/2 are both 2^24, so columns 1 and 2 share x = 2^24; the parent at index 1
(row 0, column 1) and the child at index 5 (row 1, column 2) differ in row and column,
yet the route is the vertical one, not the step route. -/
theorem C20_absorbed_gutter_counterexample :
    ∃ out p c, LayoutRounded f32 absorbGrid absorbObjects (0, 0) = some out ∧
      out[1]? = some p ∧ out[5]? = some c ∧
      absorbObjects.length = 2 * 3 ∧
      0 ≤ absorbGrid.HorizontalPad ∧ 0 ≤ absorbGrid.VerticalPad ∧
      (∀ k, k < 3 →
        0 < (Layout.colWidths absorbGrid absorbObjects).getD k 0
          + absorbGrid.HorizontalPad) ∧
      (∀ k, k < 2 →
        0 < (Layout.rowHeights absorbGrid absorbObjects).getD k 0
          + absorbGrid.VerticalPad) ∧
      1 / 3 ≠ 5 / 3 ∧ 1 % 3 ≠ 5 % 3 ∧
      p.x = 16777216 ∧ c.x = 16777216 ∧
      (drawArrow 5 1 p c).kind = ArrowKind.vertical ∧
      (drawArrow 5 1 p c).kind ≠ ArrowKind.step := by
  have hw0 : (layoutMeasure 2 3 absorbObjects).1.getD 0 0 = 16777216 := by
    norm_num [absorbObjects, layoutMeasure, layoutMeasureLoop, layoutMeasureStep]
  have hw1 : (layoutMeasure 2 3 absorbObjects).1.getD 1 0 = 1 / 2 := by
    norm_num [absorbObjects, layoutMeasure, layoutMeasureLoop, layoutMeasureStep]
  have hw2 : (layoutMeasure 2 3 absorbObjects).1.getD 2 0 = 1 := by
    norm_num [absorbObjects, layoutMeasure, layoutMeasureLoop, layoutMeasureStep]
  have hh0 : (layoutMeasure 2 3 absorbObjects).2.getD 0 0 = 1 := by
    norm_num [absorbObjects, layoutMeasure, layoutMeasureLoop, layoutMeasureStep]
  have hh1 : (layoutMeasure 2 3 absorbObjects).2.getD 1 0 = 1 := by
    norm_num [absorbObjects, layoutMeasure, layoutMeasureLoop, layoutMeasureStep]
  have c1 : f32 (0 + 16777216) = 16777216 := by
    rw [f32_eq _ 24 8388608 (by norm_num) (by norm_num) (by norm_num) (by norm_num)]
    norm_num
  have c2 : f32 (16777216 + 1 / 4) = 16777216 := by
    rw [f32_eq _ 24 8388608 (by norm_num) (by norm_num) (by norm_num) (by norm_num)]
    norm_num
  have c3 : f32 (16777216 + 1 / 2) = 16777216 := by
    rw [f32_eq _ 24 8388608 (by norm_num) (by norm_num) (by norm_num) (by norm_num)]
    norm_num
  have c4 : f32 (0 + 1) = 1 := by
    rw [f32_eq _ 0 8388608 (by norm_num) (by norm_num) (by norm_num) (by norm_num)]
    norm_num
  have c5 : f32 (1 + 1) = 2 := by
    rw [f32_eq _ 1 8388608 (by norm_num) (by norm_num) (by norm_num) (by norm_num)]
    norm_num
  have hx1 : offsetRounded f32 (layoutMeasure 2 3 absorbObjects).1 (1 / 4) 1
      = 16777216 := by
    show f32 (f32 (0 + (layoutMeasure 2 3 absorbObjects).1.getD 0 0) + 1 / 4) = _
    rw [hw0, c1, c2]
  have hx2 : offsetRounded f32 (layoutMeasure 2 3 absorbObjects).1 (1 / 4) 2
      = 16777216 := by
    show f32 (f32 (offsetRounded f32 (layoutMeasure 2 3 absorbObjects).1 (1 / 4) 1
      + (layoutMeasure 2 3 absorbObjects).1.getD 1 0) + 1 / 4) = _
    rw [hx1, hw1, c3, c2]
  have hy0 : offsetRounded f32 (layoutMeasure 2 3 absorbObjects).2 1 0 = 0 := rfl
  have hy1 : offsetRounded f32 (layoutMeasure 2 3 absorbObjects).2 1 1 = 2 := by
    show f32 (f32 (0 + (layoutMeasure 2 3 absorbObjects).2.getD 0 0) + 1) = _
    rw [hh0, c4, c5]
  have hkind : selectArrow (16777216 : ℚ) 0 16777216 2 = ArrowKind.vertical :=
    selectArrow_vertical _ _ _ _ (by norm_num) rfl
  refine ⟨_, _, _, LayoutRounded_eq_some f32 absorbGrid absorbObjects (0, 0) (by decide)
    (by decide),
    layoutPassesRounded_getElem? f32 2 3 _ _ absorbObjects rfl 1 (by decide),
    layoutPassesRounded_getElem? f32 2 3 _ _ absorbObjects rfl 5 (by decide),
    rfl, by norm_num [absorbGrid], by norm_num [absorbGrid], ?_, ?_, by decide, by decide,
    hx1, hx2, ?_, ?_⟩
  · intro k hk
    show 0 < (layoutMeasure 2 3 absorbObjects).1.getD k 0 + 1 / 4
    interval_cases k
    · rw [hw0]; norm_num
    · rw [hw1]; norm_num
    · rw [hw2]; norm_num
  · intro k hk
    show 0 < (layoutMeasure 2 3 absorbObjects).2.getD k 0 + 1
    interval_cases k
    · rw [hh0]; norm_num
    · rw [hh1]; norm_num
  · rw [drawArrow_kind]
    simp only [CanvasObject.Move, CanvasObject.Resize, absorbGrid]
    show selectArrow (offsetRounded f32 (layoutMeasure 2 3 absorbObjects).1 (1 / 4) 1)
      (offsetRounded f32 (layoutMeasure 2 3 absorbObjects).2 1 0)
      (offsetRounded f32 (layoutMeasure 2 3 absorbObjects).1 (1 / 4) 2)
      (offsetRounded f32 (layoutMeasure 2 3 absorbObjects).2 1 1) = _
    rw [hx1, hx2, hy0, hy1]
    exact hkind
  · rw [drawArrow_kind]
    simp only [CanvasObject.Move, CanvasObject.Resize, absorbGrid]
    show selectArrow (offsetRounded f32 (layoutMeasure 2 3 absorbObjects).1 (1 / 4) 1)
      (offsetRounded f32 (layoutMeasure 2 3 absorbObjects).2 1 0)
      (offsetRounded f32 (layoutMeasure 2 3 absorbObjects).1 (1 / 4) 2)
      (offsetRounded f32 (layoutMeasure 2 3 absorbObjects).2 1 1) ≠ _
    rw [hx1, hx2, hy0, hy1, hkind]
    decide

/-- C20 (amended): on a list of exactly R*C objects for which every column width plus
HorizontalPad and every row height plus VerticalPad is positive and on which no float32
addition of the column and row offsets rounds (as in the editor: 46-unit cells and
23-unit gutters give the offsets 69*k), the route drawn between two rectangles placed by
`Layout` (every addition rounded by `rnd`) follows their grid indices: a parent and a
child in the same row get the horizontal route, in the same column and different rows
the vertical route, in different rows and different columns the step route. -/
theorem C20_routing_agrees_with_grid_when_exact (rnd : ℚ → ℚ) (g : grid4x15)
    (objects : List CanvasObject) (cs : ℚ × ℚ) (R C : Nat) (hR : 1 ≤ R) (hC : 1 ≤ C)
    (hRows : g.Rows = R) (hCols : g.Cols = C) (hlen : objects.length = R * C)
    (hcolpos : ∀ k, k < C → 0 < (Layout.colWidths g objects).getD k 0 + g.HorizontalPad)
    (hrowpos : ∀ k, k < R → 0 < (Layout.rowHeights g objects).getD k 0 + g.VerticalPad)
    (hcols : OffsetsExact rnd (Layout.colWidths g objects) g.HorizontalPad C)
    (hrows : OffsetsExact rnd (Layout.rowHeights g objects) g.VerticalPad R) :
    ∃ out, LayoutRounded rnd g objects cs = some out ∧
      ∀ (i j : Nat) (p c : CanvasObject) (id preID : Int),
        out[i]? = some p → out[j]? = some c →
        (i / C = j / C → (drawArrow id preID p c).kind = ArrowKind.horizontal) ∧
        (i / C ≠ j / C → i % C = j % C →
          (drawArrow id preID p c).kind = ArrowKind.vertical) ∧
        (i / C ≠ j / C → i % C ≠ j % C →
          (drawArrow id preID p c).kind = ArrowKind.step) := by
  have hRn : g.Rows.toNat = R := toNat_of_eq_natCast _ _ hRows
  have hCn : g.Cols.toNat = C := toNat_of_eq_natCast _ _ hCols
  unfold Layout.colWidths at hcolpos hcols
  unfold Layout.rowHeights at hrowpos hrows
  rw [hRn, hCn] at hcolpos hrowpos hcols hrows
  refine ⟨_, LayoutRounded_eq_some rnd g objects cs (by omega) (by omega), ?_⟩
  rw [hRn, hCn, layoutPassesRounded_of_exact rnd R C _ _ objects hlen hcols hrows]
  intro i j p c id preID hi hj
  exact layoutPasses_routing R C _ _ objects hlen hcolpos hrowpos i j p c id preID hi hj

/-- C20 (amended) in float32 at the grid of the editor: 15 x 4 buttons of 46 x 46 units
with gutters of 23 units. -/
theorem C20_routing_agrees_with_grid_when_exact_witness :
    ∃ out, LayoutRounded f32 editorGrid editorObjects (0, 0) = some out ∧
      ∀ (i j : Nat) (p c : CanvasObject) (id preID : Int),
        out[i]? = some p → out[j]? = some c →
        (i / 4 = j / 4 → (drawArrow id preID p c).kind = ArrowKind.horizontal) ∧
        (i / 4 ≠ j / 4 → i % 4 = j % 4 →
          (drawArrow id preID p c).kind = ArrowKind.vertical) ∧
        (i / 4 ≠ j / 4 → i % 4 ≠ j % 4 →
          (drawArrow id preID p c).kind = ArrowKind.step) :=
  C20_routing_agrees_with_grid_when_exact f32 editorGrid editorObjects (0, 0) 15 4
    (by decide) (by decide) rfl rfl (by simp [editorObjects])
    (fun k hk => by
      rw [editor_uniform.1 k hk]
      norm_num [editorGrid])
    (fun k hk => by
      rw [editor_uniform.2 k hk]
      norm_num [editorGrid])
    editor_cols_exact editor_rows_exact

theorem offsetRounded_congr (rnd : ℚ → ℚ) (sizes sizes' : List ℚ) (pad : ℚ) (j : Nat)
    (h : ∀ k, k < j → sizes'.getD k 0 = sizes.getD k 0) :
    offsetRounded rnd sizes' pad j = offsetRounded rnd sizes pad j := by
  induction j with
  | zero => rfl
  | succ j ih =>
    show rnd (rnd (offsetRounded rnd sizes' pad j + sizes'.getD j 0) + pad)
      = rnd (rnd (offsetRounded rnd sizes pad j + sizes.getD j 0) + pad)
    rw [ih (fun k hk => h k (by omega)), h j (by omega)]

/-- C14 (amended): on a list of exactly R*C objects laid out by `Layout` (every float32
addition rounded by `rnd`), raising the minimum width of the object at index j by d > 0
grows the width w of its column to max(w, minW_j + d), that is by
e = max(w, minW_j + d) - w, where 0 <= e <= d and e = d exactly when the minimum width
of the object equals the width of its column. Every other column width and every row height
stays; every rectangle keeps its y and its height; rectangles in columns to the left
keep x and width, rectangles in the column of j keep x and get e wider, and rectangles
in columns to the right keep their width; when no addition of the column offsets rounds
before or after the change, rectangles in columns to the right are shifted by exactly
e. -/
theorem C14_widening_one_item_rounded (rnd : ℚ → ℚ) (g : grid4x15)
    (objects : List CanvasObject)
    (cs : ℚ × ℚ) (R C : Nat) (hR : 1 ≤ R) (hC : 1 ≤ C)
    (hRows : g.Rows = R) (hCols : g.Cols = C) (hlen : objects.length = R * C)
    (j : Nat) (hj : j < objects.length) (d : ℚ) (hd : 0 < d) (e : ℚ)
    (he : e = max ((Layout.colWidths g objects).getD (j % C) 0) (objects[j].minW + d)
        - (Layout.colWidths g objects).getD (j % C) 0) :
    ∃ out out', LayoutRounded rnd g objects cs = some out ∧
      LayoutRounded rnd g (objects.set j (objects[j].widen d)) cs = some out' ∧
      (Layout.colWidths g (objects.set j (objects[j].widen d))).getD (j % C) 0
        = (Layout.colWidths g objects).getD (j % C) 0 + e ∧
      0 ≤ e ∧ e ≤ d ∧
      (objects[j].minW = (Layout.colWidths g objects).getD (j % C) 0 ↔ e = d) ∧
      (∀ k, k ≠ j % C →
        (Layout.colWidths g (objects.set j (objects[j].widen d))).getD k 0
          = (Layout.colWidths g objects).getD k 0) ∧
      (∀ r, (Layout.rowHeights g (objects.set j (objects[j].widen d))).getD r 0
          = (Layout.rowHeights g objects).getD r 0) ∧
      (∀ i a a', out[i]? = some a → out'[i]? = some a' →
        a'.y = a.y ∧ a'.h = a.h ∧
        (i % C < j % C → a'.x = a.x ∧ a'.w = a.w) ∧
        (i % C = j % C → a'.x = a.x ∧ a'.w = a.w + e) ∧
        (j % C < i % C → a'.w = a.w)) ∧
      (OffsetsExact rnd (Layout.colWidths g objects) g.HorizontalPad C →
        OffsetsExact rnd (Layout.colWidths g (objects.set j (objects[j].widen d)))
          g.HorizontalPad C →
        ∀ i a a', out[i]? = some a → out'[i]? = some a' → j % C < i % C →
          a'.x = a.x + e) := by
  have hRn : g.Rows.toNat = R := toNat_of_eq_natCast _ _ hRows
  have hCn : g.Cols.toNat = C := toNat_of_eq_natCast _ _ hCols
  have hset := layoutMeasure_set_width R C hC objects j hj (objects[j].widen d) rfl
    (by unfold CanvasObject.widen; simp only []; linarith)
  obtain ⟨hw, hh⟩ := hset
  have hge := layoutMeasure_fst_ge R C hC objects j hj
  unfold Layout.colWidths at he
  unfold Layout.colWidths Layout.rowHeights
  rw [hRn, hCn] at he
  simp only [hRn, hCn]
  have hwiden : (objects[j].widen d).minW = objects[j].minW + d := rfl
  have hcol : (layoutMeasure R C (objects.set j (objects[j].widen d))).1.getD (j % C) 0
      = (layoutMeasure R C objects).1.getD (j % C) 0 + e := by
    rw [hw (j % C), if_pos rfl, he, hwiden]
    ring
  have hother : ∀ k, k ≠ j % C →
      (layoutMeasure R C (objects.set j (objects[j].widen d))).1.getD k 0
        = (layoutMeasure R C objects).1.getD k 0 := by
    intro k hk
    rw [hw k, if_neg hk]
  have he0 : 0 ≤ e := by
    rw [he]
    have := le_max_left ((layoutMeasure R C objects).1.getD (j % C) 0) (objects[j].minW + d)
    linarith
  have hed : e ≤ d := by
    rw [he]
    have : max ((layoutMeasure R C objects).1.getD (j % C) 0) (objects[j].minW + d)
        ≤ (layoutMeasure R C objects).1.getD (j % C) 0 + d :=
      max_le (by linarith) (by linarith)
    linarith
  have hlen' : (objects.set j (objects[j].widen d)).length = R * C := by
    rw [List.length_set]; exact hlen
  have hboth : ∀ i a a',
      (layoutPassesRounded rnd R C g.HorizontalPad g.VerticalPad objects)[i]? = some a →
      (layoutPassesRounded rnd R C g.HorizontalPad g.VerticalPad
        (objects.set j (objects[j].widen d)))[i]? = some a' →
      a.x = offsetRounded rnd (layoutMeasure R C objects).1 g.HorizontalPad (i % C) ∧
      a'.x = offsetRounded rnd (layoutMeasure R C (objects.set j (objects[j].widen d))).1
        g.HorizontalPad (i % C) ∧
      a.y = offsetRounded rnd (layoutMeasure R C objects).2 g.VerticalPad (i / C) ∧
      a'.y = offsetRounded rnd (layoutMeasure R C (objects.set j (objects[j].widen d))).2
        g.VerticalPad (i / C) ∧
      a.w = (layoutMeasure R C objects).1.getD (i % C) 0 ∧
      a'.w = (layoutMeasure R C (objects.set j (objects[j].widen d))).1.getD (i % C) 0 ∧
      a.h = (layoutMeasure R C objects).2.getD (i / C) 0 ∧
      a'.h = (layoutMeasure R C (objects.set j (objects[j].widen d))).2.getD (i / C) 0 ∧
      i % C < C := by
    intro i a a' hi hi'
    have hi1 : i < objects.length := by
      have := (List.getElem?_eq_some_iff.mp hi).1
      rwa [layoutPassesRounded_length] at this
    have hi2 : i < (objects.set j (objects[j].widen d)).length := by
      rw [List.length_set]; exact hi1
    rw [layoutPassesRounded_getElem? rnd R C _ _ objects hlen i hi1] at hi
    rw [layoutPassesRounded_getElem? rnd R C _ _ _ hlen' i hi2] at hi'
    have ha := Option.some.inj hi
    have ha' := Option.some.inj hi'
    subst ha
    subst ha'
    exact ⟨rfl, rfl, rfl, rfl, rfl, rfl, rfl, rfl, Nat.mod_lt _ (by omega)⟩
  refine ⟨_, _, LayoutRounded_eq_some rnd g objects cs (by omega) (by omega),
    LayoutRounded_eq_some rnd g _ cs (by omega) (by omega), hcol, he0, hed, ?_, hother, hh,
    ?_, ?_⟩
  · constructor
    · intro heq
      rw [he, ← heq, max_eq_right (by linarith)]
      ring
    · intro hed'
      rcases le_total ((layoutMeasure R C objects).1.getD (j % C) 0)
        (objects[j].minW + d) with hle | hle
      · rw [max_eq_right hle] at he
        linarith
      · rw [max_eq_left hle] at he
        linarith
  · rw [hRn, hCn]
    intro i a a' hi hi'
    obtain ⟨hax, hax', hay, hay', haw, haw', hah, hah', _⟩ := hboth i a a' hi hi'
    have hy := offsetRounded_congr rnd (layoutMeasure R C objects).2
      (layoutMeasure R C (objects.set j (objects[j].widen d))).2 g.VerticalPad (i / C)
      (fun k _ => hh k)
    refine ⟨by rw [hay, hay', hy], by rw [hah, hah', hh], ?_, ?_, ?_⟩
    · intro hlt
      have hx := offsetRounded_congr rnd (layoutMeasure R C objects).1
        (layoutMeasure R C (objects.set j (objects[j].widen d))).1 g.HorizontalPad (i % C)
        (fun k hk => hother k (by omega))
      exact ⟨by rw [hax, hax', hx], by rw [haw, haw', hother _ (by omega)]⟩
    · intro heq
      have hx := offsetRounded_congr rnd (layoutMeasure R C objects).1
        (layoutMeasure R C (objects.set j (objects[j].widen d))).1 g.HorizontalPad (i % C)
        (fun k hk => hother k (by omega))
      exact ⟨by rw [hax, hax', hx], by rw [haw, haw', heq, hcol]⟩
    · intro hgt
      rw [haw, haw', hother _ (by omega)]
  · rw [hRn, hCn]
    intro hex hex' i a a' hi hi' hgt
    obtain ⟨hax, hax', _, _, _, _, _, _, hic⟩ := hboth i a a' hi hi'
    rw [hax, hax', offsetRounded_of_exact rnd _ _ C hex _ hic,
      offsetRounded_of_exact rnd _ _ C hex' _ hic,
      offsetSum_grow (layoutMeasure R C objects).1
        (layoutMeasure R C (objects.set j (objects[j].widen d))).1 g.HorizontalPad (j % C) e
        hcol hother (i % C), if_pos hgt]

/-- C14 (amended) in float32 at `sampleObjects`, raising by 2 the minimum width 10 of
the object at index 0, the widest of column 0: the column grows from 10 to 12 and, no
addition rounding (0 + 10, 10 + 5, 0 + 12, 12 + 5), the rectangles of column 1 move by
exactly 2. -/
theorem C14_widening_one_item_rounded_witness :
    ∃ out out', LayoutRounded f32 sampleGrid sampleObjects (0, 0) = some out ∧
      LayoutRounded f32 sampleGrid
        (sampleObjects.set 0 (CanvasObject.widen (sampleObjects.get ⟨0, by decide⟩) 2))
        (0, 0) = some out' ∧
      (Layout.colWidths sampleGrid
          (sampleObjects.set 0
            (CanvasObject.widen (sampleObjects.get ⟨0, by decide⟩) 2))).getD (0 % 2) 0
        = (Layout.colWidths sampleGrid sampleObjects).getD (0 % 2) 0 + 2 ∧
      ∀ i a a', out[i]? = some a → out'[i]? = some a' → 0 % 2 < i % 2 →
        a'.x = a.x + 2 := by
  have hw0 : (Layout.colWidths sampleGrid sampleObjects).getD 0 0 = 10 := by
    show (layoutMeasure 2 2 sampleObjects).1.getD 0 0 = 10
    norm_num [sampleObjects, layoutMeasure, layoutMeasureLoop, layoutMeasureStep]
  have hw0' : (Layout.colWidths sampleGrid
      (sampleObjects.set 0
        (CanvasObject.widen (sampleObjects.get ⟨0, by decide⟩) 2))).getD 0 0 = 12 := by
    show (layoutMeasure 2 2 (sampleObjects.set 0
        (CanvasObject.widen (sampleObjects.get ⟨0, by decide⟩) 2))).1.getD 0 0 = 12
    norm_num [sampleObjects, layoutMeasure, layoutMeasureLoop, layoutMeasureStep,
      CanvasObject.widen]
  have hex' : OffsetsExact f32
      (Layout.colWidths sampleGrid
        (sampleObjects.set 0 (CanvasObject.widen (sampleObjects.get ⟨0, by decide⟩) 2)))
      sampleGrid.HorizontalPad 2 := by
    intro c hc
    have hc0 : c = 0 := by omega
    subst hc0
    have hp : sampleGrid.HorizontalPad = 5 := rfl
    have n12 := f32_natCast 12 (by norm_num)
    have n17 := f32_natCast 17 (by norm_num)
    push_cast at n12 n17
    rw [hw0', hp]
    simp only [offsetSum, Finset.sum_range_zero]
    norm_num
    exact ⟨n12, n17⟩
  obtain ⟨out, out', h1, h2, h3, _, _, _, _, _, _, h4⟩ :=
    C14_widening_one_item_rounded f32 sampleGrid sampleObjects (0, 0) 2 2
      (by decide) (by decide) rfl rfl rfl 0 (by decide) 2 (by norm_num) 2
      (by
        show (2 : ℚ) = max ((Layout.colWidths sampleGrid sampleObjects).getD 0 0)
          ((sampleObjects.get ⟨0, by decide⟩).minW + 2)
          - (Layout.colWidths sampleGrid sampleObjects).getD 0 0
        rw [hw0]
        norm_num [sampleObjects])
  exact ⟨out, out', h1, h2, h3, h4 sample_cols_exact hex'⟩

/-! ## Arrow heads in float32 and in exact arithmetic

`createArrowHead` computes in `float32` and calls `math.Hypot`, whose result is
irrational on most oblique segments. `createArrowHeadIn` is the same function with the
coordinates in any field, the rounding of every float32 operation as a parameter `rnd`
and the call `float32(math.Hypot(float64(dx), float64(dy)))` as a parameter `hyp`: over
the rationals with `rnd = f32` it is the arithmetic of the source, over the reals with
`rnd = id` and the real square root it is exact arithmetic on every segment. -/

/-- A line with coordinates in `K`. -/
structure LineIn (K : Type) where
  x1 : K
  y1 : K
  x2 : K
  y2 : K

/-- The squared length of a line. -/
def LineIn.sqLength {K : Type} [Field K] (l : LineIn K) : K :=
  (l.x2 - l.x1) * (l.x2 - l.x1) + (l.y2 - l.y1) * (l.y2 - l.y1)

/-- The function `createArrowHead` (lines 547-579) with coordinates in a field `K`:
every float32 operation is rounded by `rnd` (the negation `-uy` is exact) and `hyp` is
the call `float32(math.Hypot(float64(dx), float64(dy)))`. -/
def createArrowHeadIn {K : Type} [Field K] [DecidableEq K] (rnd : K → K)
    (hyp : K → K → K) (x1 y1 x2 y2 size : K) : List (LineIn K) :=
  let dx := rnd (x2 - x1)
  let dy := rnd (y2 - y1)
  let length := hyp dx dy
  if length = 0 then []
  else
    let ux := rnd (dx / length)
    let uy := rnd (dy / length)
    let px := -uy
    let py := ux
    let leftX := rnd (rnd (x2 - rnd (ux * size)) + rnd (rnd (px * size) / 2))
    let leftY := rnd (rnd (y2 - rnd (uy * size)) + rnd (rnd (py * size) / 2))
    let rightX := rnd (rnd (x2 - rnd (ux * size)) - rnd (rnd (px * size) / 2))
    let rightY := rnd (rnd (y2 - rnd (uy * size)) - rnd (rnd (py * size) / 2))
    [⟨x2, y2, leftX, leftY⟩, ⟨x2, y2, rightX, rightY⟩]

/-- The values `createArrowHead` computes one after the other, in exact arithmetic, for
a segment whose length is `l`. -/
def arrowHeadValues (x1 y1 x2 y2 size l : ℚ) : List ℚ :=
  [x2 - x1, y2 - y1, l, (x2 - x1) / l, (y2 - y1) / l,
   (x2 - x1) / l * size, (y2 - y1) / l * size,
   -((y2 - y1) / l) * size, -((y2 - y1) / l) * size / 2, (x2 - x1) / l * size / 2,
   x2 - (x2 - x1) / l * size, y2 - (y2 - y1) / l * size,
   x2 - (x2 - x1) / l * size + -((y2 - y1) / l) * size / 2,
   y2 - (y2 - y1) / l * size + (x2 - x1) / l * size / 2,
   x2 - (x2 - x1) / l * size - -((y2 - y1) / l) * size / 2,
   y2 - (y2 - y1) / l * size - (x2 - x1) / l * size / 2]

/-- No operation of `createArrowHead` rounds on this input: `hyp` returns the length of
the segment, a positive number `l` with l*l = dx*dx + dy*dy, and every value computed
on the way is left as it is by `rnd`. -/
def ArrowHeadExact (rnd : ℚ → ℚ) (hyp : ℚ → ℚ → ℚ) (x1 y1 x2 y2 size : ℚ) : Prop :=
  0 < hyp (x2 - x1) (y2 - y1) ∧
  hyp (x2 - x1) (y2 - y1) * hyp (x2 - x1) (y2 - y1)
    = (x2 - x1) * (x2 - x1) + (y2 - y1) * (y2 - y1) ∧
  ∀ v ∈ arrowHeadValues x1 y1 x2 y2 size (hyp (x2 - x1) (y2 - y1)), rnd v = v

/-- Over the rationals, in exact arithmetic and with the rational square root,
`createArrowHeadIn` is `createArrowHead`. -/
theorem createArrowHeadIn_id_hypot (x1 y1 x2 y2 size : ℚ) :
    (createArrowHeadIn id hypot x1 y1 x2 y2 size).map
        (fun l => (⟨l.x1, l.y1, l.x2, l.y2⟩ : Line))
      = createArrowHead x1 y1 x2 y2 size := by
  unfold createArrowHeadIn createArrowHead
  simp only [id]
  by_cases h : hypot (x2 - x1) (y2 - y1) = 0
  · rw [if_pos h, if_pos h]
    rfl
  · rw [if_neg h, if_neg h]
    rfl

/-- In exact arithmetic, on a segment whose length is not 0, the arrow head is the two
wings of the source's formulas. -/
theorem createArrowHeadIn_id {K : Type} [Field K] [DecidableEq K] (hyp : K → K → K)
    (x1 y1 x2 y2 size : K) (h : hyp (x2 - x1) (y2 - y1) ≠ 0) :
    createArrowHeadIn id hyp x1 y1 x2 y2 size
      = [⟨x2, y2,
          x2 - (x2 - x1) / hyp (x2 - x1) (y2 - y1) * size
            + -((y2 - y1) / hyp (x2 - x1) (y2 - y1)) * size / 2,
          y2 - (y2 - y1) / hyp (x2 - x1) (y2 - y1) * size
            + (x2 - x1) / hyp (x2 - x1) (y2 - y1) * size / 2⟩,
         ⟨x2, y2,
          x2 - (x2 - x1) / hyp (x2 - x1) (y2 - y1) * size
            - -((y2 - y1) / hyp (x2 - x1) (y2 - y1)) * size / 2,
          y2 - (y2 - y1) / hyp (x2 - x1) (y2 - y1) * size
            - (x2 - x1) / hyp (x2 - x1) (y2 - y1) * size / 2⟩] := by
  unfold createArrowHeadIn
  simp only [id]
  rw [if_neg h]

/-- When no operation rounds, the rounded arrow head is the arrow head of exact
arithmetic. -/
theorem createArrowHeadIn_of_exact (rnd : ℚ → ℚ) (hyp : ℚ → ℚ → ℚ)
    (x1 y1 x2 y2 size : ℚ) (h : ArrowHeadExact rnd hyp x1 y1 x2 y2 size) :
    createArrowHeadIn rnd hyp x1 y1 x2 y2 size
      = createArrowHeadIn id hyp x1 y1 x2 y2 size := by
  obtain ⟨hpos, _, hv⟩ := h
  have hne : hyp (x2 - x1) (y2 - y1) ≠ 0 := ne_of_gt hpos
  have e1 := hv (x2 - x1) (by simp [arrowHeadValues])
  have e2 := hv (y2 - y1) (by simp [arrowHeadValues])
  have e3 := hv ((x2 - x1) / hyp (x2 - x1) (y2 - y1)) (by simp [arrowHeadValues])
  have e4 := hv ((y2 - y1) / hyp (x2 - x1) (y2 - y1)) (by simp [arrowHeadValues])
  have e5 := hv ((x2 - x1) / hyp (x2 - x1) (y2 - y1) * size) (by simp [arrowHeadValues])
  have e6 := hv ((y2 - y1) / hyp (x2 - x1) (y2 - y1) * size) (by simp [arrowHeadValues])
  have e7 := hv (-((y2 - y1) / hyp (x2 - x1) (y2 - y1)) * size)
    (by simp [arrowHeadValues])
  have e8 := hv (-((y2 - y1) / hyp (x2 - x1) (y2 - y1)) * size / 2)
    (by simp [arrowHeadValues])
  have e9 := hv ((x2 - x1) / hyp (x2 - x1) (y2 - y1) * size / 2)
    (by simp [arrowHeadValues])
  have e10 := hv (x2 - (x2 - x1) / hyp (x2 - x1) (y2 - y1) * size)
    (by simp [arrowHeadValues])
  have e11 := hv (y2 - (y2 - y1) / hyp (x2 - x1) (y2 - y1) * size)
    (by simp [arrowHeadValues])
  have e12 := hv (x2 - (x2 - x1) / hyp (x2 - x1) (y2 - y1) * size
      + -((y2 - y1) / hyp (x2 - x1) (y2 - y1)) * size / 2) (by simp [arrowHeadValues])
  have e13 := hv (y2 - (y2 - y1) / hyp (x2 - x1) (y2 - y1) * size
      + (x2 - x1) / hyp (x2 - x1) (y2 - y1) * size / 2) (by simp [arrowHeadValues])
  have e14 := hv (x2 - (x2 - x1) / hyp (x2 - x1) (y2 - y1) * size
      - -((y2 - y1) / hyp (x2 - x1) (y2 - y1)) * size / 2) (by simp [arrowHeadValues])
  have e15 := hv (y2 - (y2 - y1) / hyp (x2 - x1) (y2 - y1) * size
      - (x2 - x1) / hyp (x2 - x1) (y2 - y1) * size / 2) (by simp [arrowHeadValues])
  rw [createArrowHeadIn_id hyp x1 y1 x2 y2 size hne]
  unfold createArrowHeadIn
  simp only [e1, e2, if_neg hne, e3, e4, e5, e6, e7, e8, e9, e10, e11, e12, e13, e14, e15]

/-- The call `float32(math.Hypot(float64(dx), float64(dy)))` on an axis-aligned segment,
where `math.Hypot` returns |dx| or |dy|; it is used on such segments only. -/
def hypot32 (dx dy : ℚ) : ℚ := f32 (hypot dx dy)

/-- On the segment (40,20)->(100,20) of the spec's example, with size 8, no operation
of `createArrowHead` rounds in float32: all values are natural numbers below 2^24. -/
theorem spec_head_exact : ArrowHeadExact f32 hypot32 40 20 100 20 8 := by
  have n0 : f32 0 = 0 := f32_zero
  have n1 := f32_natCast 1 (by norm_num)
  have n4 := f32_natCast 4 (by norm_num)
  have n8 := f32_natCast 8 (by norm_num)
  have n16 := f32_natCast 16 (by norm_num)
  have n20 := f32_natCast 20 (by norm_num)
  have n24 := f32_natCast 24 (by norm_num)
  have n60 := f32_natCast 60 (by norm_num)
  have n92 := f32_natCast 92 (by norm_num)
  push_cast at n1 n4 n8 n16 n20 n24 n60 n92
  have hh : hypot32 (100 - 40) (20 - 20) = 60 := by
    unfold hypot32
    rw [hypot_of_length _ _ 60 (by norm_num) (by norm_num), n60]
  unfold ArrowHeadExact
  rw [hh]
  refine ⟨by norm_num, by norm_num, ?_⟩
  simp only [arrowHeadValues, List.forall_mem_cons]
  norm_num [n0, n1, n4, n8, n16, n20, n24, n60, n92]

/-- In exact arithmetic, on a segment of length `l`, not 0, the two wings start at
(x2,y2) and end at (x2,y2) - u*size + p*size/2 and (x2,y2) - u*size - p*size/2 for the
unit vector u = (dx/l, dy/l) and p = (-u.y, u.x); the difference of the two end points
is orthogonal to u and their midpoint lies on the line of the segment. -/
theorem arrow_head_wings_of_length {K : Type} [Field K] [DecidableEq K]
    (hyp : K → K → K) (x1 y1 x2 y2 size l ux uy : K) (h2 : (2 : K) ≠ 0) (hl : l ≠ 0)
    (hlen : l * l = (x2 - x1) * (x2 - x1) + (y2 - y1) * (y2 - y1))
    (hhyp : hyp (x2 - x1) (y2 - y1) = l)
    (hux : ux = (x2 - x1) / l) (huy : uy = (y2 - y1) / l) :
    ux * ux + uy * uy = 1 ∧
    createArrowHeadIn id hyp x1 y1 x2 y2 size
      = [⟨x2, y2, x2 - ux * size + -uy * size / 2, y2 - uy * size + ux * size / 2⟩,
         ⟨x2, y2, x2 - ux * size - -uy * size / 2, y2 - uy * size - ux * size / 2⟩] ∧
    ((x2 - ux * size + -uy * size / 2) - (x2 - ux * size - -uy * size / 2)) * ux
      + ((y2 - uy * size + ux * size / 2) - (y2 - uy * size - ux * size / 2)) * uy = 0 ∧
    (((x2 - ux * size + -uy * size / 2) + (x2 - ux * size - -uy * size / 2)) / 2 - x2) * uy
      - (((y2 - uy * size + ux * size / 2) + (y2 - uy * size - ux * size / 2)) / 2 - y2)
          * ux = 0 := by
  have hhead := createArrowHeadIn_id hyp x1 y1 x2 y2 size (by rw [hhyp]; exact hl)
  rw [hhyp, ← hux, ← huy] at hhead
  refine ⟨?_, hhead, ?_, ?_⟩
  · rw [hux, huy]
    field_simp
    rw [← hlen]
  · ring
  · field_simp
    ring

/-- In exact arithmetic, on a segment of length `l`, not 0, both wings have the squared
length size*size + (size/2)*(size/2). -/
theorem arrow_head_sqLength_of_length {K : Type} [Field K] [DecidableEq K]
    (hyp : K → K → K) (x1 y1 x2 y2 size l : K) (h2 : (2 : K) ≠ 0) (hl : l ≠ 0)
    (hlen : l * l = (x2 - x1) * (x2 - x1) + (y2 - y1) * (y2 - y1))
    (hhyp : hyp (x2 - x1) (y2 - y1) = l) :
    ∃ a b, createArrowHeadIn id hyp x1 y1 x2 y2 size = [a, b] ∧
      a.sqLength = b.sqLength ∧
      a.sqLength = size * size + (size / 2) * (size / 2) ∧
      a.sqLength = 5 / 4 * (size * size) := by
  obtain ⟨hu, hhead, _, _⟩ := arrow_head_wings_of_length hyp x1 y1 x2 y2 size l
    ((x2 - x1) / l) ((y2 - y1) / l) h2 hl hlen hhyp rfl rfl
  have h4 : (4 : K) ≠ 0 := by
    have e : (4 : K) = 2 * 2 := by norm_num
    rw [e]
    exact mul_ne_zero h2 h2
  have ha : ∀ ux uy : K, ux * ux + uy * uy = 1 →
      (x2 - ux * size + -uy * size / 2 - x2) * (x2 - ux * size + -uy * size / 2 - x2)
        + (y2 - uy * size + ux * size / 2 - y2) * (y2 - uy * size + ux * size / 2 - y2)
        = 5 / 4 * (size * size) := by
    intro ux uy h
    have e : (x2 - ux * size + -uy * size / 2 - x2) * (x2 - ux * size + -uy * size / 2 - x2)
        + (y2 - uy * size + ux * size / 2 - y2) * (y2 - uy * size + ux * size / 2 - y2)
        = 5 / 4 * (size * size) * (ux * ux + uy * uy) := by
      field_simp
      ring
    rw [e, h, mul_one]
  have hb : ∀ ux uy : K, ux * ux + uy * uy = 1 →
      (x2 - ux * size - -uy * size / 2 - x2) * (x2 - ux * size - -uy * size / 2 - x2)
        + (y2 - uy * size - ux * size / 2 - y2) * (y2 - uy * size - ux * size / 2 - y2)
        = 5 / 4 * (size * size) := by
    intro ux uy h
    have e : (x2 - ux * size - -uy * size / 2 - x2) * (x2 - ux * size - -uy * size / 2 - x2)
        + (y2 - uy * size - ux * size / 2 - y2) * (y2 - uy * size - ux * size / 2 - y2)
        = 5 / 4 * (size * size) * (ux * ux + uy * uy) := by
      field_simp
      ring
    rw [e, h, mul_one]
  refine ⟨_, _, hhead, ?_, ?_, ?_⟩
  · unfold LineIn.sqLength
    simp only []
    rw [ha _ _ hu, hb _ _ hu]
  · unfold LineIn.sqLength
    simp only []
    rw [ha _ _ hu]
    field_simp
    ring
  · unfold LineIn.sqLength
    simp only []
    exact ha _ _ hu

/-- C15 (amended): in exact arithmetic over the reals, for every segment of non-zero
length and any size s, `createArrowHead` returns two wings of the same length, and the
squared distance from (x2,y2) to each wing end point is s*s + (s/2)*(s/2) = (5/4)*s*s
(80 for the size 8 of every route, not 64): a wing reaches s back along the segment and
s/2 to the side. In the arithmetic of the source (every float32 operation rounded by
`rnd`) the same holds whenever no operation rounds. -/
theorem C15_wing_length_exact :
    (∀ x1 y1 x2 y2 size : ℝ, (x1 ≠ x2 ∨ y1 ≠ y2) →
      ∃ a b,
        createArrowHeadIn id (fun a b => Real.sqrt (a * a + b * b)) x1 y1 x2 y2 size
          = [a, b] ∧
        a.sqLength = b.sqLength ∧
        a.sqLength = size * size + (size / 2) * (size / 2) ∧
        a.sqLength = 5 / 4 * (size * size)) ∧
    (∀ (rnd : ℚ → ℚ) (hyp : ℚ → ℚ → ℚ) (x1 y1 x2 y2 size : ℚ),
      ArrowHeadExact rnd hyp x1 y1 x2 y2 size →
      ∃ a b, createArrowHeadIn rnd hyp x1 y1 x2 y2 size = [a, b] ∧
        a.sqLength = b.sqLength ∧
        a.sqLength = size * size + (size / 2) * (size / 2) ∧
        a.sqLength = 5 / 4 * (size * size)) := by
  constructor
  · intro x1 y1 x2 y2 size hne
    have hpos : 0 < (x2 - x1) * (x2 - x1) + (y2 - y1) * (y2 - y1) := by
      rcases hne with h | h
      · have h1 : x2 - x1 ≠ 0 := sub_ne_zero.mpr (Ne.symm h)
        have := mul_self_pos.mpr h1
        have := mul_self_nonneg (y2 - y1)
        linarith
      · have h1 : y2 - y1 ≠ 0 := sub_ne_zero.mpr (Ne.symm h)
        have := mul_self_pos.mpr h1
        have := mul_self_nonneg (x2 - x1)
        linarith
    exact arrow_head_sqLength_of_length (fun a b => Real.sqrt (a * a + b * b))
      x1 y1 x2 y2 size _ (by norm_num) (ne_of_gt (Real.sqrt_pos.mpr hpos))
      (Real.mul_self_sqrt (le_of_lt hpos)) rfl
  · intro rnd hyp x1 y1 x2 y2 size hex
    rw [createArrowHeadIn_of_exact rnd hyp x1 y1 x2 y2 size hex]
    exact arrow_head_sqLength_of_length hyp x1 y1 x2 y2 size _ (by norm_num)
      (ne_of_gt hex.1) hex.2.1 rfl

/-- C15 (amended) at two segments with size 8: in exact arithmetic the oblique segment
(0,0)->(1,1), and in float32 the segment (40,20)->(100,20) of the spec's example; the
wings have squared length 80. -/
theorem C15_wing_length_exact_witness :
    (∃ a b,
      createArrowHeadIn id (fun a b => Real.sqrt (a * a + b * b)) 0 0 1 1 8 = [a, b] ∧
      a.sqLength = 80 ∧ b.sqLength = 80) ∧
    (∃ a b, createArrowHeadIn f32 hypot32 40 20 100 20 8 = [a, b] ∧
      a.sqLength = 80 ∧ b.sqLength = 80) := by
  constructor
  · obtain ⟨a, b, h1, h2, _, h3⟩ :=
      C15_wing_length_exact.1 0 0 1 1 8 (Or.inl (by norm_num))
    refine ⟨a, b, h1, ?_, ?_⟩
    · rw [h3]; norm_num
    · rw [← h2, h3]; norm_num
  · obtain ⟨a, b, h1, h2, _, h3⟩ :=
      C15_wing_length_exact.2 f32 hypot32 40 20 100 20 8 spec_head_exact
    refine ⟨a, b, h1, ?_, ?_⟩
    · rw [h3]; norm_num
    · rw [← h2, h3]; norm_num

/-! ## The horizontal route in float32 -/

/-- The function `drawHorizontalArrow` (lines 623-646) with every float32 operation
rounded by `rnd`: the objects it adds to the container, in order. -/
def drawHorizontalArrowRounded (rnd : ℚ → ℚ) (hyp : ℚ → ℚ → ℚ)
    (parentX parentY parentW childX childW : ℚ) : List (LineIn ℚ) :=
  let startX := rnd (parentX + rnd (parentW / 2))
  let endX := rnd (childX + rnd (childW / 2))
  let startY := rnd (parentY + rnd (parentW / 2))
  let endY := startY
  let ends : ℚ × ℚ :=
    if endX > startX then (rnd (parentX + parentW), childX)
    else (parentX, rnd (childX + childW))
  let startX := ends.1
  let endX := ends.2
  ⟨startX, startY, endX, endY⟩ :: createArrowHeadIn rnd hyp startX startY endX endY 8

/-- In exact arithmetic and with the rational square root,
`drawHorizontalArrowRounded` is `drawHorizontalArrow`. -/
theorem drawHorizontalArrowRounded_id (parentX parentY parentW childX childW : ℚ) :
    (drawHorizontalArrowRounded id hypot parentX parentY parentW childX childW).map
        (fun l => (⟨l.x1, l.y1, l.x2, l.y2⟩ : Line))
      = drawHorizontalArrow parentX parentY parentW childX childW := by
  unfold drawHorizontalArrowRounded drawHorizontalArrow
  simp only [id, List.map_cons, createArrowHeadIn_id_hypot]

/-- The arrow head of the spec's example in float32: the segment (40,20)->(100,20) and
size 8 give the wings to (92,24) and (92,16). -/
theorem spec_head :
    createArrowHeadIn f32 hypot32 40 20 100 20 8
      = [⟨100, 20, 92, 24⟩, ⟨100, 20, 92, 16⟩] := by
  rw [createArrowHeadIn_of_exact f32 hypot32 40 20 100 20 8 spec_head_exact]
  have hh : hypot32 (100 - 40) (20 - 20) = 60 := by
    have n60 := f32_natCast 60 (by norm_num)
    push_cast at n60
    unfold hypot32
    rw [hypot_of_length _ _ 60 (by norm_num) (by norm_num), n60]
  rw [createArrowHeadIn_id hypot32 40 20 100 20 8 (by rw [hh]; norm_num), hh]
  norm_num

/-- C4, as stated, fails for a parent that is not square: for parent (0,0,40,20) and
child (100,0,40,20), of equal y, the horizontal route is the segment (40,20)->(100,20)
with its arrow head, in exact arithmetic and in float32; its y is
parent.y + parent.width/2 = 20, while parent.y + parent.height/2 is 10. -/
theorem C4_wide_parent_counterexample :
    drawArrow 2 1 ⟨46, 46, 0, 0, 40, 20⟩ ⟨46, 46, 100, 0, 40, 20⟩
      = ⟨2, 1, ArrowKind.horizontal,
          [⟨40, 20, 100, 20⟩, ⟨100, 20, 92, 24⟩, ⟨100, 20, 92, 16⟩]⟩ ∧
    drawHorizontalArrowRounded f32 hypot32 0 0 40 100 40
      = [⟨40, 20, 100, 20⟩, ⟨100, 20, 92, 24⟩, ⟨100, 20, 92, 16⟩] ∧
    (20 : ℚ) ≠ 0 + 20 / 2 := by
  refine ⟨?_, ?_, by norm_num⟩
  · rw [drawArrow_horizontal 2 1 ⟨46, 46, 0, 0, 40, 20⟩ ⟨46, 46, 100, 0, 40, 20⟩ rfl]
    show (⟨2, 1, ArrowKind.horizontal, drawHorizontalArrow 0 0 40 100 40⟩ : Route) = _
    rw [drawHorizontalArrow_right 0 0 40 100 40 (by norm_num)]
    have e : (0 : ℚ) + 40 / 2 = 20 := by norm_num
    have e2 : (0 : ℚ) + 40 = 40 := by norm_num
    simp only [e, e2]
    rw [createArrowHead_east 40 20 100 8 (by norm_num)]
    norm_num
  · have n20 := f32_natCast 20 (by norm_num)
    have n40 := f32_natCast 40 (by norm_num)
    have n120 := f32_natCast 120 (by norm_num)
    push_cast at n20 n40 n120
    unfold drawHorizontalArrowRounded
    norm_num [n20, n40, n120, spec_head]

/-- C4 (amended): for any parent and child rectangles with equal y the route is the
horizontal one: a single straight segment followed by its arrow head, both end points
of the segment at y = parent.y + parent.width/2 (as float32 computes it), which is the
vertical midline of the row, parent.y + parent.height/2, whenever the parent is square.
Every rectangle `Layout` assigns to the R*C cells of a grid whose cells all have one
square minimum size s x s, as the 46 x 46 buttons of the editor, is square, s x s, also
when objects no wider than s, as the lines drawn so far, follow the cells in the
container. For parent (0,0,40,40) and child (100,0,40,40) the segment runs from (40,20)
to (100,20). -/
theorem C4_horizontal_midline_of_square_parent :
    (∀ (rnd : ℚ → ℚ) (hyp : ℚ → ℚ → ℚ) (parent child : CanvasObject),
      parent.y = child.y →
      selectArrow parent.x parent.y child.x child.y = ArrowKind.horizontal ∧
      ∃ l, drawHorizontalArrowRounded rnd hyp parent.x parent.y parent.w child.x child.w
          = l :: createArrowHeadIn rnd hyp l.x1 l.y1 l.x2 l.y2 8 ∧
        l.y1 = rnd (parent.y + rnd (parent.w / 2)) ∧
        l.y2 = rnd (parent.y + rnd (parent.w / 2)) ∧
        (parent.w = parent.h →
          l.y1 = rnd (parent.y + rnd (parent.h / 2)) ∧
          l.y2 = rnd (parent.y + rnd (parent.h / 2)))) ∧
    (∀ (rnd : ℚ → ℚ) (g : grid4x15) (cells extras : List CanvasObject) (cs : ℚ × ℚ)
      (R C : Nat) (s : ℚ), 1 ≤ R → 1 ≤ C → g.Rows = R → g.Cols = C →
      cells.length = R * C → 0 ≤ s → (∀ o ∈ cells, o.minW = s ∧ o.minH = s) →
      (∀ e ∈ extras, e.minW ≤ s) →
      ∃ out, LayoutRounded rnd g (cells ++ extras) cs = some out ∧
        ∀ (i : Nat) (p : CanvasObject), i < R * C → out[i]? = some p →
          p.w = s ∧ p.h = s ∧ p.w = p.h) ∧
    drawHorizontalArrowRounded f32 hypot32 0 0 40 100 40
      = [⟨40, 20, 100, 20⟩, ⟨100, 20, 92, 24⟩, ⟨100, 20, 92, 16⟩] ∧
    drawArrow 2 1 ⟨46, 46, 0, 0, 40, 40⟩ ⟨46, 46, 100, 0, 40, 40⟩
      = ⟨2, 1, ArrowKind.horizontal,
          [⟨40, 20, 100, 20⟩, ⟨100, 20, 92, 24⟩, ⟨100, 20, 92, 16⟩]⟩ := by
  refine ⟨?_, ?_, ?_, ?_⟩
  · intro rnd hyp parent child hy
    refine ⟨selectArrow_horizontal _ _ _ _ hy, ?_⟩
    unfold drawHorizontalArrowRounded
    exact ⟨_, rfl, rfl, rfl, fun h => by rw [h]; exact ⟨rfl, rfl⟩⟩
  · intro rnd g cells extras cs R C s hR hC hRows hCols hlen hs hall hextras
    have hRn : g.Rows.toNat = R := toNat_of_eq_natCast _ _ hRows
    have hCn : g.Cols.toNat = C := toNat_of_eq_natCast _ _ hCols
    obtain ⟨hcw, hrh⟩ := layoutMeasure_uniform R C cells s hs hR hC hlen hall
    have hsnd := layoutMeasure_append_snd R C (by omega) cells extras hlen
    have hfst := layoutMeasure_append_fst R C cells extras hlen
      (fun k e hk => by
        rw [hcw _ (Nat.mod_lt _ (by omega))]
        exact hextras e (List.getElem?_mem hk))
    refine ⟨_, LayoutRounded_eq_some rnd g (cells ++ extras) cs (by omega) (by omega), ?_⟩
    rw [hRn, hCn]
    intro i p hin hi
    have hi1 : i < (cells ++ extras).length := by
      have := (List.getElem?_eq_some_iff.mp hi).1
      rwa [layoutPassesRounded_length] at this
    obtain ⟨hir, hic⟩ := flat_index_bounds R C i hin
    rw [layoutPassesRounded_getElem?_inside rnd R C _ _ (cells ++ extras) i hi1 hin,
      hfst, hsnd] at hi
    have hp := Option.some.inj hi
    have hw : p.w = s := by
      rw [← hp]
      exact hcw _ hic
    have hh : p.h = s := by
      rw [← hp]
      exact hrh _ hir
    exact ⟨hw, hh, by rw [hw, hh]⟩
  · have n20 := f32_natCast 20 (by norm_num)
    have n40 := f32_natCast 40 (by norm_num)
    have n120 := f32_natCast 120 (by norm_num)
    push_cast at n20 n40 n120
    unfold drawHorizontalArrowRounded
    norm_num [n20, n40, n120, spec_head]
  · rw [drawArrow_horizontal 2 1 ⟨46, 46, 0, 0, 40, 40⟩ ⟨46, 46, 100, 0, 40, 40⟩ rfl]
    show (⟨2, 1, ArrowKind.horizontal, drawHorizontalArrow 0 0 40 100 40⟩ : Route) = _
    rw [drawHorizontalArrow_right 0 0 40 100 40 (by norm_num)]
    have e : (0 : ℚ) + 40 / 2 = 20 := by norm_num
    have e2 : (0 : ℚ) + 40 = 40 := by norm_num
    simp only [e, e2]
    rw [createArrowHead_east 40 20 100 8 (by norm_num)]
    norm_num

/-- C4 (amended) in float32 at the grid of the editor followed by one line of minimum
size 1 x 1: every button is laid out as a 46 x 46 square, and two buttons of one row,
square and of equal y, are joined by a segment at y = parent.y + parent.height/2. -/
theorem C4_horizontal_midline_of_square_parent_witness :
    (∃ out, LayoutRounded f32 editorGrid (editorObjects ++ [⟨1, 1, 0, 0, 0, 0⟩]) (0, 0)
        = some out ∧
      ∀ (i : Nat) (p : CanvasObject), i < 15 * 4 → out[i]? = some p →
        p.w = 46 ∧ p.h = 46 ∧ p.w = p.h) ∧
    (∃ l, drawHorizontalArrowRounded f32 hypot32 0 69 46 69 46
        = l :: createArrowHeadIn f32 hypot32 l.x1 l.y1 l.x2 l.y2 8 ∧
      l.y1 = f32 (69 + f32 (46 / 2)) ∧ l.y2 = f32 (69 + f32 (46 / 2))) := by
  constructor
  · exact C4_horizontal_midline_of_square_parent.2.1 f32 editorGrid editorObjects
      [⟨1, 1, 0, 0, 0, 0⟩] (0, 0) 15 4 46 (by decide) (by decide) rfl rfl
      (by simp [editorObjects]) (by norm_num)
      (fun o ho => by
        have h := List.eq_of_mem_replicate ho
        rw [h]
        exact ⟨rfl, rfl⟩)
      (fun e he => by
        have h := List.eq_of_mem_singleton he
        rw [h]
        norm_num)
  · obtain ⟨_, l, h1, _, _, h2⟩ := C4_horizontal_midline_of_square_parent.1 f32 hypot32
      ⟨46, 46, 0, 69, 46, 46⟩ ⟨46, 46, 69, 69, 46, 46⟩ rfl
    exact ⟨l, h1, (h2 rfl).1, (h2 rfl).2⟩

/-! ## The facing edges in float32 -/

theorem roundHalfEven_tie (m : ℤ) :
    roundHalfEven ((m : ℚ) + 1 / 2) = if m % 2 = 0 then m else m + 1 := by
  have hf : ⌊(m : ℚ) + 1 / 2⌋ = m := by
    rw [Int.floor_eq_iff]
    constructor <;> linarith
  unfold roundHalfEven
  rw [hf, if_neg (by linarith), if_neg (by linarith)]

/-- One rounding of a positive number in the normal range that lies midway between two
float32 values, `m` and `m + 1` units of `2^(e-23)`: the tie goes to the even one. -/
theorem f32_eq_tie (q : ℚ) (e m : ℤ) (hlo : (2 : ℚ) ^ e ≤ q) (hhi : q < (2 : ℚ) ^ (e + 1))
    (he : -126 ≤ e) (hmid : q / (2 : ℚ) ^ (e - 23) = (m : ℚ) + 1 / 2) :
    f32 q = ((if m % 2 = 0 then m else m + 1 : ℤ) : ℚ) * (2 : ℚ) ^ (e - 23) := by
  have hpos : 0 < q := lt_of_lt_of_le (zpow_pos (by norm_num) e) hlo
  have hq : q ≠ 0 := ne_of_gt hpos
  have habs : |q| = q := abs_of_pos hpos
  unfold f32
  rw [if_neg hq, habs, log_two_eq q e hlo hhi, max_eq_left he, hmid, roundHalfEven_tie]

/-- No operation of `drawHorizontalArrow` rounds on this input: the two halved widths,
the two centres, the y of the segment and the two far edges are left as they are by
`rnd`. -/
def HorizontalExact (rnd : ℚ → ℚ) (parentX parentY parentW childX childW : ℚ) : Prop :=
  rnd (parentW / 2) = parentW / 2 ∧ rnd (childW / 2) = childW / 2 ∧
  rnd (parentX + parentW / 2) = parentX + parentW / 2 ∧
  rnd (childX + childW / 2) = childX + childW / 2 ∧
  rnd (parentY + parentW / 2) = parentY + parentW / 2 ∧
  rnd (parentX + parentW) = parentX + parentW ∧
  rnd (childX + childW) = childX + childW

/-- When no operation rounds, the rounded horizontal route connects the facing edges as
the route of exact arithmetic does. -/
theorem drawHorizontalArrowRounded_facing (rnd : ℚ → ℚ) (hyp : ℚ → ℚ → ℚ)
    (px py pw cx cw : ℚ) (hpw : 0 ≤ pw) (hcw : 0 ≤ cw)
    (hex : HorizontalExact rnd px py pw cx cw) :
    (px + pw ≤ cx →
      drawHorizontalArrowRounded rnd hyp px py pw cx cw
        = ⟨px + pw, py + pw / 2, cx, py + pw / 2⟩ ::
            createArrowHeadIn rnd hyp (px + pw) (py + pw / 2) cx (py + pw / 2) 8) ∧
    (cx + cw ≤ px →
      drawHorizontalArrowRounded rnd hyp px py pw cx cw
        = ⟨px, py + pw / 2, cx + cw, py + pw / 2⟩ ::
            createArrowHeadIn rnd hyp px (py + pw / 2) (cx + cw) (py + pw / 2) 8) := by
  obtain ⟨h1, h2, h3, h4, h5, h6, h7⟩ := hex
  unfold drawHorizontalArrowRounded
  simp only [h1, h2, h3, h4, h5, h6, h7]
  constructor
  · intro h
    by_cases hb : cx + cw / 2 > px + pw / 2
    · simp only [if_pos hb]
    · have e1 : pw = 0 := by linarith
      have e2 : cw = 0 := by linarith
      subst e1
      subst e2
      simp only [if_neg hb, add_zero]
  · intro h
    have hb : ¬ cx + cw / 2 > px + pw / 2 := by
      intro hb
      linarith
    simp only [if_neg hb]

/-- C5, as stated, fails in float32 for two rectangles that touch: for the parent
(16777218, 0, 2, h) and the child (16777220, 0, 2, h'), of equal y, the child lies to
the right (16777218 + 2 <= 16777220), but the float32 centres 16777218 + 1 and
16777220 + 1 are both 16777220 (ties, to the even neighbour), so the test
`endX > startX` fails and the segment runs from x = 16777218, the left edge of the
parent, to x = 16777222, the right edge of the child, not from 16777220 to 16777220. -/
theorem C5_tie_flip_counterexample :
    (16777218 : ℚ) + 2 ≤ 16777220 ∧ (0 : ℚ) ≤ 2 ∧
    selectArrow 16777218 0 16777220 0 = ArrowKind.horizontal ∧
    (drawHorizontalArrowRounded f32 hypot32 16777218 0 2 16777220 2).head?
      = some ⟨16777218, 1, 16777222, 1⟩ ∧
    (16777218 : ℚ) ≠ 16777218 + 2 ∧ (16777222 : ℚ) ≠ 16777220 := by
  have n1 := f32_natCast 1 (by norm_num)
  push_cast at n1
  have t1 : f32 16777219 = 16777220 := by
    rw [f32_eq_tie _ 24 8388609 (by norm_num) (by norm_num) (by norm_num) (by norm_num)]
    norm_num
  have t2 : f32 16777221 = 16777220 := by
    rw [f32_eq_tie _ 24 8388610 (by norm_num) (by norm_num) (by norm_num) (by norm_num)]
    norm_num
  have t3 : f32 16777222 = 16777222 := by
    rw [f32_eq _ 24 8388611 (by norm_num) (by norm_num) (by norm_num) (by norm_num)]
    norm_num
  refine ⟨by norm_num, by norm_num, selectArrow_horizontal _ _ _ _ rfl, ?_, by norm_num,
    by norm_num⟩
  unfold drawHorizontalArrowRounded
  norm_num [n1, t1, t2, t3]

/-- C5 (amended): for a parent and a child with equal y and non-negative widths, in
exact arithmetic, and in the float32 arithmetic of the source (every operation rounded
by `rnd`) whenever no operation of the horizontal route rounds, the route connects the
facing edges: if the child lies to the right (parent.x + parent.width <= child.x) its
segment runs from x = parent.x + parent.width to x = child.x; if the child lies to the
left (child.x + child.width <= parent.x) it runs from x = parent.x to
x = child.x + child.width. The arrow head is that of the segment. -/
theorem C5_facing_edges_when_exact :
    (∀ (id preID : Int) (preBtn btn : CanvasObject),
      preBtn.y = btn.y → 0 ≤ preBtn.w → 0 ≤ btn.w →
      (preBtn.x + preBtn.w ≤ btn.x →
        drawArrow id preID preBtn btn
          = ⟨id, preID, ArrowKind.horizontal,
              ⟨preBtn.x + preBtn.w, preBtn.y + preBtn.w / 2, btn.x,
                preBtn.y + preBtn.w / 2⟩ ::
              createArrowHead (preBtn.x + preBtn.w) (preBtn.y + preBtn.w / 2) btn.x
                (preBtn.y + preBtn.w / 2) 8⟩) ∧
      (btn.x + btn.w ≤ preBtn.x →
        drawArrow id preID preBtn btn
          = ⟨id, preID, ArrowKind.horizontal,
              ⟨preBtn.x, preBtn.y + preBtn.w / 2, btn.x + btn.w,
                preBtn.y + preBtn.w / 2⟩ ::
              createArrowHead preBtn.x (preBtn.y + preBtn.w / 2) (btn.x + btn.w)
                (preBtn.y + preBtn.w / 2) 8⟩)) ∧
    (∀ (rnd : ℚ → ℚ) (hyp : ℚ → ℚ → ℚ) (preBtn btn : CanvasObject),
      preBtn.y = btn.y → 0 ≤ preBtn.w → 0 ≤ btn.w →
      HorizontalExact rnd preBtn.x preBtn.y preBtn.w btn.x btn.w →
      selectArrow preBtn.x preBtn.y btn.x btn.y = ArrowKind.horizontal ∧
      (preBtn.x + preBtn.w ≤ btn.x →
        drawHorizontalArrowRounded rnd hyp preBtn.x preBtn.y preBtn.w btn.x btn.w
          = ⟨preBtn.x + preBtn.w, preBtn.y + preBtn.w / 2, btn.x,
              preBtn.y + preBtn.w / 2⟩ ::
            createArrowHeadIn rnd hyp (preBtn.x + preBtn.w) (preBtn.y + preBtn.w / 2)
              btn.x (preBtn.y + preBtn.w / 2) 8) ∧
      (btn.x + btn.w ≤ preBtn.x →
        drawHorizontalArrowRounded rnd hyp preBtn.x preBtn.y preBtn.w btn.x btn.w
          = ⟨preBtn.x, preBtn.y + preBtn.w / 2, btn.x + btn.w,
              preBtn.y + preBtn.w / 2⟩ ::
            createArrowHeadIn rnd hyp preBtn.x (preBtn.y + preBtn.w / 2)
              (btn.x + btn.w) (preBtn.y + preBtn.w / 2) 8)) := by
  constructor
  · intro id preID preBtn btn hy hpw hcw
    exact drawArrow_facing_edges id preID preBtn btn hy hpw hcw
  · intro rnd hyp preBtn btn hy hpw hcw hex
    exact ⟨selectArrow_horizontal _ _ _ _ hy,
      drawHorizontalArrowRounded_facing rnd hyp _ _ _ _ _ hpw hcw hex⟩

/-- C5 (amended) at two pairs: in exact arithmetic the parent (100,0,40,40) with its
child (0,0,40,40) to the left, whose segment runs from x = 100 to x = 0 + 40; in
float32 two buttons of the editor, the parent (0,69,46,46) with its child
(69,69,46,46) to the right, where no operation rounds and the segment runs from
x = 46 to x = 69 at y = 92. -/
theorem C5_facing_edges_when_exact_witness :
    (((0 : ℚ) + 40 ≤ 100) ∧
      drawArrow 2 1 ⟨46, 46, 100, 0, 40, 40⟩ ⟨46, 46, 0, 0, 40, 40⟩
        = ⟨2, 1, ArrowKind.horizontal,
            ⟨100, 0 + 40 / 2, 0 + 40, 0 + 40 / 2⟩ ::
              createArrowHead 100 (0 + 40 / 2) (0 + 40) (0 + 40 / 2) 8⟩) ∧
    (HorizontalExact f32 0 69 46 69 46 ∧
      drawHorizontalArrowRounded f32 hypot32 0 69 46 69 46
        = ⟨0 + 46, 69 + 46 / 2, 69, 69 + 46 / 2⟩ ::
            createArrowHeadIn f32 hypot32 (0 + 46) (69 + 46 / 2) 69 (69 + 46 / 2) 8) := by
  have hex : HorizontalExact f32 0 69 46 69 46 := by
    have n23 := f32_natCast 23 (by norm_num)
    have n46 := f32_natCast 46 (by norm_num)
    have n92 := f32_natCast 92 (by norm_num)
    have n115 := f32_natCast 115 (by norm_num)
    push_cast at n23 n46 n92 n115
    unfold HorizontalExact
    norm_num [n23, n46, n92, n115]
  refine ⟨⟨by norm_num, ?_⟩, hex, ?_⟩
  · exact (C5_facing_edges_when_exact.1 2 1 ⟨46, 46, 100, 0, 40, 40⟩
      ⟨46, 46, 0, 0, 40, 40⟩ rfl (by norm_num) (by norm_num)).2 (by norm_num)
  · exact (C5_facing_edges_when_exact.2 f32 hypot32 ⟨46, 46, 0, 69, 46, 46⟩
      ⟨46, 46, 69, 69, 46, 46⟩ rfl (by norm_num) (by norm_num) hex).2.1 (by norm_num)

end TalentEditor
